import Mathlib

/-!
# The Godot editor bridge (package `bridge`) and its users

A shallow embedding of `internal/bridge/bridge.go` and `internal/bridge/messages.go`,
of the tool catalog (`internal/tools`), of the tool and status handlers
(`internal/mcpserver/server.go`) and of the visualization relay
(`internal/visualizer/server.go`).

* The fields of `GodotBridge` are a record; everything outside the record that the
  methods touch (the process-wide id counter, the heap of channels, connections and
  contexts, and the sequence of observable effects) is collected in `World`.
* Every method is a function on `World`.  A method that holds several critical
  sections is split at the places where it releases `b.mu`, one function per section,
  and the method itself is their composition.
* A channel send can block; a function that sends returns `Option`, `none` meaning
  that the goroutine is stuck at the send.
* Concurrency is a step function `step : Action → Sys → Option Sys` over the world
  together with the program counters of the running goroutines; one action is one
  critical section (or one lock-free statement) of one goroutine.

* The functions of the Go standard library that the handlers call (`json.Marshal`,
  `json.Unmarshal`, `time.Time.Format`) are a parameter `GoLib`; the examples use the
  reader and writer `plainJSON`.

Logging is not modelled.
-/

namespace Bridge

/-! ## Wire types (`messages.go`) -/

mutual
/-- A decoded JSON value, as `json.Unmarshal` stores it in an `any`.  Numbers are kept
as integers (the whole numbers among the values of `float64`): the bridge never computes
with them. -/
inductive JSONValue where
  | null
  | bool (b : Bool)
  | number (n : Int)
  | string (s : String)
  | array (xs : JSONList)
  | object (kvs : JSONFields)
deriving DecidableEq
/-- The elements of a JSON array. -/
inductive JSONList where
  | nil
  | cons (hd : JSONValue) (tl : JSONList)
deriving DecidableEq
/-- The members of a JSON object (`map[string]any`). -/
inductive JSONFields where
  | nil
  | cons (k : String) (v : JSONValue) (tl : JSONFields)
deriving DecidableEq
end

/-- The type `map[string]any` of tool arguments; `none` is the nil map.  Every caller of
`InvokeTool` passes a map produced by `json.Unmarshal`, on which `json.Marshal` cannot
fail. -/
abbrev Args := Option JSONFields

/-- The type `json.RawMessage`: the raw bytes of a JSON value, `none` when nil. -/
abbrev RawMessage := Option String

/-- A Go `error`: `none` is nil, `some s` an error whose `Error()` text is `s`. -/
abbrev GoError := Option String

/-- The envelope `IncomingMessage` of all messages from Godot. -/
structure IncomingMessage where
  type : String
  ID : String
  Success : Option Bool
  Result : RawMessage
  Error : String
  ProjectPath : String
deriving DecidableEq

/-- The message `ToolInvokeMessage` sent to Godot to execute a tool. -/
structure ToolInvokeMessage where
  type : String
  ID : String
  Tool : String
  Args : Args
deriving DecidableEq

/-! ## Data model (`bridge.go`) -/

/-- The type `time.Duration`, in nanoseconds. -/
abbrev Duration := Int

/-- The constant `time.Second`. -/
def Second : Duration := 1000000000

/-- The constant `DefaultPort`. -/
def DefaultPort : Int := 6505

/-- The constant `DefaultTimeout`. -/
def DefaultTimeout : Duration := 30 * Second

/-- The constant `pingInterval`. -/
def pingInterval : Duration := 10 * Second

/-- The close code `websocket.StatusGoingAway` of the websocket library (RFC 6455). -/
def StatusGoingAway : Nat := 1001

/-- The struct `GodotInfo`; `ConnectedAt` is a clock reading. -/
structure GodotInfo where
  ProjectPath : String
  ConnectedAt : Nat
deriving DecidableEq

/-- The struct `invokeResult`. -/
structure invokeResult where
  Data : RawMessage
  Err : GoError
deriving DecidableEq

/-- The struct `pendingRequest`; `ch` is the identity of the channel
`make(chan invokeResult, 1)`. -/
structure pendingRequest where
  ch : Nat
  toolName : String
  start : Nat
deriving DecidableEq

/-- The fields of the struct `GodotBridge` (the mutex apart).  Pointers are identities
(`Nat`), nil is `none`; the map `pending` is an association list. -/
structure GodotBridge where
  port : Int
  timeout : Duration
  conn : Option Nat
  info : Option GodotInfo
  pending : List (String × pendingRequest)
  callbacks : List Nat
  httpServer : Option Nat
  cancelRead : Option Nat
deriving DecidableEq

/-- Which function performed a channel send. -/
inductive Sender where
  | handleToolResult
  | handleDisconnect
  | Stop
deriving DecidableEq

/-- The observable effects of the bridge, in the order in which they happen. -/
inductive Event where
  | lock
  | unlock
  | send (ch : Nat) (r : invokeResult) (src : Sender)
  | recv (ch : Nat) (r : invokeResult)
  | write (conn : Nat) (msg : ToolInvokeMessage)
  | accept (conn : Nat)
  | setReadLimit (conn : Nat) (n : Nat)
  | close (conn : Nat) (code : Nat) (reason : String)
  | cancel (ctx : Nat)
  | serverClose (srv : Nat)
  | callback (cb : Nat) (connected : Bool) (info : Option GodotInfo)
deriving DecidableEq

/-- The bridge together with what lives outside it: the package variable `nextID`, the
next free heap identity, and the effects so far. -/
structure World where
  b : GodotBridge
  nextID : Int
  heap : Nat
  trace : List Event
deriving DecidableEq

/-- The constructor `New`. -/
def New (port : Int) (timeout : Duration) : GodotBridge :=
  { port := port, timeout := timeout, conn := none, info := none, pending := [],
    callbacks := [], httpServer := none, cancelRead := none }

/-- The world at process start: a fresh bridge, `nextID` at its zero value. -/
def World.init (port : Int) (timeout : Duration) : World :=
  { b := New port timeout, nextID := 0, heap := 0, trace := [] }

/-- Record one effect. -/
def World.emit (w : World) (e : Event) : World :=
  { w with trace := w.trace ++ [e] }

/-- Replace the bridge record. -/
def World.setB (w : World) (b : GodotBridge) : World :=
  { w with b := b }

/-- Allocate a fresh heap object. -/
def World.alloc (w : World) : World :=
  { w with heap := w.heap + 1 }

/-! ## The map of pending calls -/

/-- The lookup `m[id]`. -/
def mapGet (m : List (String × pendingRequest)) (id : String) : Option pendingRequest :=
  (m.find? (fun e => e.1 == id)).map Prod.snd

/-- The builtin `delete(m, id)`. -/
def mapDelete (m : List (String × pendingRequest)) (id : String) :
    List (String × pendingRequest) :=
  m.filter (fun e => !(e.1 == id))

/-- The assignment `m[id] = p`. -/
def mapSet (m : List (String × pendingRequest)) (id : String) (p : pendingRequest) :
    List (String × pendingRequest) :=
  mapDelete m id ++ [(id, p)]

/-- The statement `delete(b.pending, id)`. -/
def World.deletePending (w : World) (id : String) : World :=
  w.setB { w.b with pending := mapDelete w.b.pending id }

/-! ## Channels of capacity one -/

/-- Number of values sent so far on channel `c`. -/
def sendCount (tr : List Event) (c : Nat) : Nat :=
  tr.countP (fun e => match e with
    | .send c1 _ _ => decide (c1 = c)
    | _ => false)

/-- Number of values received so far from channel `c`. -/
def recvCount (tr : List Event) (c : Nat) : Nat :=
  tr.countP (fun e => match e with
    | .recv c1 _ => decide (c1 = c)
    | _ => false)

/-- Number of values sitting in the buffer of channel `c`. -/
def chanLoad (tr : List Event) (c : Nat) : Nat :=
  sendCount tr c - recvCount tr c

/-- The values sent on channel `c`, oldest first, each with its sender. -/
def sentOn (tr : List Event) (c : Nat) : List (invokeResult × Sender) :=
  tr.filterMap (fun e => match e with
    | .send c1 r s => if c1 = c then some (r, s) else none
    | _ => none)

/-- The statement `ch <- r` on a channel made with capacity 1: it proceeds when the
buffer is empty and blocks otherwise. -/
def chanSend (c : Nat) (r : invokeResult) (src : Sender) (w : World) : Option World :=
  if chanLoad w.trace c = 0 then some (w.emit (.send c r src)) else none

/-- The oldest value in the buffer of channel `c`, if any. -/
def chanPeek (tr : List Event) (c : Nat) : Option (invokeResult × Sender) :=
  if chanLoad tr c = 0 then none else (sentOn tr c)[recvCount tr c]?

/-! ## Rendering of ids, durations and errors (Go standard library) -/

/-- Two-complement wrap-around of `atomic.Int64`. -/
def wrapInt64 (x : Int) : Int :=
  (x + 2 ^ 63) % 2 ^ 64 - 2 ^ 63

/-- The function `strconv.FormatInt(i, 10)`. -/
def FormatInt (i : Int) : String :=
  if i < 0 then "-" ++ Nat.repr i.natAbs else Nat.repr i.toNat

/-- The loop of `fmtFrac` in package `time`: the digits of the fraction, without
trailing zeros. -/
def fmtFracLoop : Nat → Nat → Bool → List Char → List Char × Nat × Bool
  | 0, v, pr, acc => (acc, v, pr)
  | i + 1, v, pr, acc =>
    let digit := v % 10
    let pr1 := pr || digit != 0
    fmtFracLoop i (v / 10) pr1 (if pr1 then Nat.digitChar digit :: acc else acc)

/-- The function `fmtFrac` of package `time`: the fraction of `v / 10^prec` and the
integer part. -/
def fmtFrac (v prec : Nat) : String × Nat :=
  match fmtFracLoop prec v false [] with
  | (acc, v1, pr) => (String.mk (if pr then '.' :: acc else acc), v1)

/-- The method `time.Duration.String`, which `fmt` applies for the verb `%s`. -/
def Duration.String (d : Duration) : String :=
  let u := d.natAbs
  let body :=
    if u < 1000000000 then
      if u = 0 then "0s"
      else if u < 1000 then Nat.repr u ++ "ns"
      else if u < 1000000 then
        match fmtFrac u 3 with
        | (f, u1) => Nat.repr u1 ++ f ++ "µs"
      else
        match fmtFrac u 6 with
        | (f, u1) => Nat.repr u1 ++ f ++ "ms"
    else
      match fmtFrac u 9 with
      | (f, secs) =>
        let s := Nat.repr (secs % 60) ++ f ++ "s"
        let mins := secs / 60
        if mins > 0 then
          let ms := Nat.repr (mins % 60) ++ "m" ++ s
          let hours := mins / 60
          if hours > 0 then Nat.repr hours ++ "h" ++ ms else ms
        else s
  if d < 0 then "-" ++ body else body

/-! ## `Stop`, `handleDisconnect`, `notifyConnectionChange` -/

/-- The loop `for id, p := range b.pending { p.ch <- invokeResult{Err: ...};
delete(b.pending, id) }` over the entries `es` of the map.  Go ranges over a map in an
unspecified order, for which the order of the list stands; how many values each channel
gets does not depend on it. -/
def drain (errText : String) (src : Sender) :
    List (String × pendingRequest) → World → Option World
  | [], w => some w
  | (id, p) :: rest, w =>
    match chanSend p.ch { Data := none, Err := some errText } src w with
    | none => none
    | some w1 => drain errText src rest (w1.deletePending id)

/-- The statement `if b.cancelRead != nil { b.cancelRead(); b.cancelRead = nil }`. -/
def cancelReadLoop (w : World) : World :=
  match w.b.cancelRead with
  | some c => (w.emit (.cancel c)).setB { w.b with cancelRead := none }
  | none => w

/-- The method `Stop` (lines 101-126). -/
def Stop (w : World) : Option World :=
  match drain "server shutting down" .Stop w.b.pending (w.emit .lock) with
  | none => none
  | some w1 =>
    let w2 := cancelReadLoop w1
    let w3 := match w2.b.conn with
      | some c =>
        (w2.emit (.close c StatusGoingAway "server shutting down")).setB
          { w2.b with conn := none }
      | none => w2
    let w4 := match w3.b.httpServer with
      | some srv => (w3.emit (.serverClose srv)).setB { w3.b with httpServer := none }
      | none => w3
    some (w4.emit .unlock)

/-- The method `notifyConnectionChange` (lines 362-383): the callbacks are copied under
the lock and called outside it, each one inside a `recover`. -/
def notifyConnectionChange (connected : Bool) (info : List (Option GodotInfo))
    (w : World) : World :=
  let cbs := w.b.callbacks
  let w1 := (w.emit .lock).emit .unlock
  let gi : Option GodotInfo := match info with
    | [] => none
    | i :: _ => i
  cbs.foldl (fun acc cb => acc.emit (.callback cb connected gi)) w1

/-- The critical section of `handleDisconnect` (lines 322-338); the result carries the
local variable `info`. -/
def handleDisconnect_locked (w : World) : Option (World × Option GodotInfo) :=
  let info := w.b.info
  match drain "Godot disconnected" .handleDisconnect w.b.pending (w.emit .lock) with
  | none => none
  | some w1 =>
    let w2 := cancelReadLoop w1
    let w3 := w2.setB { w2.b with conn := none, info := none }
    some (w3.emit .unlock, info)

/-- The method `handleDisconnect` (lines 321-342). -/
def handleDisconnect (w : World) : Option World :=
  match handleDisconnect_locked w with
  | none => none
  | some (w1, info) => some (notifyConnectionChange false [info] w1)

/-! ## `InvokeTool` -/

/-- The local variables `id`, `ch`, `conn` of one activation of `InvokeTool`, with its
parameters. -/
structure invokeCall where
  id : String
  ch : Nat
  conn : Option Nat
  toolName : String
  args : Args
deriving DecidableEq

/-- What `InvokeTool` returns: `(json.RawMessage, error)`. -/
abbrev InvokeReturn := RawMessage × GoError

/-- Lines 161-162 of `InvokeTool`: take the next id from the process-wide counter and
make the result channel.  The local `conn` is not read yet. -/
def InvokeTool_begin (toolName : String) (args : Args) (w : World) : World × invokeCall :=
  let n := wrapInt64 (w.nextID + 1)
  (({ w with nextID := n } : World).alloc,
    { id := FormatInt n, ch := w.heap, conn := none, toolName := toolName, args := args })

/-- Lines 164-171 of `InvokeTool`: under the lock read `b.conn` and, when it is not nil,
register the pending entry.  The call returns `Godot is not connected` right here when
the local `conn` is nil. -/
def InvokeTool_register (call : invokeCall) (now : Nat) (w : World) : World × invokeCall :=
  let w1 := w.emit .lock
  match w1.b.conn with
  | none => (w1.emit .unlock, { call with conn := none })
  | some c =>
    ((w1.setB { w1.b with
        pending := mapSet w1.b.pending call.id
          { ch := call.ch, toolName := call.toolName, start := now } }).emit .unlock,
      { call with conn := some c })

/-- Lines 173-196 of `InvokeTool`: build the message and write it to the connection
`c`; `writeErr` is the error of `conn.Write`, if any.  On an error the entry is deleted
and the error returned.  The message holds three strings and a map of decoded JSON, so
`json.Marshal` returns no error and the branch of lines 181-186 is never taken; the
effect `write` records the message rather than its bytes. -/
def InvokeTool_write (call : invokeCall) (c : Nat) (writeErr : GoError) (w : World) :
    World × GoError :=
  let msg : ToolInvokeMessage :=
    { type := "tool_invoke", ID := call.id, Tool := call.toolName, Args := call.args }
  match writeErr with
  | some e => (((w.emit .lock).deletePending call.id).emit .unlock, some ("send to Godot: " ++ e))
  | none => (w.emit (.write c msg), none)

/-- Lines 201-202 of `InvokeTool`: the case `result := <-ch` of the select, possible
when the channel holds a value. -/
def InvokeTool_receive (call : invokeCall) (w : World) : Option (World × InvokeReturn) :=
  match chanPeek w.trace call.ch with
  | none => none
  | some (r, _) => some (w.emit (.recv call.ch r), (r.Data, r.Err))

/-- Lines 203-207 of `InvokeTool`: the case `<-timeoutCtx.Done()` of the select. -/
def InvokeTool_deadline (call : invokeCall) (w : World) : World × InvokeReturn :=
  (((w.emit .lock).deletePending call.id).emit .unlock,
    (none, some ("tool " ++ call.toolName ++ " timed out after " ++ Duration.String w.b.timeout)))

/-- Which case of the `select` at line 200 fires. -/
inductive SelectCase where
  | result
  | deadline
deriving DecidableEq

/-- What the surroundings decide during one run of `InvokeTool`: the clock, the error of
`conn.Write`, and the case of the select that fires (the result case can fire only when
the channel holds a value). -/
structure InvokeEnv where
  now : Nat
  writeErr : GoError
  select : SelectCase
deriving DecidableEq

/-- The method `InvokeTool` (lines 160-209), run without another goroutine acting in
between. -/
def InvokeTool (toolName : String) (args : Args) (env : InvokeEnv) (w : World) :
    World × InvokeReturn :=
  match InvokeTool_begin toolName args w with
  | (w0, call0) =>
    match InvokeTool_register call0 env.now w0 with
    | (w1, call) =>
      match call.conn with
      | none => (w1, (none, some "Godot is not connected"))
      | some c =>
        match InvokeTool_write call c env.writeErr w1 with
        | (w2, some e) => (w2, (none, some e))
        | (w2, none) =>
          match env.select, InvokeTool_receive call w2 with
          | .result, some (w3, r) => (w3, r)
          | _, _ => InvokeTool_deadline call w2

/-! ## `handleUpgrade`, `handleMessage`, `handleToolResult` -/

/-- Lines 212-214 of `handleUpgrade`: read `b.conn != nil` under the lock. -/
def handleUpgrade_check (w : World) : World × Bool :=
  ((w.emit .lock).emit .unlock, w.b.conn.isSome)

/-- Lines 216-224 of `handleUpgrade`, the branch `hasConn`: accept, then close with
code 4000.  `acceptOK` tells whether `websocket.Accept` succeeds. -/
def handleUpgrade_reject (acceptOK : Bool) (w : World) : World :=
  if acceptOK then
    (w.alloc.emit (.accept w.heap)).emit
      (.close w.heap 4000 "Another Godot instance is already connected")
  else w

/-- Lines 226-233 of `handleUpgrade`: accept and raise the read limit. -/
def handleUpgrade_accept (acceptOK : Bool) (w : World) : World × Option Nat :=
  if acceptOK then
    ((w.alloc.emit (.accept w.heap)).emit (.setReadLimit w.heap (10 * 1024 * 1024)),
      some w.heap)
  else (w, none)

/-- Lines 235-241 of `handleUpgrade`: make the read context and install `conn`, `info`
and `cancelRead` under the lock.  Returns the read context. -/
def handleUpgrade_install (conn : Nat) (now : Nat) (w : World) : World × Nat :=
  let ctx := w.heap
  let w1 := w.alloc.emit .lock
  ((w1.setB { w1.b with
      conn := some conn,
      info := some { ProjectPath := "", ConnectedAt := now },
      cancelRead := some ctx }).emit .unlock, ctx)

/-- How the first part of `handleUpgrade` ends. -/
inductive UpgradeOutcome where
  | rejected
  | acceptFailed
  | installed (conn : Nat) (ctx : Nat)
deriving DecidableEq

/-- Lines 212-244 of `handleUpgrade`, up to the start of the read loop, run without
another goroutine acting in between. -/
def handleUpgrade_begin (acceptOK : Bool) (now : Nat) (w : World) : World × UpgradeOutcome :=
  match handleUpgrade_check w with
  | (w1, true) => (handleUpgrade_reject acceptOK w1, .rejected)
  | (w1, false) =>
    match handleUpgrade_accept acceptOK w1 with
    | (w2, none) => (w2, .acceptFailed)
    | (w2, some c) =>
      match handleUpgrade_install c now w2 with
      | (w3, ctx) => (notifyConnectionChange true [] w3, .installed c ctx)

/-- Lines 295-305 of `handleToolResult`: look the id up and delete it under the lock. -/
def handleToolResult_take (msg : IncomingMessage) (w : World) :
    World × Option pendingRequest :=
  let w1 := w.emit .lock
  match mapGet w1.b.pending msg.ID with
  | some p => ((w1.deletePending msg.ID).emit .unlock, some p)
  | none => (w1.emit .unlock, none)

/-- The value that lines 310-318 of `handleToolResult` send. -/
def toolResultValue (msg : IncomingMessage) : invokeResult :=
  if msg.Success = some true then { Data := msg.Result, Err := none }
  else
    let errMsg := if msg.Error = "" then "Tool execution failed" else msg.Error
    { Data := none, Err := some errMsg }

/-- Lines 307-318 of `handleToolResult`: send the outcome on the channel of the entry
taken. -/
def handleToolResult_deliver (p : pendingRequest) (msg : IncomingMessage) (w : World) :
    Option World :=
  chanSend p.ch (toolResultValue msg) .handleToolResult w

/-- The method `handleToolResult` (lines 294-319). -/
def handleToolResult (msg : IncomingMessage) (w : World) : Option World :=
  match handleToolResult_take msg w with
  | (w1, none) => some w1
  | (w1, some p) => handleToolResult_deliver p msg w1

/-- The case `godot_ready` of `handleMessage` (lines 283-288). -/
def handleGodotReady (msg : IncomingMessage) (w : World) : World :=
  let w1 := w.emit .lock
  let w2 := match w1.b.info with
    | some i => w1.setB { w1.b with info := some { i with ProjectPath := msg.ProjectPath } }
    | none => w1
  w2.emit .unlock

/-- The method `handleMessage` (lines 276-292), run without another goroutine acting in
between. -/
def handleMessage (msg : IncomingMessage) (w : World) : Option World :=
  if msg.type = "tool_result" then handleToolResult msg w
  else if msg.type = "pong" then some w
  else if msg.type = "godot_ready" then some (handleGodotReady msg w)
  else some w

/-- The method `Start` (lines 78-98); `listenErr` is the error of `net.Listen`, if
any. -/
def Start (listenErr : GoError) (w : World) : World × GoError :=
  match listenErr with
  | some e => (w, some ("listen on port " ++ toString w.b.port ++ ": " ++ e))
  | none => (w.alloc.setB { w.b with httpServer := some w.heap }, none)

/-- The method `OnConnectionChange` (lines 153-157). -/
def OnConnectionChange (cb : Nat) (w : World) : World :=
  let w1 := w.emit .lock
  (w1.setB { w1.b with callbacks := w1.b.callbacks ++ [cb] }).emit .unlock

/-! ## The goroutines and their interleaving -/

/-- How a registered call of `InvokeTool` ends. -/
inductive Outcome where
  | peerResult
  | remoteError
  | timeout
  | disconnected
  | shutdown
  | sendFailure
deriving DecidableEq

/-- Where one activation of `InvokeTool` stands. -/
inductive CallPC where
  | created
  | notConnected
  | registered (conn : Nat)
  | waiting
  | returned (o : Outcome) (r : InvokeReturn)
deriving DecidableEq

/-- The call is registered and has not returned. -/
def CallPC.active : CallPC → Bool
  | .registered _ => true
  | .waiting => true
  | _ => false

/-- One goroutine running `InvokeTool`. -/
structure CallThread where
  call : invokeCall
  pc : CallPC
deriving DecidableEq

/-- Where one goroutine running `handleUpgrade` stands. -/
inductive HandlerPC where
  | start
  | checked (hasConn : Bool)
  | accepted (conn : Nat)
  | installed (conn : Nat) (ctx : Nat)
  | reading (conn : Nat) (ctx : Nat)
  | resolving (conn : Nat) (ctx : Nat) (p : pendingRequest) (msg : IncomingMessage)
  | disconnecting (info : Option GodotInfo)
  | done
deriving DecidableEq

/-- The entry a handler has taken out of the map and not yet answered. -/
def HandlerPC.taken : HandlerPC → Option pendingRequest
  | .resolving _ _ p _ => some p
  | _ => none

/-- The accepted peer whose read loop this handler runs. -/
def HandlerPC.peer : HandlerPC → Option Nat
  | .installed c _ => some c
  | .reading c _ => some c
  | .resolving c _ _ _ => some c
  | _ => none

/-- The world and the goroutines: the calls of `InvokeTool` in the order in which they
took their ids, and the handshake handlers in the order of their requests. -/
structure Sys where
  w : World
  calls : List CallThread
  handlers : List HandlerPC
deriving DecidableEq

/-- The system at process start. -/
def Sys.init (port : Int) (timeout : Duration) : Sys :=
  { w := World.init port timeout, calls := [], handlers := [] }

/-- One step of one goroutine: `start`, `onConnectionChange` and `stop` of the main
goroutine; `request` to `notifyDisconnected` of a handshake handler (`frame` is one
round of its read loop, `none` a frame that is not JSON); `invoke` to `receive` of a
caller of `InvokeTool`.  The keepalive loop only writes pings to its connection, and
`IsConnected` and `GetStatus` only read: none of them changes what the steps below
see. -/
inductive Action where
  | start (listenErr : GoError)
  | onConnectionChange (cb : Nat)
  | request
  | check (h : Nat)
  | reject (h : Nat) (acceptOK : Bool)
  | accept (h : Nat) (acceptOK : Bool)
  | install (h : Nat) (now : Nat)
  | notifyConnected (h : Nat)
  | frame (h : Nat) (msg : Option IncomingMessage)
  | deliver (h : Nat)
  | readError (h : Nat)
  | notifyDisconnected (h : Nat)
  | stop
  | invoke (toolName : String) (args : Args)
  | register (k : Nat) (now : Nat)
  | write (k : Nat) (writeErr : GoError)
  | deadline (k : Nat)
  | receive (k : Nat)
deriving DecidableEq

/-- The outcome of a call that received `v` from its channel. -/
def outcomeOf (v : invokeResult × Sender) : Outcome :=
  match v.2 with
  | .Stop => .shutdown
  | .handleDisconnect => .disconnected
  | .handleToolResult => if v.1.Err = none then .peerResult else .remoteError

/-- Set the program counter of call `k`. -/
def Sys.setCall (s : Sys) (w : World) (k : Nat) (t : CallThread) : Sys :=
  { s with w := w, calls := s.calls.set k t }

/-- Set the program counter of handler `h`. -/
def Sys.setHandler (s : Sys) (w : World) (h : Nat) (pc : HandlerPC) : Sys :=
  { s with w := w, handlers := s.handlers.set h pc }

/-- The step function: `step a s` is the system after action `a`, or `none` when the
action is not possible in `s` (the goroutine is elsewhere, or it blocks). -/
def step (a : Action) (s : Sys) : Option Sys :=
  match a with
  | .start listenErr => some { s with w := (Start listenErr s.w).1 }
  | .onConnectionChange cb => some { s with w := OnConnectionChange cb s.w }
  | .request =>
    if s.w.b.httpServer.isSome then some { s with handlers := s.handlers ++ [.start] }
    else none
  | .check h =>
    match s.handlers[h]? with
    | some .start =>
      match handleUpgrade_check s.w with
      | (w1, hasConn) => some (s.setHandler w1 h (.checked hasConn))
    | _ => none
  | .reject h acceptOK =>
    match s.handlers[h]? with
    | some (.checked true) => some (s.setHandler (handleUpgrade_reject acceptOK s.w) h .done)
    | _ => none
  | .accept h acceptOK =>
    match s.handlers[h]? with
    | some (.checked false) =>
      match handleUpgrade_accept acceptOK s.w with
      | (w1, none) => some (s.setHandler w1 h .done)
      | (w1, some c) => some (s.setHandler w1 h (.accepted c))
    | _ => none
  | .install h now =>
    match s.handlers[h]? with
    | some (.accepted c) =>
      match handleUpgrade_install c now s.w with
      | (w1, ctx) => some (s.setHandler w1 h (.installed c ctx))
    | _ => none
  | .notifyConnected h =>
    match s.handlers[h]? with
    | some (.installed c ctx) =>
      some (s.setHandler (notifyConnectionChange true [] s.w) h (.reading c ctx))
    | _ => none
  | .frame h msg =>
    match s.handlers[h]? with
    | some (.reading c ctx) =>
      match msg with
      | none => some s
      | some m =>
        if m.type = "tool_result" then
          match handleToolResult_take m s.w with
          | (w1, none) => some { s with w := w1 }
          | (w1, some p) => some (s.setHandler w1 h (.resolving c ctx p m))
        else if m.type = "pong" then some s
        else if m.type = "godot_ready" then some { s with w := handleGodotReady m s.w }
        else some s
    | _ => none
  | .deliver h =>
    match s.handlers[h]? with
    | some (.resolving c ctx p m) =>
      match handleToolResult_deliver p m s.w with
      | some w1 => some (s.setHandler w1 h (.reading c ctx))
      | none => none
    | _ => none
  | .readError h =>
    match s.handlers[h]? with
    | some (.reading _ _) =>
      match handleDisconnect_locked s.w with
      | some (w1, info) => some (s.setHandler w1 h (.disconnecting info))
      | none => none
    | _ => none
  | .notifyDisconnected h =>
    match s.handlers[h]? with
    | some (.disconnecting info) =>
      some (s.setHandler (notifyConnectionChange false [info] s.w) h .done)
    | _ => none
  | .stop =>
    match Stop s.w with
    | some w1 => some { s with w := w1 }
    | none => none
  | .invoke toolName args =>
    match InvokeTool_begin toolName args s.w with
    | (w1, call) => some { s with w := w1, calls := s.calls ++ [{ call := call, pc := .created }] }
  | .register k now =>
    match s.calls[k]? with
    | some { call := call, pc := .created } =>
      match InvokeTool_register call now s.w with
      | (w1, call1) =>
        match call1.conn with
        | none => some (s.setCall w1 k { call := call1, pc := .notConnected })
        | some c => some (s.setCall w1 k { call := call1, pc := .registered c })
    | _ => none
  | .write k writeErr =>
    match s.calls[k]? with
    | some { call := call, pc := .registered c } =>
      match InvokeTool_write call c writeErr s.w with
      | (w1, some e) =>
        some (s.setCall w1 k { call := call, pc := .returned .sendFailure (none, some e) })
      | (w1, none) => some (s.setCall w1 k { call := call, pc := .waiting })
    | _ => none
  | .deadline k =>
    match s.calls[k]? with
    | some { call := call, pc := .waiting } =>
      match InvokeTool_deadline call s.w with
      | (w1, r) => some (s.setCall w1 k { call := call, pc := .returned .timeout r })
    | _ => none
  | .receive k =>
    match s.calls[k]? with
    | some { call := call, pc := .waiting } =>
      match chanPeek s.w.trace call.ch, InvokeTool_receive call s.w with
      | some v, some (w1, r) =>
        some (s.setCall w1 k { call := call, pc := .returned (outcomeOf v) r })
      | _, _ => none
    | _ => none

/-- Run a list of actions, one after the other. -/
def run : List Action → Sys → Option Sys
  | [], s => some s
  | a :: rest, s =>
    match step a s with
    | some s1 => run rest s1
    | none => none

/-- The states the system can be in: those reached from process start by steps. -/
inductive Reachable : Sys → Prop where
  | init (port : Int) (timeout : Duration) : Reachable (Sys.init port timeout)
  | step (a : Action) (s s1 : Sys) : Reachable s → step a s = some s1 → Reachable s1

/-- The channel of every pending entry is unused, and no two entries share a channel. -/
def PendingFresh (w : World) : Prop :=
  (∀ e ∈ w.b.pending, sendCount w.trace e.2.ch = 0) ∧ (w.b.pending.map (fun e => e.2.ch)).Nodup

instance (w : World) : Decidable (PendingFresh w) :=
  inferInstanceAs (Decidable (_ ∧ _))

/-! ## The invariant of the call correlator -/

/-- The channels on which a value has been sent, oldest first. -/
def sentChans (tr : List Event) : List Nat :=
  tr.filterMap (fun e => match e with
    | .send c _ _ => some c
    | _ => none)

/-- The values sent on the channels, oldest first: channel, value and sender. -/
def sends (tr : List Event) : List (Nat × invokeResult × Sender) :=
  tr.filterMap (fun e => match e with
    | .send c r src => some (c, r, src)
    | _ => none)

/-- The entry that handler `h` has taken out of the map and not yet answered. -/
def takenAt (s : Sys) (h : Nat) : Option pendingRequest :=
  (s.handlers[h]?).bind HandlerPC.taken

/-- The invariant of the call correlator, over the pending map `P`, the channels sent on
`S`, the heap bound `H`, the id counter `n`, the calls `C` and the entries `T` taken by
the handlers. -/
structure ViewInv (P : List (String × pendingRequest)) (S : List Nat) (H : Nat) (n : Int)
    (C : List CallThread) (T : Nat → Option pendingRequest) : Prop where
  pendNodup : (P.map (fun e => e.2.ch)).Nodup
  pendUnsent : ∀ e ∈ P, e.2.ch ∉ S
  sentNodup : S.Nodup
  sentLt : ∀ c ∈ S, c < H
  takenUnsent : ∀ h p, T h = some p → p.ch ∉ S
  takenNotPending : ∀ h p, T h = some p → ∀ e ∈ P, e.2.ch ≠ p.ch
  takenInj : ∀ h1 h2 p1 p2, T h1 = some p1 → T h2 = some p2 → p1.ch = p2.ch → h1 = h2
  takenCall : ∀ h p, T h = some p →
    ∃ (k : Nat) (t : CallThread), C[k]? = some t ∧ t.call.ch = p.ch ∧ t.pc ≠ CallPC.created
  callLt : ∀ (k : Nat) (t : CallThread), C[k]? = some t → t.call.ch < H
  callInj : ∀ (i j : Nat) (ti tj : CallThread), C[i]? = some ti → C[j]? = some tj → ti.call.ch = tj.call.ch → i = j
  createdUnsent : ∀ (k : Nat) (t : CallThread), C[k]? = some t → t.pc = CallPC.created → t.call.ch ∉ S
  pendCall : ∀ e ∈ P, ∃ (k : Nat) (t : CallThread), C[k]? = some t ∧ t.call.id = e.1 ∧ t.call.ch = e.2.ch ∧
    t.pc.active = true
  counter : n = wrapInt64 C.length
  callId : ∀ (k : Nat) (t : CallThread), C[k]? = some t → t.call.id = FormatInt (wrapInt64 (k + 1))

/-- The invariant of the call correlator in a state of the system. -/
def Inv (s : Sys) : Prop :=
  ViewInv s.w.b.pending (sentChans s.w.trace) s.w.heap s.w.nextID s.calls (takenAt s)

/-- The step from `w` to `w1` neither touches the pending map or the id counter nor
sends on a channel. -/
def World.Quiet (w w1 : World) : Prop :=
  w1.b.pending = w.b.pending ∧ w1.nextID = w.nextID ∧ w.heap ≤ w1.heap ∧
    sends w1.trace = sends w.trace

/-- What each function sends: `Stop` and `handleDisconnect` their fixed errors,
`handleToolResult` the value made from some inbound message. -/
def SendOK (r : invokeResult) : Sender → Prop
  | .Stop => r = { Data := none, Err := some "server shutting down" }
  | .handleDisconnect => r = { Data := none, Err := some "Godot disconnected" }
  | .handleToolResult => ∃ msg : IncomingMessage, r = toolResultValue msg

/-- What a call of tool `toolName` returns under each outcome. -/
def ReturnOK (toolName : String) (o : Outcome) (r : InvokeReturn) : Prop :=
  match o with
  | .peerResult => r.2 = none
  | .remoteError => r.1 = none ∧ ∃ text : String, text ≠ "" ∧ r.2 = some text
  | .timeout => ∃ d : Duration,
      r = (none, some ("tool " ++ toolName ++ " timed out after " ++ Duration.String d))
  | .disconnected => r = (none, some "Godot disconnected")
  | .shutdown => r = (none, some "server shutting down")
  | .sendFailure => ∃ e : String, r = (none, some ("send to Godot: " ++ e))

/-- Every value in the list is one its sender sends. -/
def SendsOK (l : List (Nat × invokeResult × Sender)) : Prop :=
  ∀ x ∈ l, SendOK x.2.1 x.2.2

/-- Every call in the list that returned returned what its outcome says. -/
def ReturnsOK (C : List CallThread) : Prop :=
  ∀ (k : Nat) (t : CallThread) (o : Outcome) (r : InvokeReturn),
    C[k]? = some t → t.pc = CallPC.returned o r → ReturnOK t.call.toolName o r

/-- Every value sent is one its sender sends, and every call that returned returned what
its outcome says. -/
def OutcomesOK (s : Sys) : Prop :=
  SendsOK (sends s.w.trace) ∧ ReturnsOK s.calls

/-- Read a list of decimal digits back as a number. -/
def decodeDec (cs : List Char) : Nat :=
  cs.foldl (fun acc c => acc * 10 + (c.toNat - 48)) 0

/-! ## Values of type `any` and `map[string]any` -/

/-- The lookup `v, ok := m[key]`: `none` when the key is absent. -/
def JSONFields.get : JSONFields → String → Option JSONValue
  | .nil, _ => none
  | .cons k v tl, key => if k = key then some v else tl.get key

/-- The assignment `m[key] = val`. -/
def JSONFields.set : JSONFields → String → JSONValue → JSONFields
  | .nil, key, val => .cons key val .nil
  | .cons k v tl, key, val =>
    if k = key then .cons k val tl else .cons k v (tl.set key val)

/-- The keys of a map. -/
def JSONFields.keys : JSONFields → List String
  | .nil => []
  | .cons k _ tl => k :: tl.keys

/-- A map literal `map[string]any{k1: v1, ...}` with distinct keys. -/
def JSONFields.ofList : List (String × JSONValue) → JSONFields
  | [] => .nil
  | (k, v) :: rest => .cons k v (JSONFields.ofList rest)

/-- A slice literal `[]any{v1, ...}`. -/
def JSONList.ofList : List JSONValue → JSONList
  | [] => .nil
  | v :: rest => .cons v (JSONList.ofList rest)

/-- A map literal as a value of type `any`. -/
def obj (l : List (String × JSONValue)) : JSONValue :=
  .object (JSONFields.ofList l)

/-- A slice literal (`[]any`, `[]map[string]any`) as a value of type `any`. -/
def arr (l : List JSONValue) : JSONValue :=
  .array (JSONList.ofList l)

/-- A slice literal `[]string{s1, ...}` as a value of type `any`. -/
def strs (l : List String) : JSONValue :=
  arr (l.map JSONValue.string)

/-- The lookup `args[key]` on a map that may be nil: the nil interface (JSON `null`)
when the key is absent. -/
def Args.index (args : Args) (key : String) : JSONValue :=
  match args with
  | none => .null
  | some m => (m.get key).getD .null

/-- A value of type `map[string]any` seen as an `any` for `json.Marshal`: the nil map
is written as `null`. -/
def Args.toJSON (args : Args) : JSONValue :=
  match args with
  | none => .null
  | some m => .object m

/-- The bytes of a `json.RawMessage`; nil has none. -/
def RawMessage.bytes (raw : RawMessage) : String :=
  raw.getD ""

/-! ## The Go standard library as a parameter -/

/-- What the handlers use of packages `encoding/json` and `time`.  The properties below
hold for every behaviour of these functions.  `json.Marshal` returns no error on the
values at hand (trees of maps with string keys, slices, strings, numbers, booleans and
nil), so it is a total function here. -/
structure GoLib where
  /-- The call `json.Unmarshal(data, &v)` for a nil `v` of type `any`: the decoded value,
  or `none` when it returns an error. -/
  Unmarshal : String → Option JSONValue
  /-- The call `json.Marshal(v)`. -/
  Marshal : JSONValue → String
  /-- The call `t.Format("2006-01-02T15:04:05.000Z")` on a clock reading. -/
  Format : Nat → String

/-- The call `json.Unmarshal(data, &m)` for a nil `m` of type `map[string]any`: `none` on
an error (not JSON, or JSON that is neither an object nor `null`); for `null` no error
and `m` stays nil. -/
def unmarshalMap (lib : GoLib) (data : String) : Option Args :=
  match lib.Unmarshal data with
  | some (.object kvs) => some (some kvs)
  | some .null => some none
  | _ => none

/-! ## A reader and a writer of JSON for the examples -/

/-- The order of keys in which `json.Marshal` writes a map: byte-wise on the UTF-8
encoding, which is the order of the code points. -/
def keyLess : List Char → List Char → Bool
  | [], [] => false
  | [], _ :: _ => true
  | _ :: _, [] => false
  | a :: as, b :: bs =>
    if a.toNat < b.toNat then true
    else if a.toNat = b.toNat then keyLess as bs
    else false

/-- Insert a member into a list of members sorted by key. -/
def insertField (k : String) (v : JSONValue) : JSONFields → JSONFields
  | .nil => .cons k v .nil
  | .cons k1 v1 tl =>
    if keyLess k.toList k1.toList then .cons k v (.cons k1 v1 tl)
    else .cons k1 v1 (insertField k v tl)

mutual
/-- Sort the members of every object by key, as `json.Marshal` writes a map. -/
def sortValue : JSONValue → JSONValue
  | .array xs => .array (sortList xs)
  | .object kvs => .object (sortFields kvs)
  | v => v
/-- Sort the objects in the elements of an array. -/
def sortList : JSONList → JSONList
  | .nil => .nil
  | .cons hd tl => .cons (sortValue hd) (sortList tl)
/-- Sort the members of an object by key. -/
def sortFields : JSONFields → JSONFields
  | .nil => .nil
  | .cons k v tl => insertField k (sortValue v) (sortFields tl)
end

mutual
/-- Write a value without spaces, the members of an object in the order given. -/
def writeValue : JSONValue → String
  | .null => "null"
  | .bool b => if b then "true" else "false"
  | .number n => FormatInt n
  | .string s => "\"" ++ s ++ "\""
  | .array xs => "[" ++ writeList xs ++ "]"
  | .object kvs => "\x7b" ++ writeFields kvs ++ "\x7d"
/-- Write the elements of an array, separated by commas. -/
def writeList : JSONList → String
  | .nil => ""
  | .cons hd .nil => writeValue hd
  | .cons hd tl => writeValue hd ++ "," ++ writeList tl
/-- Write the members of an object, separated by commas. -/
def writeFields : JSONFields → String
  | .nil => ""
  | .cons k v .nil => "\"" ++ k ++ "\":" ++ writeValue v
  | .cons k v tl => "\"" ++ k ++ "\":" ++ writeValue v ++ "," ++ writeFields tl
end

/-- Skip JSON white space. -/
def skipSpace : List Char → List Char
  | [] => []
  | c :: cs => if c = ' ' ∨ c = '\n' ∨ c = '\t' ∨ c = '\r' then skipSpace cs else c :: cs

/-- Read the characters of a string up to the closing quote; escapes and control
characters are outside the fragment. -/
def readString : List Char → List Char → Option (String × List Char)
  | [], _ => none
  | c :: cs, acc =>
    if c = '"' then some (String.mk acc.reverse, cs)
    else if c = '\\' ∨ c.toNat < 32 then none
    else readString cs (c :: acc)

/-- Read decimal digits. -/
def readDigits : List Char → Nat → Nat × List Char
  | [], n => (n, [])
  | c :: cs, n => if c.isDigit then readDigits cs (n * 10 + (c.toNat - 48)) else (n, c :: cs)

/-- Read a natural number without a leading zero, followed by neither a fraction nor an
exponent. -/
def readNat (cs : List Char) : Option (Nat × List Char) :=
  match cs with
  | [] => none
  | c :: rest =>
    if c = '0' then
      match rest with
      | d :: _ => if d.isDigit ∨ d = '.' ∨ d = 'e' ∨ d = 'E' then none else some (0, rest)
      | [] => some (0, rest)
    else if c.isDigit then
      match readDigits (c :: rest) 0 with
      | (n, d :: rest1) => if d = '.' ∨ d = 'e' ∨ d = 'E' then none else some (n, d :: rest1)
      | (n, []) => some (n, [])
    else none

mutual
/-- Read one value; `fuel` bounds the nesting and the number of members. -/
def readValue : Nat → List Char → Option (JSONValue × List Char)
  | 0, _ => none
  | fuel + 1, cs =>
    match skipSpace cs with
    | 'n' :: 'u' :: 'l' :: 'l' :: rest => some (.null, rest)
    | 't' :: 'r' :: 'u' :: 'e' :: rest => some (.bool true, rest)
    | 'f' :: 'a' :: 'l' :: 's' :: 'e' :: rest => some (.bool false, rest)
    | '"' :: rest =>
      match readString rest [] with
      | some (s, rest1) => some (.string s, rest1)
      | none => none
    | '[' :: rest =>
      match skipSpace rest with
      | ']' :: rest1 => some (.array .nil, rest1)
      | rest1 =>
        match readElements fuel rest1 with
        | some (xs, rest2) => some (.array xs, rest2)
        | none => none
    | '\x7b' :: rest =>
      match skipSpace rest with
      | '\x7d' :: rest1 => some (.object .nil, rest1)
      | rest1 =>
        match readMembers fuel rest1 with
        | some (kvs, rest2) => some (.object kvs, rest2)
        | none => none
    | '-' :: rest =>
      match readNat rest with
      | some (n, rest1) => some (.number (-(n : Int)), rest1)
      | none => none
    | rest =>
      match readNat rest with
      | some (n, rest1) => some (.number n, rest1)
      | none => none
/-- Read the elements of an array up to the closing bracket. -/
def readElements : Nat → List Char → Option (JSONList × List Char)
  | 0, _ => none
  | fuel + 1, cs =>
    match readValue fuel cs with
    | none => none
    | some (v, rest) =>
      match skipSpace rest with
      | ']' :: rest1 => some (.cons v .nil, rest1)
      | ',' :: rest1 =>
        match readElements fuel rest1 with
        | some (xs, rest2) => some (.cons v xs, rest2)
        | none => none
      | _ => none
/-- Read the members of an object up to the closing brace; a key given twice keeps its
last value. -/
def readMembers : Nat → List Char → Option (JSONFields × List Char)
  | 0, _ => none
  | fuel + 1, cs =>
    match skipSpace cs with
    | '"' :: rest =>
      match readString rest [] with
      | none => none
      | some (k, rest1) =>
        match skipSpace rest1 with
        | ':' :: rest2 =>
          match readValue fuel rest2 with
          | none => none
          | some (v, rest3) =>
            match skipSpace rest3 with
            | '\x7d' :: rest4 => some (.cons k v .nil, rest4)
            | ',' :: rest4 =>
              match readMembers fuel rest4 with
              | some (kvs, rest5) =>
                match kvs.get k with
                | some _ => some (kvs, rest5)
                | none => some (.cons k v kvs, rest5)
              | none => none
            | _ => none
        | _ => none
    | _ => none
end

/-- The value that a JSON text denotes, numbers exact; `none` for a text that is not
JSON or lies outside the fragment read here (fractions, exponents, escapes). -/
def jsonValue (data : String) : Option JSONValue :=
  match readValue (data.length + 1) data.toList with
  | some (v, rest) => if skipSpace rest = [] then some v else none
  | none => none

/-- The number of binary digits of `m`, counted up to `fuel`. -/
def bitLength : Nat → Nat → Nat
  | 0, _ => 0
  | fuel + 1, m => if m = 0 then 0 else bitLength fuel (m / 2) + 1

/-- The `float64` nearest to the integer `n`, ties to even, which is what
`json.Unmarshal` stores for the number `n` in an `any` (by `strconv.ParseFloat`); `none`
when the number is out of range, that is when its magnitude rounds to 2^1024 or more,
for which `json.Unmarshal` returns an error. -/
def nearestFloat64 (n : Int) : Option Int :=
  let m := n.natAbs
  let len := bitLength 1100 m
  if len ≤ 53 then some n
  else
    let e := len - 53
    let q := m / 2 ^ e
    let r := m % 2 ^ e
    let q1 := if 2 ^ (e - 1) < r ∨ (r = 2 ^ (e - 1) ∧ q % 2 = 1) then q + 1 else q
    if 1024 < bitLength 1100 (q1 * 2 ^ e) then none
    else if n < 0 then some (-((q1 * 2 ^ e : Nat) : Int))
    else some ((q1 * 2 ^ e : Nat) : Int)

mutual
/-- The value with every number rounded to the nearest `float64`; `none` when a number
is out of range. -/
def float64Value : JSONValue → Option JSONValue
  | .number n =>
    match nearestFloat64 n with
    | some x => some (.number x)
    | none => none
  | .array xs =>
    match float64List xs with
    | some ys => some (.array ys)
    | none => none
  | .object kvs =>
    match float64Fields kvs with
    | some m => some (.object m)
    | none => none
  | v => some v
/-- The elements of an array with every number rounded. -/
def float64List : JSONList → Option JSONList
  | .nil => some .nil
  | .cons hd tl =>
    match float64Value hd, float64List tl with
    | some x, some ys => some (.cons x ys)
    | _, _ => none
/-- The members of an object with every number rounded. -/
def float64Fields : JSONFields → Option JSONFields
  | .nil => some .nil
  | .cons k v tl =>
    match float64Value v, float64Fields tl with
    | some x, some m => some (.cons k x m)
    | _, _ => none
end

/-- A reader and a writer that agree with `encoding/json` on the JSON of the examples:
objects, arrays, `true`, `false`, `null`, integers, and strings of printable characters
other than the quote, the backslash, `<`, `>` and `&`.  The reader stores a number as the
nearest `float64` and gives `none` (an error) for a number out of range and for every
text outside the fragment; the writer writes a number in full, as `json.Marshal` does
for magnitudes up to 2^53; the clock is written as its number. -/
def plainJSON : GoLib :=
  { Unmarshal := fun data =>
      match jsonValue data with
      | some v => float64Value v
      | none => none
    Marshal := fun v => writeValue (sortValue v)
    Format := fun t => Nat.repr t }

/-! ## The tool catalog (package `tools`) -/

/-- The struct `ToolDef`.  The fields `Description` and `InputSchema` are texts handed to
the MCP library at registration; no handler reads them, and they are left out. -/
structure ToolDef where
  Name : String
  MockFn : Args → JSONValue

/-- The function `str` (file_tools.go): the string in `v`, or the empty string when `v`
holds no string. -/
def str (v : JSONValue) : String :=
  match v with
  | .string s => s
  | _ => ""

/-- The function `mockNote` (scene_tools.go, lines 203-207). -/
def mockNote (m : JSONFields) : JSONFields :=
  (m.set "_mock" (.bool true)).set "_note" (.string "Connect Godot for real results.")

/-- The function `mockOK` (scene_tools.go, lines 197-201). -/
def mockOK (msg : String) : Args → JSONValue :=
  fun _ => .object (mockNote (JSONFields.ofList
    [("ok", .bool true), ("message", .string ("Mock: " ++ msg))]))

/-- The `MockFn` of `list_dir`. -/
def mock_list_dir (args : Args) : JSONValue :=
  let root := str (args.index "root")
  let root1 := if root = "" then "res://" else root
  obj [("path", .string root1),
    ("files", strs ["project.godot", "icon.svg", "default_env.tres"]),
    ("folders", strs ["scenes", "scripts", "assets", "addons"]),
    ("_mock", .bool true),
    ("_note", .string "This is mock data. Connect Godot for real results.")]

/-- The `MockFn` of `read_file`. -/
def mock_read_file (args : Args) : JSONValue :=
  obj [("path", args.index "path"),
    ("content", .string "# Mock file content\n# Connect Godot to read actual file contents\nextends Node\n\nfunc _ready():\n    print(\"Hello from mock!\")"),
    ("line_count", .number 5),
    ("_mock", .bool true)]

/-- The `MockFn` of `search_project`. -/
def mock_search_project (args : Args) : JSONValue :=
  let query := str (args.index "query")
  obj [("query", .string query),
    ("matches", arr [
      obj [("file", .string "res://scripts/player.gd"), ("line", .number 10),
        ("content", .string ("    # Mock match for \"" ++ query ++ "\""))],
      obj [("file", .string "res://scripts/enemy.gd"), ("line", .number 25),
        ("content", .string ("    # Another mock match for \"" ++ query ++ "\""))]]),
    ("total_matches", .number 2),
    ("_mock", .bool true)]

/-- The `MockFn` of `create_script`. -/
def mock_create_script (args : Args) : JSONValue :=
  obj [("success", .bool true),
    ("path", args.index "path"),
    ("message", .string ("Mock: Would create script at " ++ str (args.index "path") ++
      ". Connect Godot to actually create the file.")),
    ("_mock", .bool true)]

/-- The slice `fileTools`. -/
def fileTools : List ToolDef :=
  [{ Name := "list_dir", MockFn := mock_list_dir },
   { Name := "read_file", MockFn := mock_read_file },
   { Name := "search_project", MockFn := mock_search_project },
   { Name := "create_script", MockFn := mock_create_script }]

/-- The `MockFn` of `read_scene`. -/
def mock_read_scene (args : Args) : JSONValue :=
  obj [("ok", .bool true),
    ("scene_path", args.index "scene_path"),
    ("root", obj [("name", .string "Root"), ("type", .string "Node2D"),
      ("children", arr [obj [("name", .string "Sprite2D"), ("type", .string "Sprite2D")]])]),
    ("_mock", .bool true),
    ("_note", .string "Connect Godot for real results.")]

/-- The slice `sceneTools`. -/
def sceneTools : List ToolDef :=
  [{ Name := "create_scene", MockFn := mockOK "Scene would be created" },
   { Name := "read_scene", MockFn := mock_read_scene },
   { Name := "add_node", MockFn := fun args =>
       .object (mockNote (JSONFields.ofList
         [("ok", .bool true),
          ("message", .string ("Mock: Would add " ++ str (args.index "node_type") ++ " named " ++
         str (args.index "node_name")))])) },
   { Name := "remove_node", MockFn := fun args =>
       .object (mockNote (JSONFields.ofList
         [("ok", .bool true),
          ("message", .string ("Mock: Would remove node at " ++ str (args.index "node_path")))])) },
   { Name := "modify_node_property", MockFn := fun args =>
       .object (mockNote (JSONFields.ofList
         [("ok", .bool true),
          ("message", .string ("Mock: Would set " ++ str (args.index "property_name") ++ " on " ++
         str (args.index "node_path")))])) },
   { Name := "rename_node", MockFn := fun args =>
       .object (mockNote (JSONFields.ofList
         [("ok", .bool true),
          ("message", .string ("Mock: Would rename " ++ str (args.index "node_path") ++ " to " ++
         str (args.index "new_name")))])) },
   { Name := "move_node", MockFn := fun args =>
       .object (mockNote (JSONFields.ofList
         [("ok", .bool true),
          ("message", .string ("Mock: Would move " ++ str (args.index "node_path") ++ " to " ++
         str (args.index "new_parent_path")))])) },
   { Name := "attach_script", MockFn := fun args =>
       .object (mockNote (JSONFields.ofList
         [("ok", .bool true),
          ("message", .string ("Mock: Would attach " ++ str (args.index "script_path")))])) },
   { Name := "detach_script", MockFn := fun args =>
       .object (mockNote (JSONFields.ofList
         [("ok", .bool true),
          ("message", .string ("Mock: Would detach script from " ++ str (args.index "node_path")))])) },
   { Name := "set_collision_shape", MockFn := fun args =>
       .object (mockNote (JSONFields.ofList
         [("ok", .bool true),
          ("message", .string ("Mock: Would set " ++ str (args.index "shape_type") ++ " shape"))])) },
   { Name := "set_sprite_texture", MockFn := fun args =>
       .object (mockNote (JSONFields.ofList
         [("ok", .bool true),
          ("message", .string ("Mock: Would set " ++ str (args.index "texture_type") ++ " texture"))])) }]

/-- The slice `scriptTools`. -/
def scriptTools : List ToolDef :=
  [{ Name := "edit_script", MockFn := mockOK "Diff would be applied" },
   { Name := "validate_script", MockFn := fun args =>
       .object (mockNote (JSONFields.ofList
         [("ok", .bool true), ("path", args.index "path"), ("valid", .bool true),
          ("errors", arr [])])) },
   { Name := "create_folder", MockFn := fun args =>
       .object (mockNote (JSONFields.ofList
         [("ok", .bool true), ("path", args.index "path"),
          ("message", .string "Mock: Folder would be created")])) },
   { Name := "delete_file", MockFn := fun args =>
       .object (mockNote (JSONFields.ofList
         [("ok", .bool true), ("path", args.index "path"),
          ("message", .string "Mock: File would be deleted")])) },
   { Name := "rename_file", MockFn := fun args =>
       .object (mockNote (JSONFields.ofList
         [("ok", .bool true), ("old_path", args.index "old_path"),
          ("new_path", args.index "new_path"),
          ("message", .string "Mock: File would be renamed")])) },
   { Name := "list_scripts", MockFn := fun _ =>
       .object (mockNote (JSONFields.ofList
         [("ok", .bool true),
          ("scripts", strs ["res://scripts/player.gd", "res://scripts/enemy.gd"]),
          ("count", .number 2)])) }]

/-- The slice `projectTools`. -/
def projectTools : List ToolDef :=
  [{ Name := "get_project_settings", MockFn := fun _ =>
       .object (mockNote (JSONFields.ofList
         [("ok", .bool true),
          ("settings", obj [("main_scene", .string "res://scenes/main.tscn"),
            ("window", obj [("width", .number 1152), ("height", .number 648)])])])) },
   { Name := "get_input_map", MockFn := fun _ =>
       .object (mockNote (JSONFields.ofList
         [("ok", .bool true),
          ("actions", obj [("ui_accept", strs ["Enter", "Space"]),
            ("ui_cancel", strs ["Escape"]), ("move_left", strs ["A", "Left"])])])) },
   { Name := "get_collision_layers", MockFn := fun _ =>
       .object (mockNote (JSONFields.ofList
         [("ok", .bool true),
          ("layers_2d", obj [("1", .string "Player"), ("2", .string "Enemies"),
            ("3", .string "World")])])) },
   { Name := "get_node_properties", MockFn := fun args =>
       .object (mockNote (JSONFields.ofList
         [("ok", .bool true), ("node_type", args.index "node_type"),
          ("properties", strs ["position", "rotation", "scale", "visible", "modulate"])])) },
   { Name := "get_console_log", MockFn := fun _ =>
       .object (mockNote (JSONFields.ofList
         [("ok", .bool true),
          ("lines", strs ["[Godot] Project loaded", "[Godot] Scene ready"])])) },
   { Name := "get_errors", MockFn := fun _ =>
       .object (mockNote (JSONFields.ofList
         [("ok", .bool true), ("errors", arr []), ("count", .number 0)])) },
   { Name := "clear_console_log", MockFn := mockOK "Console would be cleared" },
   { Name := "open_in_godot", MockFn := fun args =>
       .object (mockNote (JSONFields.ofList
         [("ok", .bool true),
          ("message", .string ("Mock: Would open " ++ str (args.index "path")))])) },
   { Name := "scene_tree_dump", MockFn := fun _ =>
       .object (mockNote (JSONFields.ofList
         [("ok", .bool true),
          ("tree", .string "Root (Node2D)\n  Player (CharacterBody2D)\n    Sprite2D\n    CollisionShape2D")])) }]

/-- The slice `assetTools`. -/
def assetTools : List ToolDef :=
  [{ Name := "generate_2d_asset", MockFn := fun args =>
       .object (mockNote (JSONFields.ofList
         [("ok", .bool true),
          ("resource_path", .string ("res://assets/generated/" ++ str (args.index "filename"))),
          ("dimensions", obj [("width", .number 64), ("height", .number 64)])])) }]

/-- The `MockFn` of `map_project` (visualizer_tools.go, lines 16-44). -/
def mock_map_project (_args : Args) : JSONValue :=
  obj [("project_map", obj [
      ("nodes", arr [
        obj [("path", .string "res://scripts/player.gd"), ("filename", .string "player.gd"),
          ("folder", .string "res://scripts"),
          ("class_name", .string "Player"), ("extends", .string "CharacterBody2D"),
          ("description", .string "Handles player movement and input"),
          ("line_count", .number 85),
          ("variables", arr [obj [("name", .string "speed"), ("exported", .bool true)],
            obj [("name", .string "jump_force"), ("exported", .bool true)]]),
          ("functions", arr [obj [("name", .string "_ready"), ("params", .string "")],
            obj [("name", .string "_physics_process"), ("params", .string "delta: float")]]),
          ("signals", strs ["health_changed", "died"]),
          ("preloads", strs ["res://scenes/bullet.tscn"]),
          ("connections", arr [])],
        obj [("path", .string "res://scripts/enemy.gd"), ("filename", .string "enemy.gd"),
          ("folder", .string "res://scripts"),
          ("class_name", .string "Enemy"), ("extends", .string "CharacterBody2D"),
          ("description", .string "Base enemy AI with patrol and chase behavior"),
          ("line_count", .number 120),
          ("variables", arr [obj [("name", .string "patrol_speed"), ("exported", .bool true)]]),
          ("functions", arr [obj [("name", .string "_ready"), ("params", .string "")],
            obj [("name", .string "_physics_process"), ("params", .string "delta: float")]]),
          ("signals", strs ["enemy_defeated"]),
          ("preloads", arr []),
          ("connections", arr [obj [("signal", .string "body_entered"),
            ("line", .number 15)]])]]),
      ("edges", arr [obj [("from", .string "res://scripts/player.gd"),
        ("to", .string "res://scenes/bullet.tscn"), ("type", .string "preload")]]),
      ("total_scripts", .number 2),
      ("total_connections", .number 1)]),
    ("message", .string "Mock project map generated. Connect Godot for real data.")]

/-- The slice `visualizerTools`. -/
def visualizerTools : List ToolDef :=
  [{ Name := "map_project", MockFn := mock_map_project }]

/-- The slice `AllTools` as `init` builds it (registry.go, lines 8-13). -/
def AllTools : List ToolDef :=
  fileTools ++ sceneTools ++ scriptTools ++ projectTools ++ assetTools ++ visualizerTools

/-- The map `toolIndex` as `init` builds it (registry.go, lines 15-18): the tools are
entered in the order of `AllTools`, a later one replacing an earlier one of the same
name. -/
def toolIndex : String → Option ToolDef :=
  AllTools.foldl (fun m td => fun name => if name = td.Name then some td else m name)
    (fun _ => none)

/-- The function `Exists`. -/
def Exists (name : String) : Bool :=
  (toolIndex name).isSome

/-- The function `Get`; `none` is the nil pointer. -/
def Get (name : String) : Option ToolDef :=
  toolIndex name

/-- The function `GetMockResponse`. -/
def GetMockResponse (name : String) (args : Args) : JSONValue :=
  match toolIndex name with
  | none => obj [("error", .string ("Unknown tool: " ++ name))]
  | some td => td.MockFn args

/-! ## `IsConnected` and `GetStatus` (`bridge.go`) -/

/-- The struct `Status`; `ConnectedAt` is a pointer to a clock reading, nil when `none`. -/
structure Status where
  Connected : Bool
  ProjectPath : String
  ConnectedAt : Option Nat
  PendingRequests : Int
  Port : Int
deriving DecidableEq

/-- The method `IsConnected` (lines 129-133). -/
def IsConnected (w : World) : World × Bool :=
  ((w.emit .lock).emit .unlock, w.b.conn.isSome)

/-- The method `GetStatus` (lines 136-150). -/
def GetStatus (w : World) : World × Status :=
  let s : Status :=
    { Connected := w.b.conn.isSome, ProjectPath := "", ConnectedAt := none,
      PendingRequests := w.b.pending.length, Port := w.b.port }
  let s1 : Status := match w.b.info with
    | some i => { s with ProjectPath := i.ProjectPath, ConnectedAt := some i.ConnectedAt }
    | none => s
  ((w.emit .lock).emit .unlock, s1)

/-! ## The visualization relay (package `visualizer`) -/

/-- The constant `defaultVizPort`. -/
def defaultVizPort : Nat := 6510

/-- The `http.Server` that `Serve` starts: the port it listens on and the page it serves
at the root path. -/
structure Visualizer.HTTPServer where
  port : Nat
  page : String
deriving DecidableEq

/-- The fields of the struct `Server` (the mutex apart).  The field `bridge` tells
whether the pointer is not nil; it then points to the bridge of the world. -/
structure Visualizer.Server where
  bridge : Bool
  httpServer : Option Visualizer.HTTPServer
deriving DecidableEq

/-- The observable effects of the relay. -/
inductive Visualizer.Event where
  | lock
  | unlock
  | serverClose (port : Nat)
  | listen (port : Nat)
  | openBrowser (url : String)
deriving DecidableEq

/-- The relay together with its effects so far. -/
structure Visualizer.State where
  s : Visualizer.Server
  trace : List Visualizer.Event
deriving DecidableEq

/-- What the surroundings decide during `Serve`: the content of the embedded file system
`assets` (a file's text, or the text of the error of `ReadFile`), and the ports on which
`net.Listen` succeeds. -/
structure Visualizer.Env where
  assets : String → Except String String
  free : Nat → Bool

/-- The constructor `New` of the relay. -/
def Visualizer.New (bridge : Bool) : Visualizer.Server :=
  { bridge := bridge, httpServer := none }

/-- Record one effect of the relay. -/
def Visualizer.State.emit (v : Visualizer.State) (e : Visualizer.Event) : Visualizer.State :=
  { v with trace := v.trace ++ [e] }

/-- The method `Stop` of the relay (lines 111-120). -/
def Visualizer.Stop (v : Visualizer.State) : Visualizer.State :=
  let v1 := v.emit .lock
  let v2 : Visualizer.State := match v1.s.httpServer with
    | some srv => { (v1.emit (.serverClose srv.port)) with s := { v1.s with httpServer := none } }
    | none => v1
  v2.emit .unlock

/-- The call `strings.Replace(s, old, new, 1)`. -/
def replaceFirst : List Char → List Char → List Char → List Char
  | [], old, new => if old = [] then new else []
  | c :: cs, old, new =>
    if old.isPrefixOf (c :: cs) then new ++ (c :: cs).drop old.length
    else c :: replaceFirst cs old new

/-- The function `buildHTML` (lines 127-155); the error carries its text. -/
def buildHTML (assets : String → Except String String) (projectDataJSON : String) :
    Except String String :=
  match assets "assets/template.html" with
  | .error e => .error ("read template.html: " ++ e)
  | .ok templateBytes =>
    match assets "assets/visualizer.css" with
    | .error e => .error ("read visualizer.css: " ++ e)
    | .ok cssBytes =>
      let html := replaceFirst templateBytes.toList "%%CSS%%".toList cssBytes.toList
      let moduleScript := "window.__PROJECT_DATA__ = " ++ projectDataJSON ++ ";\n" ++
        "import './main.js';"
      .ok (String.mk (replaceFirst html "%%SCRIPT%%".toList moduleScript.toList))

/-- The function `findListener` (lines 217-225): the first port from `start` up to
`start + 99` on which `net.Listen` succeeds. -/
def findListener (free : Nat → Bool) (start : Nat) : Except String Nat :=
  match (List.range 100).find? (fun i => free (start + i)) with
  | some i => .ok (start + i)
  | none => .error ("no available port found starting from " ++ Nat.repr start)

/-- The method `Serve` (lines 33-108): the URL and the error.  A failure of `openBrowser`
is only logged. -/
def Visualizer.Serve (lib : GoLib) (env : Visualizer.Env) (projectData : JSONValue)
    (v : Visualizer.State) : Visualizer.State × (String × GoError) :=
  let v1 := Visualizer.Stop v
  let dataJSON := lib.Marshal projectData
  match buildHTML env.assets dataJSON with
  | .error e => (v1, ("", some e))
  | .ok htmlPage =>
    match findListener env.free defaultVizPort with
    | .error e => (v1, ("", some e))
    | .ok port =>
      let v2 := (v1.emit (.listen port)).emit .lock
      let v3 : Visualizer.State :=
        { v2 with s := { v2.s with httpServer := some { port := port, page := htmlPage } } }
      let url := "http://localhost:" ++ Nat.repr port
      ((v3.emit .unlock).emit (.openBrowser url), (url, none))

/-- The fields of the anonymous struct `msg` that `handleWS` decodes a frame into
(lines 174-178). -/
structure Visualizer.Envelope where
  ID : String
  Command : String
  Args : Args
deriving DecidableEq

/-- A runtime panic of Go: the text of the runtime error. -/
abbrev Panic := String

/-- Lines 205-214 of `handleInternalCommand`: the reply made from what `InvokeTool`
returned.  The assignment `result["ok"] = true` at line 213 panics when `result` is the
nil map, which `json.Unmarshal` leaves for the payload `null`. -/
def handleInternalCommand_reply (lib : GoLib) (r : InvokeReturn) : Except Panic JSONFields :=
  match r.2 with
  | some e => .ok (JSONFields.ofList [("ok", .bool false), ("error", .string e)])
  | none =>
    match unmarshalMap lib r.1.bytes with
    | none =>
      .ok (JSONFields.ofList
        [("ok", .bool false), ("error", .string "invalid response from Godot")])
    | some none => .error "assignment to entry in nil map"
    | some (some result) => .ok (result.set "ok" (.bool true))

/-- The method `handleInternalCommand` (lines 193-215), run without another goroutine
acting in between. -/
def handleInternalCommand (lib : GoLib) (s : Visualizer.Server) (command : String)
    (args : Args) (env : InvokeEnv) (w : World) : World × Except Panic JSONFields :=
  if s.bridge = false then
    (w, .ok (JSONFields.ofList [("ok", .bool false), ("error", .string "Bridge not initialized")]))
  else
    match IsConnected w with
    | (w1, false) =>
      (w1, .ok (JSONFields.ofList
        [("ok", .bool false), ("error", .string "Godot is not connected")]))
    | (w1, true) =>
      match InvokeTool ("visualizer._internal_" ++ command) args env w1 with
      | (w2, r) => (w2, handleInternalCommand_reply lib r)

/-- The function `mustJSON`. -/
def mustJSON (lib : GoLib) (v : JSONValue) : String :=
  lib.Marshal v

/-- One round of the read loop of `handleWS` (lines 174-187) on a frame that was read:
`frame` is what `json.Unmarshal(data, &msg)` gives, `none` when it returns an error.  The
result is the value handed to `mustJSON` for the browser, or the panic that ends the
handler before anything is written. -/
def handleWS_reply (lib : GoLib) (s : Visualizer.Server) (frame : Option Visualizer.Envelope)
    (env : InvokeEnv) (w : World) : World × Except Panic JSONValue :=
  match frame with
  | none => (w, .ok (obj [("error", .string "invalid JSON")]))
  | some msg =>
    match handleInternalCommand lib s msg.Command msg.Args env w with
    | (w1, .error p) => (w1, .error p)
    | (w1, .ok result) => (w1, .ok (.object (result.set "id" (.string msg.ID))))

/-- One round of the read loop of `handleWS`: the text written to the browser. -/
def handleWS_frame (lib : GoLib) (s : Visualizer.Server) (frame : Option Visualizer.Envelope)
    (env : InvokeEnv) (w : World) : World × Except Panic String :=
  match handleWS_reply lib s frame env w with
  | (w1, .error p) => (w1, .error p)
  | (w1, .ok v) => (w1, .ok (mustJSON lib v))

/-! ## The MCP server (package `mcpserver`) -/

/-- The constant `serverVersion`. -/
def serverVersion : String := "0.3.0"

/-- What a tool handler hands to the MCP library as `*mcp.CallToolResult`: the text of
its one content item and the flag `IsError`. -/
structure CallToolResult where
  Text : String
  IsError : Bool
deriving DecidableEq

/-- What a tool handler returns: `(*mcp.CallToolResult, error)`. -/
abbrev HandlerReturn := Option CallToolResult × GoError

/-- The function `textResult` (lines 151-161).  `json.Marshal` returns no error on the
values it is given here, so the branch of lines 153-155 is never taken. -/
def textResult (lib : GoLib) (v : JSONValue) : HandlerReturn :=
  (some { Text := lib.Marshal v, IsError := false }, none)

/-- The map that `errorResult` marshals (lines 164-170). -/
def errorValue (toolName : String) (args : Args) (err : String) (mode : String) : JSONValue :=
  obj [("error", .string err), ("tool", .string toolName), ("args", args.toJSON),
    ("mode", .string mode),
    ("hint", .string "The tool call was sent to Godot but failed. Check Godot editor for details.")]

/-- The function `errorResult` (lines 163-177). -/
def errorResult (lib : GoLib) (toolName : String) (args : Args) (err : String)
    (mode : String) : HandlerReturn :=
  (some { Text := lib.Marshal (errorValue toolName args err mode), IsError := true }, none)

/-- The struct `statusResponse`. -/
structure statusResponse where
  Connected : Bool
  ServerVersion : String
  WebSocketPort : Int
  Mode : String
  ProjectPath : String
  ConnectedAt : String
  PendingRequests : Int
  Message : String
deriving DecidableEq

/-- The value `json.Marshal` writes for a `statusResponse`, after the tags of its fields:
`connected_at` is left out when empty. -/
def statusResponse.toJSON (r : statusResponse) : JSONValue :=
  obj ([("connected", .bool r.Connected), ("server_version", .string r.ServerVersion),
      ("websocket_port", .number r.WebSocketPort), ("mode", .string r.Mode),
      ("project_path", .string r.ProjectPath)] ++
    (if r.ConnectedAt = "" then [] else [("connected_at", .string r.ConnectedAt)]) ++
    [("pending_requests", .number r.PendingRequests), ("message", .string r.Message)])

/-- Lines 67-89 of `statusHandler`: the response made from the status snapshot. -/
def statusHandler_response (lib : GoLib) (status : Status) : statusResponse :=
  let mode := if status.Connected then "live" else "mock"
  let msg :=
    if status.Connected then
      "Godot is connected" ++
        (if status.ProjectPath ≠ "" then " (" ++ status.ProjectPath ++ ")" else "") ++
        ". Tools will execute in the Godot editor."
    else
      "Godot is not connected. Tools will return mock data. Open a Godot project with the MCP plugin enabled to connect."
  { Connected := status.Connected, ServerVersion := serverVersion,
    WebSocketPort := status.Port, Mode := mode, ProjectPath := status.ProjectPath,
    ConnectedAt := match status.ConnectedAt with
      | some t => lib.Format t
      | none => "",
    PendingRequests := status.PendingRequests, Message := msg }

/-- The handler `statusHandler` (lines 64-93). -/
def statusHandler (lib : GoLib) (w : World) : World × HandlerReturn :=
  match GetStatus w with
  | (w1, status) => (w1, textResult lib (statusHandler_response lib status).toJSON)

/-- The state the tool handlers act on: the world of the bridge and the relay. -/
structure Host where
  w : World
  viz : Visualizer.State
deriving DecidableEq

/-- The function `handleMapProject` (lines 131-149). -/
def handleMapProject (lib : GoLib) (venv : Visualizer.Env) (result : JSONValue)
    (v : Visualizer.State) : Visualizer.State × JSONValue :=
  match result with
  | .object m =>
    match m.get "project_map" with
    | none => (v, result)
    | some projectMap =>
      match Visualizer.Serve lib venv projectMap v with
      | (v1, (_, some _)) => (v1, result)
      | (v1, (url, none)) => (v1, .object (m.set "visualization_url" (.string url)))
  | _ => (v, result)

/-- Lines 97-104 of `toolHandler`: decode the arguments of the request.  An error of
`json.Unmarshal` gives the empty map; the argument text `null` decodes without error and
leaves the nil map. -/
def parseArguments (lib : GoLib) (arguments : RawMessage) : Args :=
  match arguments with
  | none => some .nil
  | some data =>
    match unmarshalMap lib data with
    | none => some .nil
    | some args => args

/-- Lines 122-127 of `toolHandler`: the post-processing for `map_project` and the text
result. -/
def toolHandler_finish (lib : GoLib) (venv : Visualizer.Env) (td : ToolDef)
    (result : JSONValue) (h : Host) : Host × HandlerReturn :=
  if td.Name = "map_project" then
    match handleMapProject lib venv result h.viz with
    | (v1, result1) => ({ h with viz := v1 }, textResult lib result1)
  else (h, textResult lib result)

/-- Lines 109-127 of `toolHandler`: what the handler does with the return `r` of
`InvokeTool`, in the state `h` that it finds after the call. -/
def toolHandler_route (lib : GoLib) (venv : Visualizer.Env) (td : ToolDef) (args : Args)
    (r : InvokeReturn) (h : Host) : Host × HandlerReturn :=
  match r.2 with
  | some err =>
    match IsConnected h.w with
    | (w1, false) => toolHandler_finish lib venv td (td.MockFn args) { h with w := w1 }
    | (w1, true) => ({ h with w := w1 }, errorResult lib td.Name args err "live")
  | none =>
    let result := match lib.Unmarshal r.1.bytes with
      | some v => v
      | none => .string r.1.bytes
    toolHandler_finish lib venv td result h

/-- The handler `toolHandler` of tool `td` (lines 95-129), run without another goroutine
acting in between. -/
def toolHandler (lib : GoLib) (venv : Visualizer.Env) (td : ToolDef) (arguments : RawMessage)
    (env : InvokeEnv) (h : Host) : Host × HandlerReturn :=
  let args := parseArguments lib arguments
  match InvokeTool td.Name args env h.w with
  | (w1, r) => toolHandler_route lib venv td args r { h with w := w1 }

/-! ## Callbacks that panic, and the rounds of the read loop -/

/-- The call `cb(connected, gi)` of the callback registered at position `i`: `panics i`
is the value the callback panics with, `none` when it returns.  A callback does not
touch the bridge. -/
def callCallback (panics : Nat → Option Panic) (i : Nat) (cb : Nat) (connected : Bool)
    (gi : Option GodotInfo) (w : World) : World × Except Panic Unit :=
  (w.emit (.callback cb connected gi),
    match panics i with
    | some p => .error p
    | none => .ok ())

/-- The function literal of lines 373-380 of `notifyConnectionChange`: the call of the
callback with the deferred `recover`, which stops a panic of the callback (the value is
logged) and lets the function literal return. -/
def notifyConnectionChange_call (panics : Nat → Option Panic) (i : Nat) (cb : Nat)
    (connected : Bool) (gi : Option GodotInfo) (w : World) : World × Except Panic Unit :=
  match callCallback panics i cb connected gi w with
  | (w1, .error _) => (w1, .ok ())
  | (w1, .ok u) => (w1, .ok u)

/-- The loop `for _, cb := range cbs` of `notifyConnectionChange` (lines 372-381) from
position `i` on; a panic that leaves the body would end the loop. -/
def notifyConnectionChange_loop (panics : Nat → Option Panic) (connected : Bool)
    (gi : Option GodotInfo) : Nat → List Nat → World → World × Except Panic Unit
  | _, [], w => (w, .ok ())
  | i, cb :: rest, w =>
    match notifyConnectionChange_call panics i cb connected gi w with
    | (w1, .error p) => (w1, .error p)
    | (w1, .ok _) => notifyConnectionChange_loop panics connected gi (i + 1) rest w1

/-- The method `notifyConnectionChange` (lines 362-383) with callbacks that may panic:
the world after it, and the panic that leaves it, if any. -/
def notifyConnectionChange_run (panics : Nat → Option Panic) (connected : Bool)
    (info : List (Option GodotInfo)) (w : World) : World × Except Panic Unit :=
  let cbs := w.b.callbacks
  let w1 := (w.emit .lock).emit .unlock
  let gi : Option GodotInfo := match info with
    | [] => none
    | i :: _ => i
  notifyConnectionChange_loop panics connected gi 0 cbs w1

/-- One round of `readLoop` (lines 258-273) on a frame that was read: `frame` is what
`json.Unmarshal(data, &msg)` gives, `none` when it returns an error. -/
def readLoop_round (frame : Option IncomingMessage) (w : World) : Option World :=
  match frame with
  | none => some w
  | some msg => handleMessage msg w

/-- The rounds of `readLoop` on the frames read, in order, run without another goroutine
acting in between. -/
def readLoop_rounds : List (Option IncomingMessage) → World → Option World
  | [], w => some w
  | frame :: rest, w =>
    match readLoop_round frame w with
    | none => none
    | some w1 => readLoop_rounds rest w1

/-- The frame is not JSON, or a message that is neither a `tool_result` nor a
`godot_ready`. -/
def droppedFrame (frame : Option IncomingMessage) : Bool :=
  match frame with
  | none => true
  | some msg => decide (msg.type ≠ "tool_result" ∧ msg.type ≠ "godot_ready")

/-! ## Sample runs -/

/-- A peer connects: the server starts, one handshake is checked, accepted, installed
and announced. -/
def connectActions : List Action :=
  [.start none, .request, .check 0, .accept 0 true, .install 0 7, .notifyConnected 0]

/-- After `connectActions`, one call of tool `X` is registered and written. -/
def pendingActions : List Action :=
  connectActions ++ [.invoke "X" none, .register 0 8, .write 0 none]

/-- Two handshakes pass the check `conn != nil` before either installs its connection. -/
def raceActions : List Action :=
  [.start none, .request, .request, .check 0, .check 1, .accept 0 true, .accept 1 true,
   .install 0 7, .notifyConnected 0]

/-- The state after a list of actions from process start with the default port and
timeout (process start itself when the list cannot be run). -/
def stateAfter (acts : List Action) : Sys :=
  (run acts (Sys.init DefaultPort DefaultTimeout)).getD (Sys.init DefaultPort DefaultTimeout)

/-- After `pendingActions`, the call times out and a second call is registered and
written. -/
def lateActions : List Action :=
  pendingActions ++ [.deadline 0, .invoke "Y" none, .register 1 9, .write 1 none]

/-- A peer connects and announces its project. -/
def readyActions : List Action :=
  connectActions ++
    [.frame 0 (some { type := "godot_ready", ID := "", Success := none, Result := none,
                      Error := "", ProjectPath := "/home/u/game" })]

/-- After `readyActions`, the server is stopped. -/
def staleActions : List Action :=
  readyActions ++ [.stop]

/-- A peer connects, a call of `list_dir` is registered and written, the server is
stopped, and the call receives the error that `Stop` sent. -/
def shutdownActions : List Action :=
  connectActions ++
    [.invoke "list_dir" (some .nil), .register 0 8, .write 0 none, .stop, .receive 0]

/-- A peer connects, a call of tool `toolName` with arguments `args` is registered and
written, the peer answers it with `success` true and the payload `payload`, and the call
receives the answer. -/
def answeredActions (toolName : String) (args : Args) (payload : String) : List Action :=
  connectActions ++
    [.invoke toolName args, .register 0 8, .write 0 none,
     .frame 0 (some { type := "tool_result", ID := "1", Success := some true,
                      Result := some payload, Error := "", ProjectPath := "" }),
     .deliver 0, .receive 0]

/-- The return of call `k` in state `s`, when it has returned. -/
def returnOf (s : Sys) (k : Nat) : Option InvokeReturn :=
  match s.calls[k]? with
  | some { call := _, pc := .returned _ r } => some r
  | _ => none

/-- An embedded file system with a page template and a style sheet, and surroundings in
which every port is free. -/
def sampleEnv : Visualizer.Env :=
  { assets := fun name =>
      if name = "assets/template.html" then .ok "<style>%%CSS%%</style><script>%%SCRIPT%%</script>"
      else if name = "assets/visualizer.css" then .ok "body \x7b\x7d"
      else .error ("open " ++ name ++ ": file does not exist")
    free := fun _ => true }

/-- The relay of `main` before any page was served. -/
def sampleViz : Visualizer.State :=
  { s := Visualizer.New true, trace := [] }

/-- A peer connects, a call of tool `toolName` is registered and written, the peer answers
it with `success` false and the error `boom`, the call receives the answer, and the peer
disconnects. -/
def failedActions (toolName : String) : List Action :=
  connectActions ++
    [.invoke toolName (some .nil), .register 0 8, .write 0 none,
     .frame 0 (some { type := "tool_result", ID := "1", Success := some false,
                      Result := none, Error := "boom", ProjectPath := "" }),
     .deliver 0, .receive 0, .readError 0]

/-- A call of `list_dir` finds no peer connected; a peer connects afterwards. -/
def lateConnectActions : List Action :=
  [.start none, .invoke "list_dir" (some .nil), .register 0 8, .request, .check 0,
   .accept 0 true, .install 0 7]

/-- A handshake is accepted, the server is stopped, and the handshake installs its
connection afterwards. -/
def lateInstallActions : List Action :=
  [.start none, .request, .check 0, .accept 0 true, .stop, .install 0 7]

/-! ## Counting sends -/

theorem sendCount_nil (c : Nat) : sendCount [] c = 0 := rfl

theorem sendCount_append (t1 t2 : List Event) (c : Nat) :
    sendCount (t1 ++ t2) c = sendCount t1 c + sendCount t2 c := by
  simp [sendCount, List.countP_append]

theorem sendCount_cons (e : Event) (t : List Event) (c : Nat) :
    sendCount (e :: t) c = sendCount [e] c + sendCount t c := by
  rw [← sendCount_append]; rfl

theorem sendCount_send (c1 c : Nat) (r : invokeResult) (src : Sender) :
    sendCount [Event.send c1 r src] c = if c1 = c then 1 else 0 := by
  by_cases h : c1 = c <;> simp [sendCount, List.countP_cons, h]

theorem sendCount_of_no_send (t : List Event)
    (h : ∀ e ∈ t, ∀ c1 r src, e ≠ Event.send c1 r src) (c : Nat) : sendCount t c = 0 := by
  unfold sendCount
  rw [List.countP_eq_zero]
  intro e he
  cases e <;> simp
  exact absurd rfl (h _ he _ _ _)

theorem chanLoad_eq_zero_of_sendCount (t : List Event) (c : Nat) (h : sendCount t c = 0) :
    chanLoad t c = 0 := by
  simp [chanLoad, h]

/-- Sends of the drain loop. -/
theorem sendCount_drain_events (errText : String) (src : Sender)
    (es : List (String × pendingRequest)) (c : Nat) (hnd : (es.map (fun e => e.2.ch)).Nodup) :
    sendCount (es.map (fun e => Event.send e.2.ch { Data := none, Err := some errText } src)) c
      = if c ∈ es.map (fun e => e.2.ch) then 1 else 0 := by
  induction es with
  | nil => simp [sendCount_nil]
  | cons e rest ih =>
    rw [List.map_cons, sendCount_cons, sendCount_send, List.map_cons, List.nodup_cons] at *
    rw [ih hnd.2]
    by_cases h1 : e.2.ch = c
    · subst h1
      simp [hnd.1]
    · have h2 : ¬ c = e.2.ch := fun h => h1 h.symm
      simp only [h1, if_false, Nat.zero_add, List.mem_cons, h2, false_or]

/-! ## The map of pending calls -/

theorem mapGet_mapDelete_self (m : List (String × pendingRequest)) (id : String) :
    mapGet (mapDelete m id) id = none := by
  simp [mapGet, mapDelete, List.find?_eq_none]

theorem mapGet_mapDelete_of_ne (m : List (String × pendingRequest)) (id id1 : String)
    (h : id1 ≠ id) : mapGet (mapDelete m id) id1 = mapGet m id1 := by
  simp only [mapGet, mapDelete, List.find?_filter]
  congr 2
  funext a
  by_cases h1 : a.1 = id1
  · have h2 : ¬ a.1 = id := fun h3 => h (h1.symm.trans h3)
    simp [h1, h2]
    exact h
  · simp [h1]

theorem mapGet_eq_none_iff (m : List (String × pendingRequest)) (id : String) :
    mapGet m id = none ↔ ∀ e ∈ m, e.1 ≠ id := by
  simp [mapGet, List.find?_eq_none]

theorem mapDelete_of_absent (m : List (String × pendingRequest)) (id : String)
    (h : mapGet m id = none) : mapDelete m id = m := by
  rw [mapGet_eq_none_iff] at h
  simp only [mapDelete, List.filter_eq_self]
  intro e he
  simpa using h e he

theorem mapDelete_mapSet (m : List (String × pendingRequest)) (id : String)
    (p : pendingRequest) : mapDelete (mapSet m id p) id = mapDelete m id := by
  simp [mapSet, mapDelete, List.filter_append, List.filter_filter]

theorem mem_mapDelete (m : List (String × pendingRequest)) (id : String)
    (e : String × pendingRequest) : e ∈ mapDelete m id ↔ e ∈ m ∧ e.1 ≠ id := by
  simp [mapDelete]

theorem mapGet_some_mem (m : List (String × pendingRequest)) (id : String)
    (p : pendingRequest) (h : mapGet m id = some p) : (id, p) ∈ m := by
  simp only [mapGet, Option.map_eq_some'] at h
  obtain ⟨e, he, rfl⟩ := h
  have h1 := List.find?_some he
  have h2 := List.mem_of_find?_eq_some he
  simp at h1
  rw [← h1]
  exact h2

/-! ## The drain loop, `Stop` and `handleDisconnect` in closed form -/

theorem drain_eq (errText : String) (src : Sender) :
    ∀ (es : List (String × pendingRequest)) (w : World),
      (∀ e ∈ es, sendCount w.trace e.2.ch = 0) → (es.map (fun e => e.2.ch)).Nodup →
      drain errText src es w = some
        { b := { w.b with
            pending := w.b.pending.filter (fun e => decide (e.1 ∉ es.map Prod.fst)) },
          nextID := w.nextID, heap := w.heap,
          trace := w.trace ++
            es.map (fun e => Event.send e.2.ch { Data := none, Err := some errText } src) } := by
  intro es
  induction es with
  | nil => intro w _ _; simp [drain]
  | cons e rest ih =>
    intro w h0 hnd
    obtain ⟨id, p⟩ := e
    rw [List.map_cons, List.nodup_cons] at hnd
    have hload : chanLoad w.trace p.ch = 0 :=
      chanLoad_eq_zero_of_sendCount _ _ (h0 (id, p) (List.mem_cons_self _ _))
    have hrest : ∀ e ∈ rest,
        sendCount ((w.emit (Event.send p.ch { Data := none, Err := some errText } src)
          ).deletePending id).trace e.2.ch = 0 := by
      intro e he
      have hne : p.ch ≠ e.2.ch := by
        intro heq
        exact hnd.1 (List.mem_map.2 ⟨e, he, heq.symm⟩)
      simp only [World.emit, World.deletePending, World.setB, sendCount_append, sendCount_send,
        hne, if_false, Nat.add_zero]
      exact h0 e (List.mem_cons_of_mem _ he)
    simp only [drain, chanSend, hload, if_true]
    rw [ih _ hrest hnd.2]
    simp only [World.emit, World.deletePending, World.setB, mapDelete, List.filter_filter,
      List.map_cons, List.append_assoc, List.singleton_append, Option.some.injEq]
    congr 2
    congr 1
    funext x
    by_cases hx : x.1 = id <;> simp [hx, Bool.and_comm]

theorem filter_not_mem_keys_self (m : List (String × pendingRequest)) :
    m.filter (fun e => decide (e.1 ∉ m.map Prod.fst)) = [] := by
  rw [List.filter_eq_nil_iff]
  intro e he
  simp only [decide_eq_true_eq, not_not]
  exact List.mem_map.2 ⟨e, he, rfl⟩

theorem drain_pending (errText : String) (src : Sender) (w : World)
    (h0 : ∀ e ∈ w.b.pending, sendCount w.trace e.2.ch = 0)
    (hnd : (w.b.pending.map (fun e => e.2.ch)).Nodup) :
    drain errText src w.b.pending w = some
      { b := { w.b with pending := [] }, nextID := w.nextID, heap := w.heap,
        trace := w.trace ++ w.b.pending.map
          (fun e => Event.send e.2.ch { Data := none, Err := some errText } src) } := by
  rw [drain_eq errText src w.b.pending w h0 hnd, filter_not_mem_keys_self]

theorem Stop_eq (w : World) (hf : PendingFresh w) :
    Stop w = some
      { b := { w.b with pending := [], cancelRead := none, conn := none, httpServer := none },
        nextID := w.nextID, heap := w.heap,
        trace := w.trace ++ [Event.lock] ++
          w.b.pending.map (fun e =>
            Event.send e.2.ch { Data := none, Err := some "server shutting down" } .Stop) ++
          (w.b.cancelRead.map Event.cancel).toList ++
          (w.b.conn.map (fun c => Event.close c StatusGoingAway "server shutting down")).toList ++
          (w.b.httpServer.map Event.serverClose).toList ++ [Event.unlock] } := by
  have h0 : ∀ e ∈ (w.emit .lock).b.pending, sendCount (w.emit .lock).trace e.2.ch = 0 := by
    intro e he
    simp only [World.emit, sendCount_append]
    rw [hf.1 e he]
    rfl
  have hd := drain_pending "server shutting down" .Stop (w.emit .lock) h0 hf.2
  simp only [World.emit] at hd
  simp only [Stop, World.emit, hd, cancelReadLoop]
  cases hc : w.b.cancelRead <;> cases hconn : w.b.conn <;> cases hs : w.b.httpServer <;>
    simp [World.emit, World.setB, hc, hconn, hs]

theorem handleDisconnect_locked_eq (w : World) (hf : PendingFresh w) :
    handleDisconnect_locked w = some
      ({ b := { w.b with pending := [], cancelRead := none, conn := none, info := none },
         nextID := w.nextID, heap := w.heap,
         trace := w.trace ++ [Event.lock] ++
          w.b.pending.map (fun e =>
            Event.send e.2.ch { Data := none, Err := some "Godot disconnected" }
              .handleDisconnect) ++
          (w.b.cancelRead.map Event.cancel).toList ++ [Event.unlock] }, w.b.info) := by
  have h0 : ∀ e ∈ (w.emit .lock).b.pending, sendCount (w.emit .lock).trace e.2.ch = 0 := by
    intro e he
    simp only [World.emit, sendCount_append]
    rw [hf.1 e he]
    rfl
  have hd := drain_pending "Godot disconnected" .handleDisconnect (w.emit .lock) h0 hf.2
  simp only [World.emit] at hd
  simp only [handleDisconnect_locked, World.emit, hd, cancelReadLoop]
  cases hc : w.b.cancelRead <;> simp [World.emit, World.setB, hc]

theorem notifyConnectionChange_fold (connected : Bool) (gi : Option GodotInfo) :
    ∀ (cbs : List Nat) (w : World),
      cbs.foldl (fun acc cb => acc.emit (.callback cb connected gi)) w =
        { w with trace := w.trace ++ cbs.map (fun cb => Event.callback cb connected gi) } := by
  intro cbs
  induction cbs with
  | nil => intro w; simp
  | cons cb rest ih =>
    intro w
    rw [List.foldl_cons, ih]
    simp [World.emit]

theorem notifyConnectionChange_eq (connected : Bool) (info : List (Option GodotInfo))
    (w : World) :
    notifyConnectionChange connected info w =
      { w with trace := w.trace ++ [Event.lock, Event.unlock] ++
          w.b.callbacks.map (fun cb => Event.callback cb connected (info.head?.join)) } := by
  simp only [notifyConnectionChange]
  rw [notifyConnectionChange_fold]
  cases info with
  | nil => simp [World.emit]
  | cons i rest => simp [World.emit]

theorem drain_some_b (errText : String) (src : Sender) :
    ∀ (es : List (String × pendingRequest)) (w w1 : World),
      drain errText src es w = some w1 →
      w1.b = { w.b with
        pending := w.b.pending.filter (fun e => decide (e.1 ∉ es.map Prod.fst)) } := by
  intro es
  induction es with
  | nil =>
    intro w w1 h
    simp only [drain, Option.some.injEq] at h
    subst h
    simp
  | cons e rest ih =>
    intro w w1 h
    obtain ⟨id, p⟩ := e
    simp only [drain, chanSend] at h
    split at h
    · exact absurd h (by simp)
    · rename_i w2 hw2
      split at hw2
      · simp only [Option.some.injEq] at hw2
        subst hw2
        rw [ih _ _ h]
        simp only [World.emit, World.deletePending, World.setB, mapDelete, List.filter_filter,
          List.map_cons]
        congr 2
        funext x
        by_cases hx : x.1 = id <;> simp [hx, Bool.and_comm]
      · exact absurd hw2 (by simp)

theorem Stop_some_b (w w1 : World) (h : Stop w = some w1) :
    w1.b = { w.b with pending := [], cancelRead := none, conn := none, httpServer := none } := by
  simp only [Stop] at h
  split at h
  · exact absurd h (by simp)
  · rename_i w2 hw2
    have hb := drain_some_b _ _ _ _ _ hw2
    simp only [World.emit] at hb
    rw [filter_not_mem_keys_self] at hb
    simp only [Option.some.injEq] at h
    subst h
    obtain ⟨b2, n2, hp2, tr2⟩ := w2
    simp only at hb
    subst hb
    simp only [cancelReadLoop]
    cases hc : w.b.cancelRead <;> cases hconn : w.b.conn <;> cases hs : w.b.httpServer <;>
      simp [World.emit, World.setB, hc, hconn, hs]

theorem handleDisconnect_eq (w : World) (hf : PendingFresh w) :
    handleDisconnect w = some (notifyConnectionChange false [w.b.info]
      { b := { w.b with pending := [], cancelRead := none, conn := none, info := none },
        nextID := w.nextID, heap := w.heap,
        trace := w.trace ++ [Event.lock] ++
          w.b.pending.map (fun e =>
            Event.send e.2.ch { Data := none, Err := some "Godot disconnected" }
              .handleDisconnect) ++
          (w.b.cancelRead.map Event.cancel).toList ++ [Event.unlock] }) := by
  simp only [handleDisconnect, handleDisconnect_locked_eq w hf]

/-! ## The invariant, one kind of step at a time -/

theorem wrapInt64_succ (x : Int) : wrapInt64 (wrapInt64 x + 1) = wrapInt64 (x + 1) := by
  unfold wrapInt64
  norm_num
  omega

theorem getElem?_set_some {α : Type} (l : List α) (k j : Nat) (a b : α)
    (h : (l.set k a)[j]? = some b) : (j = k ∧ b = a ∧ k < l.length) ∨ (j ≠ k ∧ l[j]? = some b) := by
  rw [List.getElem?_set] at h
  by_cases hkj : k = j
  · subst hkj
    simp only [if_true] at h
    by_cases hl : k < l.length
    · simp only [hl, if_true, Option.some.injEq] at h
      exact Or.inl ⟨rfl, h.symm, hl⟩
    · simp [hl] at h
  · simp only [hkj, if_false] at h
    exact Or.inr ⟨fun e => hkj e.symm, h⟩

theorem getElem?_lt {α : Type} (l : List α) (k : Nat) (a : α) (h : l[k]? = some a) :
    k < l.length := by
  rw [List.getElem?_eq_some] at h
  exact h.1

theorem ViewInv.heap_le {P S H n C T} (hv : ViewInv P S H n C T) (H1 : Nat) (hle : H ≤ H1) :
    ViewInv P S H1 n C T :=
  { hv with
    sentLt := fun c hc => Nat.lt_of_lt_of_le (hv.sentLt c hc) hle
    callLt := fun k t hk => Nat.lt_of_lt_of_le (hv.callLt k t hk) hle }

theorem ViewInv.taken_congr {P S H n C T} (hv : ViewInv P S H n C T)
    (T1 : Nat → Option pendingRequest) (hT : ∀ h, T1 h = T h) : ViewInv P S H n C T1 := by
  have : T1 = T := funext hT
  rw [this]
  exact hv

/-- A call takes its id and makes its channel (lines 161-162). -/
theorem ViewInv.invoke {P S H n C T} (hv : ViewInv P S H n C T) (tnew : CallThread)
    (hch : tnew.call.ch = H) (hid : tnew.call.id = FormatInt (wrapInt64 (n + 1)))
    (hpc : tnew.pc = CallPC.created) :
    ViewInv P S (H + 1) (wrapInt64 (n + 1)) (C ++ [tnew]) T := by
  have hget : ∀ (k : Nat) (t : CallThread), (C ++ [tnew])[k]? = some t →
      C[k]? = some t ∨ (k = C.length ∧ t = tnew) := by
    intro k t h
    rw [List.getElem?_append] at h
    by_cases hk : k < C.length
    · simp only [hk, if_true] at h
      exact Or.inl h
    · simp only [hk, if_false] at h
      have hk2 : k - C.length = 0 := by
        by_contra hne
        have : 1 ≤ k - C.length := Nat.one_le_iff_ne_zero.2 hne
        rw [List.getElem?_eq_none (by simpa using this)] at h
        cases h
      rw [hk2] at h
      simp only [List.getElem?_cons_zero, Option.some.injEq] at h
      exact Or.inr ⟨by omega, h.symm⟩
  have hold : ∀ (k : Nat) (t : CallThread), C[k]? = some t → (C ++ [tnew])[k]? = some t := by
    intro k t h
    rw [List.getElem?_append_left (getElem?_lt _ _ _ h)]
    exact h
  refine
    { pendNodup := hv.pendNodup
      pendUnsent := hv.pendUnsent
      sentNodup := hv.sentNodup
      sentLt := fun c hc => Nat.lt_succ_of_lt (hv.sentLt c hc)
      takenUnsent := hv.takenUnsent
      takenNotPending := hv.takenNotPending
      takenInj := hv.takenInj
      takenCall := ?_
      callLt := ?_
      callInj := ?_
      createdUnsent := ?_
      pendCall := ?_
      counter := ?_
      callId := ?_ }
  · intro h p hp
    obtain ⟨k, t, hk, h1, h2⟩ := hv.takenCall h p hp
    exact ⟨k, t, hold k t hk, h1, h2⟩
  · intro k t hk
    rcases hget k t hk with h1 | ⟨_, rfl⟩
    · exact Nat.lt_succ_of_lt (hv.callLt k t h1)
    · rw [hch]; exact Nat.lt_succ_self _
  · intro i j ti tj hi hj hij
    rcases hget i ti hi with h1 | ⟨e1, rfl⟩ <;> rcases hget j tj hj with h2 | ⟨e2, rfl⟩
    · exact hv.callInj i j ti tj h1 h2 hij
    · have := hv.callLt i ti h1
      omega
    · have := hv.callLt j tj h2
      omega
    · omega
  · intro k t hk hpc1
    rcases hget k t hk with h1 | ⟨_, rfl⟩
    · exact hv.createdUnsent k t h1 hpc1
    · intro hmem
      rw [hch] at hmem
      exact Nat.lt_irrefl _ (hv.sentLt _ hmem)
  · intro e he
    obtain ⟨k, t, hk, h1, h2, h3⟩ := hv.pendCall e he
    exact ⟨k, t, hold k t hk, h1, h2, h3⟩
  · rw [hv.counter, wrapInt64_succ]
    simp
  · intro k t hk
    rcases hget k t hk with h1 | ⟨e1, rfl⟩
    · exact hv.callId k t h1
    · rw [hid, hv.counter, wrapInt64_succ, e1]

/-- A call changes its program counter without touching the map. -/
theorem ViewInv.set_pc {P S H n C T} (hv : ViewInv P S H n C T) (k : Nat)
    (t t1 : CallThread) (hk : C[k]? = some t) (hch : t1.call.ch = t.call.ch)
    (hid : t1.call.id = t.call.id)
    (hact : t.pc.active = true → t1.pc.active = true ∨ ∀ e ∈ P, e.2.ch ≠ t.call.ch)
    (hcr : t1.pc = CallPC.created → t.pc = CallPC.created) :
    ViewInv P S H n (C.set k t1) T := by
  have hnew : (C.set k t1)[k]? = some t1 := by
    rw [List.getElem?_set]
    simp [getElem?_lt _ _ _ hk]
  have hother : ∀ j, j ≠ k → (C.set k t1)[j]? = C[j]? := by
    intro j hj
    rw [List.getElem?_set_ne (fun e => hj e.symm)]
  refine
    { pendNodup := hv.pendNodup
      pendUnsent := hv.pendUnsent
      sentNodup := hv.sentNodup
      sentLt := hv.sentLt
      takenUnsent := hv.takenUnsent
      takenNotPending := hv.takenNotPending
      takenInj := hv.takenInj
      takenCall := ?_
      callLt := ?_
      callInj := ?_
      createdUnsent := ?_
      pendCall := ?_
      counter := ?_
      callId := ?_ }
  · intro h p hp
    obtain ⟨j, tj, hj, h1, h2⟩ := hv.takenCall h p hp
    by_cases hjk : j = k
    · subst hjk
      rw [hk] at hj
      cases hj
      exact ⟨j, t1, hnew, hch.trans h1, fun hc => h2 (hcr hc)⟩
    · exact ⟨j, tj, (hother j hjk).trans hj, h1, h2⟩
  · intro j tj hj
    rcases getElem?_set_some _ _ _ _ _ hj with ⟨_, rfl, _⟩ | ⟨_, h1⟩
    · rw [hch]; exact hv.callLt k t hk
    · exact hv.callLt j tj h1
  · intro i j ti tj hi hj hij
    rcases getElem?_set_some _ _ _ _ _ hi with ⟨e1, rfl, _⟩ | ⟨e1, h1⟩ <;>
      rcases getElem?_set_some _ _ _ _ _ hj with ⟨e2, rfl, _⟩ | ⟨e2, h2⟩
    · rw [e1, e2]
    · rw [e1]; exact hv.callInj k j t tj hk h2 (hch.symm.trans hij)
    · rw [e2]; exact hv.callInj i k ti t h1 hk (hij.trans hch)
    · exact hv.callInj i j ti tj h1 h2 hij
  · intro j tj hj hpc
    rcases getElem?_set_some _ _ _ _ _ hj with ⟨_, rfl, _⟩ | ⟨_, h1⟩
    · rw [hch]; exact hv.createdUnsent k t hk (hcr hpc)
    · exact hv.createdUnsent j tj h1 hpc
  · intro e he
    obtain ⟨j, tj, hj, h1, h2, h3⟩ := hv.pendCall e he
    by_cases hjk : j = k
    · subst hjk
      rw [hk] at hj
      cases hj
      rcases hact h3 with h4 | h4
      · exact ⟨j, t1, hnew, hid.trans h1, hch.trans h2, h4⟩
      · exact absurd h2.symm (h4 e he)
    · exact ⟨j, tj, (hother j hjk).trans hj, h1, h2, h3⟩
  · rw [List.length_set]; exact hv.counter
  · intro j tj hj
    rcases getElem?_set_some _ _ _ _ _ hj with ⟨e1, rfl, _⟩ | ⟨_, h1⟩
    · rw [hid, e1]; exact hv.callId k t hk
    · exact hv.callId j tj h1

theorem mapDelete_sublist (m : List (String × pendingRequest)) (id : String) :
    (mapDelete m id).Sublist m :=
  List.filter_sublist _

theorem mapDelete_subset (m : List (String × pendingRequest)) (id : String)
    (e : String × pendingRequest) (he : e ∈ mapDelete m id) : e ∈ m :=
  ((mem_mapDelete m id e).1 he).1

theorem mapDelete_map_nodup (m : List (String × pendingRequest)) (id : String)
    (h : (m.map (fun e => e.2.ch)).Nodup) : ((mapDelete m id).map (fun e => e.2.ch)).Nodup :=
  List.Nodup.sublist ((mapDelete_sublist m id).map _) h

/-- A call registers its entry (lines 164-171, `conn` not nil). -/
theorem ViewInv.register {P S H n C T} (hv : ViewInv P S H n C T) (k : Nat)
    (t t1 : CallThread) (p : pendingRequest) (hk : C[k]? = some t)
    (hpc : t.pc = CallPC.created) (hch : t1.call.ch = t.call.ch)
    (hid : t1.call.id = t.call.id) (hp : p.ch = t.call.ch) (hact : t1.pc.active = true) :
    ViewInv (mapSet P t.call.id p) S H n (C.set k t1) T := by
  have hnotact : t.pc.active = false := by rw [hpc]; rfl
  have hcr1 : t1.pc ≠ CallPC.created := by
    intro h; rw [h] at hact; cases hact
  have hnew : (C.set k t1)[k]? = some t1 := by
    rw [List.getElem?_set]
    simp [getElem?_lt _ _ _ hk]
  have hother : ∀ j, j ≠ k → (C.set k t1)[j]? = C[j]? := by
    intro j hj
    rw [List.getElem?_set_ne (fun e => hj e.symm)]
  -- the channel of the registering call is fresh
  have hfreshP : ∀ e ∈ P, e.2.ch ≠ t.call.ch := by
    intro e he heq
    obtain ⟨j, tj, hj, _, h2, h3⟩ := hv.pendCall e he
    have hjk := hv.callInj j k tj t hj hk (h2.trans heq)
    subst hjk
    rw [hk] at hj
    cases hj
    rw [hnotact] at h3
    cases h3
  have hfreshT : ∀ h q, T h = some q → q.ch ≠ t.call.ch := by
    intro h q hq heq
    obtain ⟨j, tj, hj, h1, h2⟩ := hv.takenCall h q hq
    have hjk := hv.callInj j k tj t hj hk (h1.trans heq)
    subst hjk
    rw [hk] at hj
    cases hj
    exact h2 hpc
  have hmem : ∀ e, e ∈ mapSet P t.call.id p → (e ∈ P ∧ e.1 ≠ t.call.id) ∨ e = (t.call.id, p) := by
    intro e he
    simp only [mapSet, List.mem_append, List.mem_singleton] at he
    rcases he with h1 | h1
    · exact Or.inl ((mem_mapDelete _ _ _).1 h1)
    · exact Or.inr h1
  have hbase := hv.set_pc k t t1 hk hch hid (fun h => by rw [hnotact] at h; cases h)
    (fun h => absurd h hcr1)
  refine
    { pendNodup := ?_
      pendUnsent := ?_
      sentNodup := hv.sentNodup
      sentLt := hv.sentLt
      takenUnsent := hv.takenUnsent
      takenNotPending := ?_
      takenInj := hv.takenInj
      takenCall := hbase.takenCall
      callLt := hbase.callLt
      callInj := hbase.callInj
      createdUnsent := hbase.createdUnsent
      pendCall := ?_
      counter := hbase.counter
      callId := hbase.callId }
  · simp only [mapSet, List.map_append, List.map_cons, List.map_nil]
    rw [List.nodup_append]
    refine ⟨mapDelete_map_nodup _ _ hv.pendNodup, List.nodup_singleton _, ?_⟩
    intro c hc1 hc2
    simp only [List.mem_singleton] at hc2
    obtain ⟨e, he, rfl⟩ := List.mem_map.1 hc1
    exact hfreshP e (mapDelete_subset _ _ _ he) (hc2.trans hp)
  · intro e he
    rcases hmem e he with ⟨h1, _⟩ | rfl
    · exact hv.pendUnsent e h1
    · simp only
      rw [hp]
      exact hv.createdUnsent k t hk hpc
  · intro h q hq e he
    rcases hmem e he with ⟨h1, _⟩ | rfl
    · exact hv.takenNotPending h q hq e h1
    · simp only
      rw [hp]
      exact fun heq => hfreshT h q hq heq.symm
  · intro e he
    rcases hmem e he with ⟨h1, _⟩ | rfl
    · exact hbase.pendCall e h1
    · exact ⟨k, t1, hnew, hid, hch.trans hp.symm, hact⟩

/-- A call returns after deleting its own id (write failure, deadline). -/
theorem ViewInv.return_delete {P S H n C T} (hv : ViewInv P S H n C T) (k : Nat)
    (t t1 : CallThread) (hk : C[k]? = some t) (hch : t1.call.ch = t.call.ch)
    (hid : t1.call.id = t.call.id) (hcr : t1.pc ≠ CallPC.created) :
    ViewInv (mapDelete P t.call.id) S H n (C.set k t1) T := by
  have hnew : (C.set k t1)[k]? = some t1 := by
    rw [List.getElem?_set]
    simp [getElem?_lt _ _ _ hk]
  have hother : ∀ j, j ≠ k → (C.set k t1)[j]? = C[j]? := by
    intro j hj
    rw [List.getElem?_set_ne (fun e => hj e.symm)]
  refine
    { pendNodup := mapDelete_map_nodup _ _ hv.pendNodup
      pendUnsent := fun e he => hv.pendUnsent e (mapDelete_subset _ _ _ he)
      sentNodup := hv.sentNodup
      sentLt := hv.sentLt
      takenUnsent := hv.takenUnsent
      takenNotPending := fun h q hq e he =>
        hv.takenNotPending h q hq e (mapDelete_subset _ _ _ he)
      takenInj := hv.takenInj
      takenCall := ?_
      callLt := ?_
      callInj := ?_
      createdUnsent := ?_
      pendCall := ?_
      counter := ?_
      callId := ?_ }
  · intro h p hp
    obtain ⟨j, tj, hj, h1, h2⟩ := hv.takenCall h p hp
    by_cases hjk : j = k
    · subst hjk
      rw [hk] at hj
      cases hj
      exact ⟨j, t1, hnew, hch.trans h1, hcr⟩
    · exact ⟨j, tj, (hother j hjk).trans hj, h1, h2⟩
  · intro j tj hj
    rcases getElem?_set_some _ _ _ _ _ hj with ⟨_, rfl, _⟩ | ⟨_, h1⟩
    · rw [hch]; exact hv.callLt k t hk
    · exact hv.callLt j tj h1
  · intro i j ti tj hi hj hij
    rcases getElem?_set_some _ _ _ _ _ hi with ⟨e1, rfl, _⟩ | ⟨e1, h1⟩ <;>
      rcases getElem?_set_some _ _ _ _ _ hj with ⟨e2, rfl, _⟩ | ⟨e2, h2⟩
    · rw [e1, e2]
    · rw [e1]; exact hv.callInj k j t tj hk h2 (hch.symm.trans hij)
    · rw [e2]; exact hv.callInj i k ti t h1 hk (hij.trans hch)
    · exact hv.callInj i j ti tj h1 h2 hij
  · intro j tj hj hpc
    rcases getElem?_set_some _ _ _ _ _ hj with ⟨_, rfl, _⟩ | ⟨_, h1⟩
    · exact absurd hpc hcr
    · exact hv.createdUnsent j tj h1 hpc
  · intro e he
    obtain ⟨he1, he2⟩ := (mem_mapDelete _ _ _).1 he
    obtain ⟨j, tj, hj, h1, h2, h3⟩ := hv.pendCall e he1
    have hjk : j ≠ k := by
      intro hjk
      subst hjk
      rw [hk] at hj
      cases hj
      exact he2 h1.symm
    exact ⟨j, tj, (hother j hjk).trans hj, h1, h2, h3⟩
  · rw [List.length_set]; exact hv.counter
  · intro j tj hj
    rcases getElem?_set_some _ _ _ _ _ hj with ⟨e1, rfl, _⟩ | ⟨_, h1⟩
    · rw [hid, e1]; exact hv.callId k t hk
    · exact hv.callId j tj h1

/-- A call returns with the value it received from its channel. -/
theorem ViewInv.receive {P S H n C T} (hv : ViewInv P S H n C T) (k : Nat)
    (t t1 : CallThread) (hk : C[k]? = some t) (hch : t1.call.ch = t.call.ch)
    (hid : t1.call.id = t.call.id) (hcr : t1.pc ≠ CallPC.created)
    (hsent : t.call.ch ∈ S) :
    ViewInv P S H n (C.set k t1) T :=
  hv.set_pc k t t1 hk hch hid
    (fun _ => Or.inr (fun e he heq => hv.pendUnsent e he (heq ▸ hsent)))
    (fun h => absurd h hcr)

/-- A handler takes an entry out of the map (lines 295-300, id found). -/
theorem ViewInv.take {P S H n C T} (hv : ViewInv P S H n C T) (h : Nat) (id : String)
    (p : pendingRequest) (hp : mapGet P id = some p) :
    ViewInv (mapDelete P id) S H n C (fun j => if j = h then some p else T j) := by
  have hmem : (id, p) ∈ P := mapGet_some_mem P id p hp
  have hcases : ∀ j q, (if j = h then some p else T j) = some q →
      (j = h ∧ q = p) ∨ (j ≠ h ∧ T j = some q) := by
    intro j q hq
    by_cases hj : j = h
    · simp only [hj, if_true, Option.some.injEq] at hq
      exact Or.inl ⟨hj, hq.symm⟩
    · simp only [hj, if_false] at hq
      exact Or.inr ⟨hj, hq⟩
  refine
    { pendNodup := mapDelete_map_nodup _ _ hv.pendNodup
      pendUnsent := fun e he => hv.pendUnsent e (mapDelete_subset _ _ _ he)
      sentNodup := hv.sentNodup
      sentLt := hv.sentLt
      takenUnsent := ?_
      takenNotPending := ?_
      takenInj := ?_
      takenCall := ?_
      callLt := hv.callLt
      callInj := hv.callInj
      createdUnsent := hv.createdUnsent
      pendCall := fun e he => hv.pendCall e (mapDelete_subset _ _ _ he)
      counter := hv.counter
      callId := hv.callId }
  · intro j q hq
    rcases hcases j q hq with ⟨_, rfl⟩ | ⟨_, h1⟩
    · exact hv.pendUnsent _ hmem
    · exact hv.takenUnsent j q h1
  · intro j q hq e he
    obtain ⟨he1, he2⟩ := (mem_mapDelete _ _ _).1 he
    rcases hcases j q hq with ⟨_, rfl⟩ | ⟨_, h1⟩
    · intro heq
      have := List.inj_on_of_nodup_map hv.pendNodup he1 hmem heq
      rw [this] at he2
      exact he2 rfl
    · exact hv.takenNotPending j q h1 e he1
  · intro j1 j2 q1 q2 hq1 hq2 heq
    rcases hcases j1 q1 hq1 with ⟨e1, rfl⟩ | ⟨e1, h1⟩ <;>
      rcases hcases j2 q2 hq2 with ⟨e2, rfl⟩ | ⟨e2, h2⟩
    · rw [e1, e2]
    · exact absurd heq (hv.takenNotPending j2 q2 h2 _ hmem)
    · exact absurd heq.symm (hv.takenNotPending j1 q1 h1 _ hmem)
    · exact hv.takenInj j1 j2 q1 q2 h1 h2 heq
  · intro j q hq
    rcases hcases j q hq with ⟨_, rfl⟩ | ⟨_, h1⟩
    · obtain ⟨k, t, hk, _, h2, h3⟩ := hv.pendCall _ hmem
      refine ⟨k, t, hk, h2, ?_⟩
      intro hc
      rw [hc] at h3
      cases h3
    · exact hv.takenCall j q h1

/-- A handler sends the outcome on the channel of the entry it took (lines 310-318). -/
theorem ViewInv.deliver {P S H n C T} (hv : ViewInv P S H n C T) (h : Nat)
    (p : pendingRequest) (hT : T h = some p) :
    ViewInv P (S ++ [p.ch]) H n C (fun j => if j = h then none else T j) := by
  have hcases : ∀ j q, (if j = h then none else T j) = some q → j ≠ h ∧ T j = some q := by
    intro j q hq
    by_cases hj : j = h
    · simp [hj] at hq
    · simp only [hj, if_false] at hq
      exact ⟨hj, hq⟩
  have hmemS : ∀ c, c ∈ S ++ [p.ch] → c ∈ S ∨ c = p.ch := by
    intro c hc
    simpa using hc
  refine
    { pendNodup := hv.pendNodup
      pendUnsent := ?_
      sentNodup := ?_
      sentLt := ?_
      takenUnsent := ?_
      takenNotPending := fun j q hq => hv.takenNotPending j q (hcases j q hq).2
      takenInj := fun j1 j2 q1 q2 hq1 hq2 =>
        hv.takenInj j1 j2 q1 q2 (hcases j1 q1 hq1).2 (hcases j2 q2 hq2).2
      takenCall := fun j q hq => hv.takenCall j q (hcases j q hq).2
      callLt := hv.callLt
      callInj := hv.callInj
      createdUnsent := ?_
      pendCall := hv.pendCall
      counter := hv.counter
      callId := hv.callId }
  · intro e he hc
    rcases hmemS _ hc with h1 | h1
    · exact hv.pendUnsent e he h1
    · exact hv.takenNotPending h p hT e he h1
  · rw [List.nodup_append]
    refine ⟨hv.sentNodup, List.nodup_singleton _, ?_⟩
    intro c hc1 hc2
    simp only [List.mem_singleton] at hc2
    subst hc2
    exact hv.takenUnsent h p hT hc1
  · intro c hc
    rcases hmemS _ hc with h1 | h1
    · exact hv.sentLt c h1
    · obtain ⟨k, t, hk, h2, _⟩ := hv.takenCall h p hT
      rw [h1, ← h2]
      exact hv.callLt k t hk
  · intro j q hq hc
    obtain ⟨hj, h1⟩ := hcases j q hq
    rcases hmemS _ hc with h2 | h2
    · exact hv.takenUnsent j q h1 h2
    · exact hj (hv.takenInj j h q p h1 hT h2)
  · intro k t hk hpc hc
    rcases hmemS _ hc with h1 | h1
    · exact hv.createdUnsent k t hk hpc h1
    · obtain ⟨k1, t1, hk1, h2, h3⟩ := hv.takenCall h p hT
      have := hv.callInj k1 k t1 t hk1 hk (h2.trans h1.symm)
      subst this
      rw [hk] at hk1
      cases hk1
      exact h3 hpc

/-- The drain loop of `Stop` and `handleDisconnect` answers every entry and empties the
map. -/
theorem ViewInv.drain {P S H n C T} (hv : ViewInv P S H n C T) :
    ViewInv [] (S ++ P.map (fun e => e.2.ch)) H n C T := by
  have hmemS : ∀ c, c ∈ S ++ P.map (fun e => e.2.ch) → c ∈ S ∨ ∃ e ∈ P, e.2.ch = c := by
    intro c hc
    rw [List.mem_append] at hc
    rcases hc with h1 | h1
    · exact Or.inl h1
    · obtain ⟨e, he, rfl⟩ := List.mem_map.1 h1
      exact Or.inr ⟨e, he, rfl⟩
  refine
    { pendNodup := List.nodup_nil
      pendUnsent := fun e he => absurd he (List.not_mem_nil e)
      sentNodup := ?_
      sentLt := ?_
      takenUnsent := ?_
      takenNotPending := fun _ _ _ e he => absurd he (List.not_mem_nil e)
      takenInj := hv.takenInj
      takenCall := hv.takenCall
      callLt := hv.callLt
      callInj := hv.callInj
      createdUnsent := ?_
      pendCall := fun e he => absurd he (List.not_mem_nil e)
      counter := hv.counter
      callId := hv.callId }
  · rw [List.nodup_append]
    refine ⟨hv.sentNodup, hv.pendNodup, ?_⟩
    intro c hc1 hc2
    obtain ⟨e, he, rfl⟩ := List.mem_map.1 hc2
    exact hv.pendUnsent e he hc1
  · intro c hc
    rcases hmemS c hc with h1 | ⟨e, he, rfl⟩
    · exact hv.sentLt c h1
    · obtain ⟨k, t, hk, _, h2, _⟩ := hv.pendCall e he
      rw [← h2]
      exact hv.callLt k t hk
  · intro h p hp hc
    rcases hmemS _ hc with h1 | ⟨e, he, h1⟩
    · exact hv.takenUnsent h p hp h1
    · exact hv.takenNotPending h p hp e he h1
  · intro k t hk hpc hc
    rcases hmemS _ hc with h1 | ⟨e, he, h1⟩
    · exact hv.createdUnsent k t hk hpc h1
    · obtain ⟨k1, t1, hk1, _, h2, h3⟩ := hv.pendCall e he
      have := hv.callInj k1 k t1 t hk1 hk (h2.trans h1)
      subst this
      rw [hk] at hk1
      cases hk1
      rw [hpc] at h3
      cases h3

theorem ViewInv.init (port : Int) (timeout : Duration) :
    Inv (Sys.init port timeout) := by
  refine
    { pendNodup := List.nodup_nil
      pendUnsent := fun e he => absurd he (List.not_mem_nil e)
      sentNodup := List.nodup_nil
      sentLt := fun c hc => absurd hc (List.not_mem_nil c)
      takenUnsent := ?_
      takenNotPending := fun _ _ _ e he => absurd he (List.not_mem_nil e)
      takenInj := ?_
      takenCall := ?_
      callLt := ?_
      callInj := ?_
      createdUnsent := ?_
      pendCall := fun e he => absurd he (List.not_mem_nil e)
      counter := by show (0 : Int) = wrapInt64 ((0 : Nat) : Int); decide
      callId := ?_ }
  all_goals simp [Sys.init, takenAt]

/-! ## The effect of each function on the pending map, the counter and the channels -/

theorem sentChans_append (t1 t2 : List Event) :
    sentChans (t1 ++ t2) = sentChans t1 ++ sentChans t2 := by
  simp [sentChans, List.filterMap_append]

theorem sends_append (t1 t2 : List Event) : sends (t1 ++ t2) = sends t1 ++ sends t2 := by
  simp [sends, List.filterMap_append]

theorem sentChans_eq_map (tr : List Event) : sentChans tr = (sends tr).map Prod.fst := by
  induction tr with
  | nil => rfl
  | cons e rest ih =>
    rw [← List.singleton_append, sentChans_append, sends_append, List.map_append, ih]
    cases e <;> rfl

theorem Quiet.sentChans {w w1 : World} (h : World.Quiet w w1) :
    sentChans w1.trace = sentChans w.trace := by
  rw [sentChans_eq_map, sentChans_eq_map, h.2.2.2]

theorem sendCount_eq_count (tr : List Event) (c : Nat) :
    sendCount tr c = (sentChans tr).count c := by
  induction tr with
  | nil => rfl
  | cons e rest ih =>
    rw [sendCount_cons, ih]
    cases e <;> simp [sendCount, sentChans, List.filterMap_cons, List.count_cons]
    rename_i c1 r src
    by_cases h : c1 = c <;> simp [h]
    omega

theorem sendCount_eq_zero_of_not_mem (tr : List Event) (c : Nat) (h : c ∉ sentChans tr) :
    sendCount tr c = 0 := by
  rw [sendCount_eq_count, List.count_eq_zero]
  exact h

theorem mem_sentChans_of_sendCount (tr : List Event) (c : Nat) (h : sendCount tr c ≠ 0) :
    c ∈ sentChans tr := by
  by_contra hc
  exact h (sendCount_eq_zero_of_not_mem tr c hc)

theorem Start_quiet (e : GoError) (w : World) : World.Quiet w (Start e w).1 := by
  cases e <;> simp [Start, World.Quiet, World.alloc, World.setB]

theorem OnConnectionChange_quiet (cb : Nat) (w : World) :
    World.Quiet w (OnConnectionChange cb w) := by
  simp [OnConnectionChange, World.Quiet, World.emit, World.setB, sends_append, sends]

theorem handleUpgrade_check_quiet (w : World) : World.Quiet w (handleUpgrade_check w).1 := by
  simp [handleUpgrade_check, World.Quiet, World.emit, sends_append, sends]

theorem handleUpgrade_reject_quiet (ok : Bool) (w : World) :
    World.Quiet w (handleUpgrade_reject ok w) := by
  cases ok <;>
    simp [handleUpgrade_reject, World.Quiet, World.emit, World.alloc, sends_append, sends]

theorem handleUpgrade_accept_quiet (ok : Bool) (w : World) :
    World.Quiet w (handleUpgrade_accept ok w).1 := by
  cases ok <;>
    simp [handleUpgrade_accept, World.Quiet, World.emit, World.alloc, sends_append, sends]

theorem handleUpgrade_install_quiet (c now : Nat) (w : World) :
    World.Quiet w (handleUpgrade_install c now w).1 := by
  simp [handleUpgrade_install, World.Quiet, World.emit, World.alloc, World.setB,
    sends_append, sends]

theorem notifyConnectionChange_quiet (connected : Bool) (info : List (Option GodotInfo))
    (w : World) : World.Quiet w (notifyConnectionChange connected info w) := by
  rw [notifyConnectionChange_eq]
  refine ⟨rfl, rfl, Nat.le_refl _, ?_⟩
  simp only [sends_append]
  have h1 : sends [Event.lock, Event.unlock] = [] := rfl
  have h2 : sends (w.b.callbacks.map
      (fun cb => Event.callback cb connected info.head?.join)) = [] := by
    simp [sends, List.filterMap_map, List.filterMap_eq_nil_iff]
  rw [h1, h2]
  simp

theorem handleGodotReady_quiet (msg : IncomingMessage) (w : World) :
    World.Quiet w (handleGodotReady msg w) := by
  unfold handleGodotReady
  cases h : w.b.info <;>
    simp [World.Quiet, World.emit, World.setB, h, sends_append, sends]

theorem handleToolResult_take_none (msg : IncomingMessage) (w w1 : World)
    (h : handleToolResult_take msg w = (w1, none)) : World.Quiet w w1 := by
  unfold handleToolResult_take at h
  cases hg : mapGet w.b.pending msg.ID with
  | none =>
    simp only [World.emit, hg, Prod.mk.injEq, and_true] at h
    subst h
    simp [World.Quiet, World.emit, sends_append, sends]
  | some p =>
    simp [hg, World.emit] at h

theorem handleToolResult_take_some (msg : IncomingMessage) (w w1 : World)
    (p : pendingRequest) (h : handleToolResult_take msg w = (w1, some p)) :
    mapGet w.b.pending msg.ID = some p ∧ w1.b.pending = mapDelete w.b.pending msg.ID ∧
      w1.nextID = w.nextID ∧ w1.heap = w.heap ∧ sentChans w1.trace = sentChans w.trace := by
  unfold handleToolResult_take at h
  cases hg : mapGet w.b.pending msg.ID with
  | none => simp [hg, World.emit] at h
  | some q =>
    simp only [World.emit, hg, Prod.mk.injEq, Option.some.injEq] at h
    obtain ⟨h1, h2⟩ := h
    subst h1 h2
    refine ⟨rfl, ?_⟩
    simp [World.emit, World.deletePending, World.setB, sentChans_append, sentChans]

theorem handleToolResult_deliver_some (p : pendingRequest) (msg : IncomingMessage)
    (w w1 : World) (h : handleToolResult_deliver p msg w = some w1) :
    w1.b = w.b ∧ w1.nextID = w.nextID ∧ w1.heap = w.heap ∧
      sentChans w1.trace = sentChans w.trace ++ [p.ch] := by
  unfold handleToolResult_deliver chanSend at h
  split at h
  · simp only [Option.some.injEq] at h
    subst h
    simp [World.emit, sentChans_append, sentChans]
  · cases h

theorem InvokeTool_begin_view (toolName : String) (args : Args) (w : World) :
    (InvokeTool_begin toolName args w).1.b = w.b ∧
    (InvokeTool_begin toolName args w).1.nextID = wrapInt64 (w.nextID + 1) ∧
    (InvokeTool_begin toolName args w).1.heap = w.heap + 1 ∧
    (InvokeTool_begin toolName args w).1.trace = w.trace ∧
    (InvokeTool_begin toolName args w).2.ch = w.heap ∧
    (InvokeTool_begin toolName args w).2.id = FormatInt (wrapInt64 (w.nextID + 1)) := by
  simp [InvokeTool_begin, World.alloc]

theorem InvokeTool_register_none (call : invokeCall) (now : Nat) (w : World)
    (h : (InvokeTool_register call now w).2.conn = none) :
    World.Quiet w (InvokeTool_register call now w).1 ∧
      (InvokeTool_register call now w).2.ch = call.ch ∧
      (InvokeTool_register call now w).2.id = call.id := by
  unfold InvokeTool_register at h ⊢
  cases hc : w.b.conn with
  | none => simp [World.Quiet, World.emit, sends_append, sends, hc]
  | some c => simp [hc, World.emit] at h

theorem InvokeTool_register_some (call : invokeCall) (now : Nat) (w : World) (c : Nat)
    (h : (InvokeTool_register call now w).2.conn = some c) :
    (InvokeTool_register call now w).1.b.pending =
      mapSet w.b.pending call.id
        { ch := call.ch, toolName := call.toolName, start := now } ∧
    (InvokeTool_register call now w).1.nextID = w.nextID ∧
    (InvokeTool_register call now w).1.heap = w.heap ∧
    sentChans (InvokeTool_register call now w).1.trace = sentChans w.trace ∧
    (InvokeTool_register call now w).2.ch = call.ch ∧
    (InvokeTool_register call now w).2.id = call.id := by
  unfold InvokeTool_register at h ⊢
  cases hc : w.b.conn with
  | none => simp [hc, World.emit] at h
  | some c1 =>
    simp [World.emit, World.setB, sentChans_append, sentChans, hc]

theorem InvokeTool_write_ok (call : invokeCall) (c : Nat) (w : World) :
    World.Quiet w (InvokeTool_write call c none w).1 ∧
      (InvokeTool_write call c none w).2 = none := by
  simp [InvokeTool_write, World.Quiet, World.emit, sends_append, sends]

theorem InvokeTool_write_fail (call : invokeCall) (c : Nat) (e : String) (w : World) :
    (InvokeTool_write call c (some e) w).1.b.pending = mapDelete w.b.pending call.id ∧
    (InvokeTool_write call c (some e) w).1.nextID = w.nextID ∧
    (InvokeTool_write call c (some e) w).1.heap = w.heap ∧
    sentChans (InvokeTool_write call c (some e) w).1.trace = sentChans w.trace ∧
    (InvokeTool_write call c (some e) w).2 = some ("send to Godot: " ++ e) := by
  simp [InvokeTool_write, World.emit, World.deletePending, World.setB, sentChans_append,
    sentChans]

theorem InvokeTool_deadline_view (call : invokeCall) (w : World) :
    (InvokeTool_deadline call w).1.b.pending = mapDelete w.b.pending call.id ∧
    (InvokeTool_deadline call w).1.nextID = w.nextID ∧
    (InvokeTool_deadline call w).1.heap = w.heap ∧
    sentChans (InvokeTool_deadline call w).1.trace = sentChans w.trace := by
  simp [InvokeTool_deadline, World.emit, World.deletePending, World.setB, sentChans_append,
    sentChans]

theorem chanPeek_some_sent (tr : List Event) (c : Nat) (v : invokeResult × Sender)
    (h : chanPeek tr c = some v) : c ∈ sentChans tr := by
  unfold chanPeek at h
  split at h
  · cases h
  · rename_i hl
    apply mem_sentChans_of_sendCount
    intro h0
    exact hl (chanLoad_eq_zero_of_sendCount tr c h0)

theorem InvokeTool_receive_some (call : invokeCall) (w w1 : World) (r : InvokeReturn)
    (h : InvokeTool_receive call w = some (w1, r)) :
    World.Quiet w w1 ∧ call.ch ∈ sentChans w.trace := by
  unfold InvokeTool_receive at h
  cases hp : chanPeek w.trace call.ch with
  | none => simp [hp] at h
  | some v =>
    simp only [hp, Option.some.injEq, Prod.mk.injEq] at h
    obtain ⟨h1, _⟩ := h
    subst h1
    refine ⟨?_, chanPeek_some_sent _ _ _ hp⟩
    simp [World.Quiet, World.emit, sends_append, sends]

theorem sentChans_drain_events (errText : String) (src : Sender)
    (es : List (String × pendingRequest)) :
    sentChans (es.map (fun e =>
      Event.send e.2.ch { Data := none, Err := some errText } src))
      = es.map (fun e => e.2.ch) := by
  induction es with
  | nil => rfl
  | cons e rest ih =>
    simp only [List.map_cons]
    rw [← List.singleton_append, sentChans_append, ih]
    rfl

theorem sentChans_option_toList_cancel (o : Option Nat) :
    sentChans (o.map Event.cancel).toList = [] := by
  cases o <;> rfl

theorem Stop_view (w : World) (hf : PendingFresh w) :
    ∃ w1, Stop w = some w1 ∧ w1.b.pending = [] ∧ w1.nextID = w.nextID ∧ w1.heap = w.heap ∧
      sentChans w1.trace = sentChans w.trace ++ w.b.pending.map (fun e => e.2.ch) := by
  refine ⟨_, Stop_eq w hf, rfl, rfl, rfl, ?_⟩
  simp only [sentChans_append, sentChans_drain_events, sentChans_option_toList_cancel]
  have h1 : sentChans [Event.lock] = [] := rfl
  have h2 : sentChans [Event.unlock] = [] := rfl
  have h3 : sentChans (w.b.conn.map
      (fun c => Event.close c StatusGoingAway "server shutting down")).toList = [] := by
    cases w.b.conn <;> rfl
  have h4 : sentChans (w.b.httpServer.map Event.serverClose).toList = [] := by
    cases w.b.httpServer <;> rfl
  rw [h1, h2, h3, h4]
  simp

theorem handleDisconnect_locked_view (w : World) (hf : PendingFresh w) :
    ∃ w1, handleDisconnect_locked w = some (w1, w.b.info) ∧ w1.b.pending = [] ∧
      w1.nextID = w.nextID ∧ w1.heap = w.heap ∧
      sentChans w1.trace = sentChans w.trace ++ w.b.pending.map (fun e => e.2.ch) := by
  refine ⟨_, handleDisconnect_locked_eq w hf, rfl, rfl, rfl, ?_⟩
  simp only [sentChans_append, sentChans_drain_events, sentChans_option_toList_cancel]
  have h1 : sentChans [Event.lock] = [] := rfl
  have h2 : sentChans [Event.unlock] = [] := rfl
  rw [h1, h2]
  simp

theorem Inv.pendingFresh {s : Sys} (hs : Inv s) : PendingFresh s.w :=
  ⟨fun e he => sendCount_eq_zero_of_not_mem _ _ (hs.pendUnsent e he), hs.pendNodup⟩

/-! ## Every step keeps the invariant -/

theorem ViewInv.of_eq {P S H n C T} (hv : ViewInv P S H n C T)
    {P1 : List (String × pendingRequest)} {S1 : List Nat} {H1 : Nat} {n1 : Int}
    {T1 : Nat → Option pendingRequest}
    (hP : P1 = P) (hS : S1 = S) (hH : H ≤ H1) (hn : n1 = n) (hT : ∀ h, T1 h = T h) :
    ViewInv P1 S1 H1 n1 C T1 := by
  subst hP hS hn
  exact (hv.heap_le H1 hH).taken_congr T1 hT

theorem takenAt_setHandler (s : Sys) (w1 : World) (h : Nat) (pc old : HandlerPC)
    (hold : s.handlers[h]? = some old) (j : Nat) :
    takenAt (s.setHandler w1 h pc) j = if j = h then pc.taken else takenAt s j := by
  unfold takenAt Sys.setHandler
  simp only [List.getElem?_set]
  by_cases hj : j = h
  · subst hj
    simp [getElem?_lt _ _ _ hold]
  · have : ¬ h = j := fun e => hj e.symm
    simp [hj, this]

theorem takenAt_setCall (s : Sys) (w1 : World) (k : Nat) (t : CallThread) (j : Nat) :
    takenAt (s.setCall w1 k t) j = takenAt s j := rfl

theorem Inv.quiet_world {s : Sys} (hs : Inv s) (w1 : World) (hq : World.Quiet s.w w1) :
    Inv { s with w := w1 } :=
  ViewInv.of_eq hs hq.1 (Quiet.sentChans hq) hq.2.2.1 hq.2.1 (fun _ => rfl)

theorem Inv.quiet_handler {s : Sys} (hs : Inv s) (w1 : World) (hq : World.Quiet s.w w1)
    (h : Nat) (pc old : HandlerPC) (hold : s.handlers[h]? = some old)
    (h1 : old.taken = none) (h2 : pc.taken = none) : Inv (s.setHandler w1 h pc) := by
  refine ViewInv.of_eq hs hq.1 (Quiet.sentChans hq) hq.2.2.1 hq.2.1 ?_
  intro j
  rw [takenAt_setHandler s w1 h pc old hold j]
  by_cases hj : j = h
  · subst hj
    simp [h2, takenAt, hold, h1]
  · simp [hj]

theorem Inv.request {s : Sys} (hs : Inv s) :
    Inv { s with handlers := s.handlers ++ [HandlerPC.start] } := by
  refine ViewInv.of_eq hs rfl rfl (Nat.le_refl _) rfl ?_
  intro j
  unfold takenAt
  simp only [List.getElem?_append]
  by_cases hj : j < s.handlers.length
  · simp [hj]
  · simp only [hj, if_false]
    rw [List.getElem?_eq_none (Nat.le_of_not_lt hj)]
    cases hjj : j - s.handlers.length with
    | zero => simp [HandlerPC.taken]
    | succ m => simp

theorem step_inv_handlers (a : Action) (s s1 : Sys) (hs : Inv s) (h : step a s = some s1)
    (ha : (∃ e, a = .start e) ∨ (∃ cb, a = .onConnectionChange cb) ∨ a = .request ∨
      (∃ i, a = .check i) ∨ (∃ i ok, a = .reject i ok) ∨ (∃ i ok, a = .accept i ok) ∨
      (∃ i now, a = .install i now) ∨ (∃ i, a = .notifyConnected i) ∨
      (∃ i, a = .notifyDisconnected i)) : Inv s1 := by
  rcases ha with ⟨e, rfl⟩ | ⟨cb, rfl⟩ | rfl | ⟨i, rfl⟩ | ⟨i, ok, rfl⟩ | ⟨i, ok, rfl⟩ |
    ⟨i, now, rfl⟩ | ⟨i, rfl⟩ | ⟨i, rfl⟩
  · simp only [step, Option.some.injEq] at h
    subst h
    exact hs.quiet_world _ (Start_quiet e s.w)
  · simp only [step, Option.some.injEq] at h
    subst h
    exact hs.quiet_world _ (OnConnectionChange_quiet cb s.w)
  · simp only [step] at h
    split at h
    · simp only [Option.some.injEq] at h
      subst h
      exact hs.request
    · cases h
  · simp only [step] at h
    split at h
    · rename_i hh
      simp only [Option.some.injEq] at h
      subst h
      exact hs.quiet_handler _ (handleUpgrade_check_quiet s.w) i _ _ hh rfl rfl
    · cases h
  · simp only [step] at h
    split at h
    · rename_i hh
      simp only [Option.some.injEq] at h
      subst h
      exact hs.quiet_handler _ (handleUpgrade_reject_quiet ok s.w) i _ _ hh rfl rfl
    · cases h
  · simp only [step] at h
    split at h
    · rename_i hh
      have hq := handleUpgrade_accept_quiet ok s.w
      split at h
      · rename_i w1 heq
        simp only [Option.some.injEq] at h
        subst h
        rw [heq] at hq
        exact hs.quiet_handler _ hq i _ _ hh rfl rfl
      · rename_i w1 c heq
        simp only [Option.some.injEq] at h
        subst h
        rw [heq] at hq
        exact hs.quiet_handler _ hq i _ _ hh rfl rfl
    · cases h
  · simp only [step] at h
    split at h
    · rename_i c hh
      simp only [Option.some.injEq] at h
      subst h
      exact hs.quiet_handler _ (handleUpgrade_install_quiet c now s.w) i _ _ hh rfl rfl
    · cases h
  · simp only [step] at h
    split at h
    · rename_i c ctx hh
      simp only [Option.some.injEq] at h
      subst h
      exact hs.quiet_handler _ (notifyConnectionChange_quiet true [] s.w) i _ _ hh rfl rfl
    · cases h
  · simp only [step] at h
    split at h
    · rename_i info hh
      simp only [Option.some.injEq] at h
      subst h
      exact hs.quiet_handler _ (notifyConnectionChange_quiet false [info] s.w) i _ _ hh rfl rfl
    · cases h

theorem step_inv_frame (i : Nat) (msg : Option IncomingMessage) (s s1 : Sys) (hs : Inv s)
    (h : step (.frame i msg) s = some s1) : Inv s1 := by
  simp only [step] at h
  split at h
  · rename_i c ctx hh
    cases msg with
    | none =>
      simp only [Option.some.injEq] at h
      subst h
      exact hs
    | some m =>
      simp only at h
      by_cases ht : m.type = "tool_result"
      · simp only [ht, if_true] at h
        split at h
        · rename_i w1 heq
          simp only [Option.some.injEq] at h
          subst h
          exact hs.quiet_world _ (handleToolResult_take_none m s.w w1 heq)
        · rename_i w1 p heq
          simp only [Option.some.injEq] at h
          subst h
          obtain ⟨hg, hP, hn, hH, hS⟩ := handleToolResult_take_some m s.w w1 p heq
          refine ViewInv.of_eq (ViewInv.take hs i m.ID p hg) hP hS (Nat.le_of_eq hH.symm) hn ?_
          intro j
          rw [takenAt_setHandler s w1 i _ _ hh j]
          rfl
      · simp only [ht, if_false] at h
        by_cases hp : m.type = "pong"
        · simp only [hp, if_true, Option.some.injEq] at h
          subst h
          exact hs
        · simp only [hp, if_false] at h
          by_cases hr : m.type = "godot_ready"
          · simp only [hr, if_true, Option.some.injEq] at h
            subst h
            exact hs.quiet_world _ (handleGodotReady_quiet m s.w)
          · simp only [hr, if_false, Option.some.injEq] at h
            subst h
            exact hs
  · cases h

theorem step_inv_deliver (i : Nat) (s s1 : Sys) (hs : Inv s)
    (h : step (.deliver i) s = some s1) : Inv s1 := by
  simp only [step] at h
  split at h
  · rename_i c ctx p m hh
    split at h
    · rename_i w1 heq
      simp only [Option.some.injEq] at h
      subst h
      obtain ⟨hb, hn, hH, hS⟩ := handleToolResult_deliver_some p m s.w w1 heq
      have hT : takenAt s i = some p := by simp [takenAt, hh, HandlerPC.taken]
      refine ViewInv.of_eq (ViewInv.deliver hs i p hT) (congrArg GodotBridge.pending hb) hS
        (Nat.le_of_eq hH.symm) hn ?_
      intro j
      rw [takenAt_setHandler s w1 i _ _ hh j]
      rfl
    · cases h
  · cases h

theorem step_inv_readError (i : Nat) (s s1 : Sys) (hs : Inv s)
    (h : step (.readError i) s = some s1) : Inv s1 := by
  simp only [step] at h
  split at h
  · rename_i c ctx hh
    obtain ⟨w1, hw1, hP, hn, hH, hS⟩ := handleDisconnect_locked_view s.w hs.pendingFresh
    rw [hw1] at h
    simp only [Option.some.injEq] at h
    subst h
    refine ViewInv.of_eq (ViewInv.drain hs) hP hS (Nat.le_of_eq hH.symm) hn ?_
    intro j
    rw [takenAt_setHandler s w1 i _ _ hh j]
    by_cases hj : j = i
    · subst hj
      simp [takenAt, hh, HandlerPC.taken]
    · simp [hj]
  · cases h

theorem step_inv_stop (s s1 : Sys) (hs : Inv s) (h : step .stop s = some s1) : Inv s1 := by
  simp only [step] at h
  obtain ⟨w1, hw1, hP, hn, hH, hS⟩ := Stop_view s.w hs.pendingFresh
  rw [hw1] at h
  simp only [Option.some.injEq] at h
  subst h
  exact ViewInv.of_eq (ViewInv.drain hs) hP hS (Nat.le_of_eq hH.symm) hn (fun _ => rfl)

theorem step_inv_invoke (toolName : String) (args : Args) (s s1 : Sys) (hs : Inv s)
    (h : step (.invoke toolName args) s = some s1) : Inv s1 := by
  simp only [step, Option.some.injEq] at h
  subst h
  obtain ⟨hb, hn, hH, htr, hch, hid⟩ := InvokeTool_begin_view toolName args s.w
  have := ViewInv.invoke hs
    { call := (InvokeTool_begin toolName args s.w).2, pc := CallPC.created } hch hid rfl
  exact ViewInv.of_eq this (congrArg GodotBridge.pending hb) (congrArg sentChans htr)
    (Nat.le_of_eq hH.symm) hn (fun _ => rfl)

theorem step_inv_register (k now : Nat) (s s1 : Sys) (hs : Inv s)
    (h : step (.register k now) s = some s1) : Inv s1 := by
  simp only [step] at h
  split at h
  · rename_i call hk
    cases hc : (InvokeTool_register call now s.w).2.conn with
    | none =>
      simp only [hc, Option.some.injEq] at h
      subst h
      obtain ⟨hq, hch, hid⟩ := InvokeTool_register_none call now s.w hc
      have := ViewInv.set_pc hs k _
        { call := (InvokeTool_register call now s.w).2, pc := CallPC.notConnected } hk hch hid
        (fun h => by cases h) (fun h => by cases h)
      exact ViewInv.of_eq this hq.1 (Quiet.sentChans hq) hq.2.2.1 hq.2.1 (fun _ => rfl)
    | some c =>
      simp only [hc, Option.some.injEq] at h
      subst h
      obtain ⟨hP, hn, hH, hS, hch, hid⟩ := InvokeTool_register_some call now s.w c hc
      have := ViewInv.register hs k _
        { call := (InvokeTool_register call now s.w).2, pc := CallPC.registered c }
        { ch := call.ch, toolName := call.toolName, start := now } hk rfl hch hid rfl rfl
      exact ViewInv.of_eq this hP hS (Nat.le_of_eq hH.symm) hn (fun _ => rfl)
  · cases h

theorem step_inv_write (k : Nat) (e : GoError) (s s1 : Sys) (hs : Inv s)
    (h : step (.write k e) s = some s1) : Inv s1 := by
  simp only [step] at h
  split at h
  · rename_i call c hk
    cases e with
    | none =>
      obtain ⟨hq, h2⟩ := InvokeTool_write_ok call c s.w
      split at h
      · rename_i w1 e1 heq
        rw [heq] at h2
        cases h2
      · rename_i w1 heq
        simp only [Option.some.injEq] at h
        subst h
        rw [heq] at hq
        have := ViewInv.set_pc hs k _ { call := call, pc := CallPC.waiting } hk rfl rfl
          (fun _ => Or.inl rfl) (fun h => by cases h)
        exact ViewInv.of_eq this hq.1 (Quiet.sentChans hq) hq.2.2.1 hq.2.1 (fun _ => rfl)
    | some e0 =>
      obtain ⟨hP, hn, hH, hS, h2⟩ := InvokeTool_write_fail call c e0 s.w
      split at h
      · rename_i w1 e1 heq
        simp only [Option.some.injEq] at h
        subst h
        rw [heq] at hP hn hH hS
        have := ViewInv.return_delete hs k _
          { call := call, pc := CallPC.returned Outcome.sendFailure (none, some e1) } hk rfl rfl
          (fun h => by cases h)
        exact ViewInv.of_eq this hP hS (Nat.le_of_eq hH.symm) hn (fun _ => rfl)
      · rename_i w1 heq
        rw [heq] at h2
        cases h2
  · cases h

theorem step_inv_deadline (k : Nat) (s s1 : Sys) (hs : Inv s)
    (h : step (.deadline k) s = some s1) : Inv s1 := by
  simp only [step] at h
  split at h
  · rename_i call hk
    simp only [Option.some.injEq] at h
    subst h
    obtain ⟨hP, hn, hH, hS⟩ := InvokeTool_deadline_view call s.w
    have := ViewInv.return_delete hs k _
      { call := call, pc := CallPC.returned Outcome.timeout (InvokeTool_deadline call s.w).2 }
      hk rfl rfl (fun h => by cases h)
    exact ViewInv.of_eq this hP hS (Nat.le_of_eq hH.symm) hn (fun _ => rfl)
  · cases h

theorem step_inv_receive (k : Nat) (s s1 : Sys) (hs : Inv s)
    (h : step (.receive k) s = some s1) : Inv s1 := by
  simp only [step] at h
  split at h
  · rename_i call hk
    split at h
    · rename_i v w1 r hpeek heq
      simp only [Option.some.injEq] at h
      subst h
      obtain ⟨hq, hsent⟩ := InvokeTool_receive_some call s.w w1 r heq
      have := ViewInv.receive hs k _
        { call := call, pc := CallPC.returned (outcomeOf v) r } hk rfl rfl
        (fun h => by cases h) hsent
      exact ViewInv.of_eq this hq.1 (Quiet.sentChans hq) hq.2.2.1 hq.2.1 (fun _ => rfl)
    · cases h
  · cases h

theorem step_inv (a : Action) (s s1 : Sys) (hs : Inv s) (h : step a s = some s1) : Inv s1 := by
  cases a with
  | start e => exact step_inv_handlers _ s s1 hs h (Or.inl ⟨e, rfl⟩)
  | onConnectionChange cb => exact step_inv_handlers _ s s1 hs h (Or.inr (Or.inl ⟨cb, rfl⟩))
  | request => exact step_inv_handlers _ s s1 hs h (Or.inr (Or.inr (Or.inl rfl)))
  | check i => exact step_inv_handlers _ s s1 hs h (Or.inr (Or.inr (Or.inr (Or.inl ⟨i, rfl⟩))))
  | reject i ok =>
    exact step_inv_handlers _ s s1 hs h
      (Or.inr (Or.inr (Or.inr (Or.inr (Or.inl ⟨i, ok, rfl⟩)))))
  | accept i ok =>
    exact step_inv_handlers _ s s1 hs h
      (Or.inr (Or.inr (Or.inr (Or.inr (Or.inr (Or.inl ⟨i, ok, rfl⟩))))))
  | install i now =>
    exact step_inv_handlers _ s s1 hs h
      (Or.inr (Or.inr (Or.inr (Or.inr (Or.inr (Or.inr (Or.inl ⟨i, now, rfl⟩)))))))
  | notifyConnected i =>
    exact step_inv_handlers _ s s1 hs h
      (Or.inr (Or.inr (Or.inr (Or.inr (Or.inr (Or.inr (Or.inr (Or.inl ⟨i, rfl⟩))))))))
  | notifyDisconnected i =>
    exact step_inv_handlers _ s s1 hs h
      (Or.inr (Or.inr (Or.inr (Or.inr (Or.inr (Or.inr (Or.inr (Or.inr ⟨i, rfl⟩))))))))
  | frame i msg => exact step_inv_frame i msg s s1 hs h
  | deliver i => exact step_inv_deliver i s s1 hs h
  | readError i => exact step_inv_readError i s s1 hs h
  | stop => exact step_inv_stop s s1 hs h
  | invoke toolName args => exact step_inv_invoke toolName args s s1 hs h
  | register k now => exact step_inv_register k now s s1 hs h
  | write k e => exact step_inv_write k e s s1 hs h
  | deadline k => exact step_inv_deadline k s s1 hs h
  | receive k => exact step_inv_receive k s s1 hs h

theorem reachable_inv (s : Sys) (hr : Reachable s) : Inv s := by
  induction hr with
  | init port timeout => exact ViewInv.init port timeout
  | step a s s1 _ hstep ih => exact step_inv a s s1 ih hstep

/-! ## Decimal rendering is injective -/

theorem digitChar_value (d : Nat) (h : d < 10) : (Nat.digitChar d).toNat - 48 = d := by
  interval_cases d <;> rfl

theorem decodeDec_append_singleton (l : List Char) (c : Char) :
    decodeDec (l ++ [c]) = decodeDec l * 10 + (c.toNat - 48) := by
  simp [decodeDec, List.foldl_append]

theorem toDigitsCore_decode : ∀ (fuel n : Nat) (ds : List Char), n < fuel →
    ∃ l, Nat.toDigitsCore 10 fuel n ds = l ++ ds ∧ decodeDec l = n := by
  intro fuel
  induction fuel with
  | zero => intro n ds h; omega
  | succ fuel ih =>
    intro n ds h
    simp only [Nat.toDigitsCore]
    by_cases h0 : n / 10 = 0
    · simp only [h0, if_true]
      refine ⟨[Nat.digitChar (n % 10)], rfl, ?_⟩
      have hn : n < 10 := by omega
      simp [decodeDec, digitChar_value (n % 10) (Nat.mod_lt _ (by decide))]
      omega
    · simp only [h0, if_false]
      have hlt : n / 10 < fuel := by omega
      obtain ⟨l, hl, hd⟩ := ih (n / 10) (Nat.digitChar (n % 10) :: ds) hlt
      refine ⟨l ++ [Nat.digitChar (n % 10)], ?_, ?_⟩
      · rw [hl]; simp
      · rw [decodeDec_append_singleton, hd,
          digitChar_value (n % 10) (Nat.mod_lt _ (by decide))]
        omega

theorem decodeDec_repr (n : Nat) : decodeDec (Nat.repr n).data = n := by
  obtain ⟨l, hl, hd⟩ := toDigitsCore_decode (n + 1) n [] (Nat.lt_succ_self n)
  simp only [Nat.repr, Nat.toDigits, List.asString, hl, List.append_nil]
  exact hd

theorem repr_injective (a b : Nat) (h : Nat.repr a = Nat.repr b) : a = b := by
  have := congrArg (fun s => decodeDec s.data) h
  simpa [decodeDec_repr] using this

theorem wrapInt64_of_lt (k : Nat) (h : k < 2 ^ 63) : wrapInt64 (k : Int) = (k : Int) := by
  unfold wrapInt64
  norm_num at h ⊢
  omega

theorem FormatInt_nat (k : Nat) : FormatInt (k : Int) = Nat.repr k := by
  unfold FormatInt
  simp

theorem FormatInt_wrap_of_lt (k : Nat) (h : k + 1 < 2 ^ 63) :
    FormatInt (wrapInt64 ((k : Int) + 1)) = Nat.repr (k + 1) := by
  have : ((k : Int) + 1) = ((k + 1 : Nat) : Int) := by push_cast; rfl
  rw [this, wrapInt64_of_lt _ h, FormatInt_nat]

/-! ## What is sent and what is returned -/

theorem handleToolResult_take_sends (msg : IncomingMessage) (w : World) :
    sends (handleToolResult_take msg w).1.trace = sends w.trace := by
  unfold handleToolResult_take
  cases hg : mapGet w.b.pending msg.ID <;>
    simp [World.emit, World.deletePending, World.setB, hg, sends_append, sends]

theorem InvokeTool_register_sends (call : invokeCall) (now : Nat) (w : World) :
    sends (InvokeTool_register call now w).1.trace = sends w.trace ∧
      (InvokeTool_register call now w).2.toolName = call.toolName := by
  unfold InvokeTool_register
  cases hc : w.b.conn <;> simp [World.emit, World.setB, hc, sends_append, sends]

theorem InvokeTool_write_sends (call : invokeCall) (c : Nat) (e : GoError) (w : World) :
    sends (InvokeTool_write call c e w).1.trace = sends w.trace := by
  cases e <;>
    simp [InvokeTool_write, World.emit, World.deletePending, World.setB, sends_append, sends]

theorem InvokeTool_deadline_sends (call : invokeCall) (w : World) :
    sends (InvokeTool_deadline call w).1.trace = sends w.trace := by
  simp [InvokeTool_deadline, World.emit, World.deletePending, World.setB, sends_append, sends]

theorem handleToolResult_deliver_sends (p : pendingRequest) (msg : IncomingMessage)
    (w w1 : World) (h : handleToolResult_deliver p msg w = some w1) :
    sends w1.trace = sends w.trace ++ [(p.ch, toolResultValue msg, Sender.handleToolResult)] := by
  unfold handleToolResult_deliver chanSend at h
  split at h
  · simp only [Option.some.injEq] at h
    subst h
    simp [World.emit, sends_append, sends]
  · cases h

theorem sends_drain_events (errText : String) (src : Sender)
    (es : List (String × pendingRequest)) :
    sends (es.map (fun e => Event.send e.2.ch { Data := none, Err := some errText } src))
      = es.map (fun e => (e.2.ch, { Data := none, Err := some errText }, src)) := by
  induction es with
  | nil => rfl
  | cons e rest ih =>
    simp only [List.map_cons]
    rw [← List.singleton_append, sends_append, ih]
    rfl

theorem Stop_sends (w w1 : World) (hf : PendingFresh w) (h : Stop w = some w1) :
    sends w1.trace = sends w.trace ++ w.b.pending.map
      (fun e => (e.2.ch, { Data := none, Err := some "server shutting down" }, Sender.Stop)) := by
  rw [Stop_eq w hf] at h
  simp only [Option.some.injEq] at h
  subst h
  simp only [sends_append, sends_drain_events]
  have h1 : sends [Event.lock] = [] := rfl
  have h2 : sends [Event.unlock] = [] := rfl
  have h3 : sends (w.b.conn.map
      (fun c => Event.close c StatusGoingAway "server shutting down")).toList = [] := by
    cases w.b.conn <;> rfl
  have h4 : sends (w.b.httpServer.map Event.serverClose).toList = [] := by
    cases w.b.httpServer <;> rfl
  have h5 : sends (w.b.cancelRead.map Event.cancel).toList = [] := by
    cases w.b.cancelRead <;> rfl
  rw [h1, h2, h3, h4, h5]
  simp

theorem handleDisconnect_locked_sends (w w1 : World) (info : Option GodotInfo)
    (hf : PendingFresh w) (h : handleDisconnect_locked w = some (w1, info)) :
    sends w1.trace = sends w.trace ++ w.b.pending.map
      (fun e => (e.2.ch, { Data := none, Err := some "Godot disconnected" },
        Sender.handleDisconnect)) := by
  rw [handleDisconnect_locked_eq w hf] at h
  simp only [Option.some.injEq, Prod.mk.injEq] at h
  obtain ⟨h, _⟩ := h
  subst h
  simp only [sends_append, sends_drain_events]
  have h1 : sends [Event.lock] = [] := rfl
  have h2 : sends [Event.unlock] = [] := rfl
  have h5 : sends (w.b.cancelRead.map Event.cancel).toList = [] := by
    cases w.b.cancelRead <;> rfl
  rw [h1, h2, h5]
  simp

theorem sentOn_mem_sends (tr : List Event) (c : Nat) (v : invokeResult × Sender)
    (h : v ∈ sentOn tr c) : (c, v.1, v.2) ∈ sends tr := by
  simp only [sentOn, sends, List.mem_filterMap] at h ⊢
  obtain ⟨e, he, hv⟩ := h
  refine ⟨e, he, ?_⟩
  cases e <;> simp at hv ⊢
  rename_i c1 r src
  obtain ⟨h1, h2⟩ := hv
  subst h1 h2
  simp

theorem chanPeek_mem_sends (tr : List Event) (c : Nat) (v : invokeResult × Sender)
    (h : chanPeek tr c = some v) : (c, v.1, v.2) ∈ sends tr := by
  unfold chanPeek at h
  split at h
  · cases h
  · exact sentOn_mem_sends tr c v (List.getElem?_mem h)

theorem toolResultValue_cases (msg : IncomingMessage) :
    (toolResultValue msg).Err = none ∨
      ((toolResultValue msg).Data = none ∧
        ∃ text : String, text ≠ "" ∧ (toolResultValue msg).Err = some text) := by
  unfold toolResultValue
  by_cases h1 : msg.Success = some true
  · simp [h1]
  · by_cases h2 : msg.Error = ""
    · right
      simp [h1, h2]
    · right
      simp [h1, h2]

theorem ReturnOK_of_received (toolName : String) (v : invokeResult × Sender)
    (h : SendOK v.1 v.2) : ReturnOK toolName (outcomeOf v) (v.1.Data, v.1.Err) := by
  obtain ⟨r, src⟩ := v
  cases src with
  | Stop =>
    simp only [SendOK] at h
    subst h
    simp [outcomeOf, ReturnOK]
  | handleDisconnect =>
    simp only [SendOK] at h
    subst h
    simp [outcomeOf, ReturnOK]
  | handleToolResult =>
    simp only [SendOK] at h
    obtain ⟨msg, rfl⟩ := h
    rcases toolResultValue_cases msg with h1 | ⟨h1, text, h2, h3⟩
    · simp [outcomeOf, ReturnOK, h1]
    · simp [outcomeOf, ReturnOK, h1, h3, h2]

theorem ReturnsOK.set {C : List CallThread} (hC : ReturnsOK C) (k : Nat) (t1 : CallThread)
    (h1 : ∀ o r, t1.pc = CallPC.returned o r → ReturnOK t1.call.toolName o r) :
    ReturnsOK (C.set k t1) := by
  intro j tj o r hj hpc
  rcases getElem?_set_some _ _ _ _ _ hj with ⟨_, rfl, _⟩ | ⟨_, h2⟩
  · exact h1 o r hpc
  · exact hC j tj o r h2 hpc

theorem ReturnsOK.snoc {C : List CallThread} (hC : ReturnsOK C) (t1 : CallThread)
    (h1 : ∀ o r, t1.pc ≠ CallPC.returned o r) : ReturnsOK (C ++ [t1]) := by
  intro j tj o r hj hpc
  rw [List.getElem?_append] at hj
  by_cases hlt : j < C.length
  · simp only [hlt, if_true] at hj
    exact hC j tj o r hj hpc
  · simp only [hlt, if_false] at hj
    have hm := List.getElem?_mem hj
    simp only [List.mem_singleton] at hm
    subst hm
    exact absurd hpc (h1 o r)

theorem SendsOK.concat {l1 l2 : List (Nat × invokeResult × Sender)} (h1 : SendsOK l1)
    (h2 : SendsOK l2) : SendsOK (l1 ++ l2) := by
  intro x hx
  rcases List.mem_append.1 hx with h | h
  · exact h1 x h
  · exact h2 x h

theorem OutcomesOK.of_quiet_world {s : Sys} (hs : OutcomesOK s) (w1 : World)
    (hq : World.Quiet s.w w1) : OutcomesOK { s with w := w1 } :=
  ⟨by show SendsOK (sends w1.trace); rw [hq.2.2.2]; exact hs.1, hs.2⟩

theorem OutcomesOK.of_quiet_handler {s : Sys} (hs : OutcomesOK s) (w1 : World)
    (hq : World.Quiet s.w w1) (h : Nat) (pc : HandlerPC) :
    OutcomesOK (s.setHandler w1 h pc) :=
  ⟨by show SendsOK (sends w1.trace); rw [hq.2.2.2]; exact hs.1, hs.2⟩

theorem step_outcomes (a : Action) (s s1 : Sys) (hi : Inv s) (hs : OutcomesOK s)
    (h : step a s = some s1) : OutcomesOK s1 := by
  cases a with
  | start e =>
    simp only [step, Option.some.injEq] at h
    subst h
    exact hs.of_quiet_world _ (Start_quiet e s.w)
  | onConnectionChange cb =>
    simp only [step, Option.some.injEq] at h
    subst h
    exact hs.of_quiet_world _ (OnConnectionChange_quiet cb s.w)
  | request =>
    simp only [step] at h
    split at h
    · simp only [Option.some.injEq] at h
      subst h
      exact hs
    · cases h
  | check i =>
    simp only [step] at h
    split at h
    · simp only [Option.some.injEq] at h
      subst h
      exact hs.of_quiet_handler _ (handleUpgrade_check_quiet s.w) i _
    · cases h
  | reject i ok =>
    simp only [step] at h
    split at h
    · simp only [Option.some.injEq] at h
      subst h
      exact hs.of_quiet_handler _ (handleUpgrade_reject_quiet ok s.w) i _
    · cases h
  | accept i ok =>
    simp only [step] at h
    split at h
    · have hq := handleUpgrade_accept_quiet ok s.w
      split at h
      · rename_i w1 heq
        simp only [Option.some.injEq] at h
        subst h
        rw [heq] at hq
        exact hs.of_quiet_handler _ hq i _
      · rename_i w1 c heq
        simp only [Option.some.injEq] at h
        subst h
        rw [heq] at hq
        exact hs.of_quiet_handler _ hq i _
    · cases h
  | install i now =>
    simp only [step] at h
    split at h
    · rename_i c hh
      simp only [Option.some.injEq] at h
      subst h
      exact hs.of_quiet_handler _ (handleUpgrade_install_quiet c now s.w) i _
    · cases h
  | notifyConnected i =>
    simp only [step] at h
    split at h
    · simp only [Option.some.injEq] at h
      subst h
      exact hs.of_quiet_handler _ (notifyConnectionChange_quiet true [] s.w) i _
    · cases h
  | notifyDisconnected i =>
    simp only [step] at h
    split at h
    · rename_i info hh
      simp only [Option.some.injEq] at h
      subst h
      exact hs.of_quiet_handler _ (notifyConnectionChange_quiet false [info] s.w) i _
    · cases h
  | frame i msg =>
    simp only [step] at h
    split at h
    · cases msg with
      | none =>
        simp only [Option.some.injEq] at h
        subst h
        exact hs
      | some m =>
        simp only at h
        by_cases ht : m.type = "tool_result"
        · simp only [ht, if_true] at h
          have hsd := handleToolResult_take_sends m s.w
          split at h
          · rename_i w1 heq
            simp only [Option.some.injEq] at h
            subst h
            rw [heq] at hsd
            exact ⟨by show SendsOK (sends w1.trace); rw [hsd]; exact hs.1, hs.2⟩
          · rename_i w1 p heq
            simp only [Option.some.injEq] at h
            subst h
            rw [heq] at hsd
            exact ⟨by show SendsOK (sends w1.trace); rw [hsd]; exact hs.1, hs.2⟩
        · simp only [ht, if_false] at h
          by_cases hp : m.type = "pong"
          · simp only [hp, if_true, Option.some.injEq] at h
            subst h
            exact hs
          · simp only [hp, if_false] at h
            by_cases hr : m.type = "godot_ready"
            · simp only [hr, if_true, Option.some.injEq] at h
              subst h
              exact hs.of_quiet_world _ (handleGodotReady_quiet m s.w)
            · simp only [hr, if_false, Option.some.injEq] at h
              subst h
              exact hs
    · cases h
  | deliver i =>
    simp only [step] at h
    split at h
    · rename_i c ctx p m hh
      split at h
      · rename_i w1 heq
        simp only [Option.some.injEq] at h
        subst h
        refine ⟨?_, hs.2⟩
        show SendsOK (sends w1.trace)
        rw [handleToolResult_deliver_sends p m s.w w1 heq]
        refine hs.1.concat ?_
        intro x hx
        simp only [List.mem_singleton] at hx
        subst hx
        exact ⟨m, rfl⟩
      · cases h
    · cases h
  | readError i =>
    simp only [step] at h
    split at h
    · split at h
      · rename_i w1 info heq
        simp only [Option.some.injEq] at h
        subst h
        refine ⟨?_, hs.2⟩
        show SendsOK (sends w1.trace)
        rw [handleDisconnect_locked_sends s.w w1 info hi.pendingFresh heq]
        refine hs.1.concat ?_
        intro x hx
        obtain ⟨e, _, rfl⟩ := List.mem_map.1 hx
        rfl
      · cases h
    · cases h
  | stop =>
    simp only [step] at h
    split at h
    · rename_i w1 heq
      simp only [Option.some.injEq] at h
      subst h
      refine ⟨?_, hs.2⟩
      show SendsOK (sends w1.trace)
      rw [Stop_sends s.w w1 hi.pendingFresh heq]
      refine hs.1.concat ?_
      intro x hx
      obtain ⟨e, _, rfl⟩ := List.mem_map.1 hx
      rfl
    · cases h
  | invoke toolName args =>
    simp only [step, Option.some.injEq] at h
    subst h
    refine ⟨?_, hs.2.snoc _ (fun o r hc => by cases hc)⟩
    show SendsOK (sends (InvokeTool_begin toolName args s.w).1.trace)
    rw [(InvokeTool_begin_view toolName args s.w).2.2.2.1]
    exact hs.1
  | register k now =>
    simp only [step] at h
    split at h
    · rename_i call hk
      have hsd := (InvokeTool_register_sends call now s.w).1
      cases hc : (InvokeTool_register call now s.w).2.conn with
      | none =>
        simp only [hc, Option.some.injEq] at h
        subst h
        exact ⟨by
          show SendsOK (sends (InvokeTool_register call now s.w).1.trace)
          rw [hsd]; exact hs.1, hs.2.set k _ (fun o r hc => by cases hc)⟩
      | some c =>
        simp only [hc, Option.some.injEq] at h
        subst h
        exact ⟨by
          show SendsOK (sends (InvokeTool_register call now s.w).1.trace)
          rw [hsd]; exact hs.1, hs.2.set k _ (fun o r hc => by cases hc)⟩
    · cases h
  | write k e =>
    simp only [step] at h
    split at h
    · rename_i call c hk
      have hsd := InvokeTool_write_sends call c e s.w
      split at h
      · rename_i w1 e1 heq
        simp only [Option.some.injEq] at h
        subst h
        rw [heq] at hsd
        refine ⟨by show SendsOK (sends w1.trace); rw [hsd]; exact hs.1, hs.2.set k _ ?_⟩
        intro o r hc
        simp only [CallPC.returned.injEq] at hc
        obtain ⟨rfl, rfl⟩ := hc
        cases e with
        | none =>
          have := (InvokeTool_write_ok call c s.w).2
          rw [heq] at this
          cases this
        | some e0 =>
          have := (InvokeTool_write_fail call c e0 s.w).2.2.2.2
          rw [heq] at this
          simp only [Option.some.injEq] at this
          exact ⟨e0, by rw [this]⟩
      · rename_i w1 heq
        simp only [Option.some.injEq] at h
        subst h
        rw [heq] at hsd
        exact ⟨by show SendsOK (sends w1.trace); rw [hsd]; exact hs.1,
          hs.2.set k _ (fun o r hc => by cases hc)⟩
    · cases h
  | deadline k =>
    simp only [step] at h
    split at h
    · rename_i call hk
      simp only [Option.some.injEq] at h
      subst h
      refine ⟨by
        show SendsOK (sends (InvokeTool_deadline call s.w).1.trace)
        rw [InvokeTool_deadline_sends]; exact hs.1, hs.2.set k _ ?_⟩
      intro o r hc
      simp only [CallPC.returned.injEq] at hc
      obtain ⟨rfl, rfl⟩ := hc
      exact ⟨s.w.b.timeout, rfl⟩
    · cases h
  | receive k =>
    simp only [step] at h
    split at h
    · rename_i call hk
      split at h
      · rename_i v w1 r hpeek heq
        simp only [Option.some.injEq] at h
        subst h
        have hq := (InvokeTool_receive_some call s.w w1 r heq).1
        refine ⟨by show SendsOK (sends w1.trace); rw [hq.2.2.2]; exact hs.1, hs.2.set k _ ?_⟩
        intro o r1 hc
        simp only [CallPC.returned.injEq] at hc
        obtain ⟨rfl, rfl⟩ := hc
        have hv := hs.1 _ (chanPeek_mem_sends _ _ _ hpeek)
        have hr : r = (v.1.Data, v.1.Err) := by
          unfold InvokeTool_receive at heq
          rw [hpeek] at heq
          simp only [Option.some.injEq, Prod.mk.injEq] at heq
          exact heq.2.symm
        rw [hr]
        exact ReturnOK_of_received _ v hv
      · cases h
    · cases h

theorem reachable_outcomes (s : Sys) (hr : Reachable s) : OutcomesOK s := by
  induction hr with
  | init port timeout =>
    refine ⟨fun x hx => ?_, fun k t o r hk _ => ?_⟩
    · cases hx
    · simp [Sys.init] at hk
  | step a s s1 hreach hstep ih => exact step_outcomes a s s1 (reachable_inv s hreach) ih hstep

/-! ## Reachable states -/

theorem run_reachable : ∀ (acts : List Action) (s s1 : Sys),
    Reachable s → run acts s = some s1 → Reachable s1 := by
  intro acts
  induction acts with
  | nil =>
    intro s s1 hr h
    simp only [run, Option.some.injEq] at h
    subst h
    exact hr
  | cons a rest ih =>
    intro s s1 hr h
    simp only [run] at h
    split at h
    · rename_i s2 hs2
      exact ih s2 s1 (Reachable.step a s s2 hr hs2) h
    · cases h

theorem stateAfter_reachable (acts : List Action) : Reachable (stateAfter acts) := by
  unfold stateAfter
  cases h : run acts (Sys.init DefaultPort DefaultTimeout) with
  | none => exact Reachable.init _ _
  | some s => exact run_reachable acts _ s (Reachable.init _ _) h

theorem ids_injective {P S H n C T} (hv : ViewInv P S H n C T) (hlen : C.length < 2 ^ 63)
    (i j : Nat) (ti tj : CallThread) (hi : C[i]? = some ti) (hj : C[j]? = some tj)
    (hid : ti.call.id = tj.call.id) : i = j := by
  have hi1 := getElem?_lt _ _ _ hi
  have hj1 := getElem?_lt _ _ _ hj
  rw [hv.callId i ti hi, hv.callId j tj hj,
    FormatInt_wrap_of_lt i (by omega), FormatInt_wrap_of_lt j (by omega)] at hid
  have := repr_injective _ _ hid
  omega

theorem step_returned_stable (a : Action) (s s1 : Sys) (h : step a s = some s1) (k : Nat)
    (t : CallThread) (o : Outcome) (r : InvokeReturn) (hk : s.calls[k]? = some t)
    (hpc : t.pc = CallPC.returned o r) : s1.calls[k]? = some t := by
  have hset : ∀ (k1 : Nat) (t0 t1 : CallThread) (w1 : World), s.calls[k1]? = some t0 →
      (∀ o r, t0.pc ≠ CallPC.returned o r) → (s.setCall w1 k1 t1).calls[k]? = some t := by
    intro k1 t0 t1 w1 h0 hne
    have hkk : k1 ≠ k := by
      intro e
      subst e
      rw [hk] at h0
      cases h0
      exact hne o r hpc
    simp only [Sys.setCall]
    rw [List.getElem?_set_ne hkk]
    exact hk
  cases a with
  | start e => simp only [step, Option.some.injEq] at h; subst h; exact hk
  | onConnectionChange cb => simp only [step, Option.some.injEq] at h; subst h; exact hk
  | request =>
    simp only [step] at h
    split at h
    · simp only [Option.some.injEq] at h; subst h; exact hk
    · cases h
  | check i =>
    simp only [step] at h
    split at h
    · simp only [Option.some.injEq] at h; subst h; exact hk
    · cases h
  | reject i ok =>
    simp only [step] at h
    split at h
    · simp only [Option.some.injEq] at h; subst h; exact hk
    · cases h
  | accept i ok =>
    simp only [step] at h
    split at h
    · split at h
      · simp only [Option.some.injEq] at h; subst h; exact hk
      · simp only [Option.some.injEq] at h; subst h; exact hk
    · cases h
  | install i now =>
    simp only [step] at h
    split at h
    · simp only [Option.some.injEq] at h; subst h; exact hk
    · cases h
  | notifyConnected i =>
    simp only [step] at h
    split at h
    · simp only [Option.some.injEq] at h; subst h; exact hk
    · cases h
  | notifyDisconnected i =>
    simp only [step] at h
    split at h
    · simp only [Option.some.injEq] at h; subst h; exact hk
    · cases h
  | frame i msg =>
    simp only [step] at h
    split at h
    · cases msg with
      | none => simp only [Option.some.injEq] at h; subst h; exact hk
      | some m =>
        simp only at h
        split at h
        · split at h
          · simp only [Option.some.injEq] at h; subst h; exact hk
          · simp only [Option.some.injEq] at h; subst h; exact hk
        · split at h
          · simp only [Option.some.injEq] at h; subst h; exact hk
          · split at h
            · simp only [Option.some.injEq] at h; subst h; exact hk
            · simp only [Option.some.injEq] at h; subst h; exact hk
    · cases h
  | deliver i =>
    simp only [step] at h
    split at h
    · split at h
      · simp only [Option.some.injEq] at h; subst h; exact hk
      · cases h
    · cases h
  | readError i =>
    simp only [step] at h
    split at h
    · split at h
      · simp only [Option.some.injEq] at h; subst h; exact hk
      · cases h
    · cases h
  | stop =>
    simp only [step] at h
    split at h
    · simp only [Option.some.injEq] at h; subst h; exact hk
    · cases h
  | invoke toolName args =>
    simp only [step, Option.some.injEq] at h
    subst h
    show (s.calls ++ _)[k]? = some t
    rw [List.getElem?_append_left (getElem?_lt _ _ _ hk)]
    exact hk
  | register k1 now =>
    simp only [step] at h
    split at h
    · rename_i call hk1
      split at h
      · simp only [Option.some.injEq] at h; subst h
        exact hset k1 _ _ _ hk1 (fun o r hc => by cases hc)
      · simp only [Option.some.injEq] at h; subst h
        exact hset k1 _ _ _ hk1 (fun o r hc => by cases hc)
    · cases h
  | write k1 e =>
    simp only [step] at h
    split at h
    · rename_i call c hk1
      split at h
      · simp only [Option.some.injEq] at h; subst h
        exact hset k1 _ _ _ hk1 (fun o r hc => by cases hc)
      · simp only [Option.some.injEq] at h; subst h
        exact hset k1 _ _ _ hk1 (fun o r hc => by cases hc)
    · cases h
  | deadline k1 =>
    simp only [step] at h
    split at h
    · rename_i call hk1
      simp only [Option.some.injEq] at h; subst h
      exact hset k1 _ _ _ hk1 (fun o r hc => by cases hc)
    · cases h
  | receive k1 =>
    simp only [step] at h
    split at h
    · rename_i call hk1
      split at h
      · simp only [Option.some.injEq] at h; subst h
        exact hset k1 _ _ _ hk1 (fun o r hc => by cases hc)
      · cases h
    · cases h

theorem step_deadline_eq (s : Sys) (k : Nat) (call : invokeCall)
    (hk : s.calls[k]? = some { call := call, pc := CallPC.waiting }) :
    step (.deadline k) s = some (s.setCall (InvokeTool_deadline call s.w).1 k
      { call := call, pc := CallPC.returned Outcome.timeout (InvokeTool_deadline call s.w).2 }) := by
  simp only [step, hk]

theorem step_write_ok_eq (s : Sys) (k c : Nat) (call : invokeCall)
    (hk : s.calls[k]? = some { call := call, pc := CallPC.registered c }) :
    step (.write k none) s = some (s.setCall (InvokeTool_write call c none s.w).1 k
      { call := call, pc := CallPC.waiting }) := by
  simp only [step, hk]
  rfl

theorem active_can_return (s : Sys) (k : Nat) (t : CallThread) (hk : s.calls[k]? = some t)
    (hact : t.pc.active = true) :
    ∃ (acts : List Action) (s1 : Sys) (r : InvokeReturn), run acts s = some s1 ∧
      s1.calls[k]? = some { call := t.call, pc := CallPC.returned Outcome.timeout r } := by
  have hlt := getElem?_lt _ _ _ hk
  obtain ⟨call, pc⟩ := t
  cases pc with
  | created => cases hact
  | notConnected => cases hact
  | returned o r => cases hact
  | waiting =>
    have hrun : run [.deadline k] s = some (s.setCall (InvokeTool_deadline call s.w).1 k
        { call := call,
          pc := CallPC.returned Outcome.timeout (InvokeTool_deadline call s.w).2 }) := by
      simp only [run, step_deadline_eq s k call hk]
    exact ⟨_, _, (InvokeTool_deadline call s.w).2, hrun,
      by simp [Sys.setCall, List.getElem?_set, hlt]⟩
  | registered c =>
    have h2 : (s.setCall (InvokeTool_write call c none s.w).1 k
        { call := call, pc := CallPC.waiting }).calls[k]?
        = some { call := call, pc := CallPC.waiting } := by
      simp [Sys.setCall, List.getElem?_set, hlt]
    have hrun : run [.write k none, .deadline k] s = some
        ((s.setCall (InvokeTool_write call c none s.w).1 k
          { call := call, pc := CallPC.waiting }).setCall
          (InvokeTool_deadline call (InvokeTool_write call c none s.w).1).1 k
          { call := call,
            pc := CallPC.returned Outcome.timeout
              (InvokeTool_deadline call (InvokeTool_write call c none s.w).1).2 }) := by
      simp only [run, step_write_ok_eq s k c call hk, step_deadline_eq _ k call h2]
      rfl
    exact ⟨_, _, (InvokeTool_deadline call (InvokeTool_write call c none s.w).1).2, hrun,
      by simp [Sys.setCall, List.getElem?_set, hlt]⟩

/-! ## Only a handshake installs a connection -/

theorem InvokeTool_conn_none (w : World) (toolName : String) (args : Args) (env : InvokeEnv)
    (h : w.b.conn = none) :
    (InvokeTool toolName args env w).2 = (none, some "Godot is not connected") := by
  simp [InvokeTool, InvokeTool_begin, InvokeTool_register, World.emit, World.alloc, h]

theorem handleDisconnect_locked_conn (w w1 : World) (info : Option GodotInfo)
    (h : handleDisconnect_locked w = some (w1, info)) : w1.b.conn = none := by
  simp only [handleDisconnect_locked] at h
  split at h
  · cases h
  · simp only [Option.some.injEq, Prod.mk.injEq] at h
    obtain ⟨h, _⟩ := h
    subst h
    rfl

theorem notifyConnectionChange_b (connected : Bool) (info : List (Option GodotInfo))
    (w : World) : (notifyConnectionChange connected info w).b = w.b := by
  rw [notifyConnectionChange_eq]

theorem handleToolResult_take_conn (msg : IncomingMessage) (w : World) :
    (handleToolResult_take msg w).1.b.conn = w.b.conn := by
  unfold handleToolResult_take
  cases hg : mapGet w.b.pending msg.ID <;>
    simp [World.emit, World.deletePending, World.setB, hg]

theorem handleGodotReady_conn (msg : IncomingMessage) (w : World) :
    (handleGodotReady msg w).b.conn = w.b.conn := by
  unfold handleGodotReady
  cases h : w.b.info <;> simp [World.emit, World.setB, h]

theorem InvokeTool_register_conn (call : invokeCall) (now : Nat) (w : World) :
    (InvokeTool_register call now w).1.b.conn = w.b.conn := by
  unfold InvokeTool_register
  cases hc : w.b.conn <;> simp [World.emit, World.setB, hc]

theorem InvokeTool_write_conn (call : invokeCall) (c : Nat) (e : GoError) (w : World) :
    (InvokeTool_write call c e w).1.b.conn = w.b.conn := by
  cases e <;> simp [InvokeTool_write, World.emit, World.deletePending, World.setB]

theorem step_conn_none (a : Action) (s s1 : Sys) (h : step a s = some s1)
    (hc : s.w.b.conn = none) (ha : ∀ i now, a ≠ Action.install i now) :
    s1.w.b.conn = none := by
  cases a with
  | start e =>
    simp only [step, Option.some.injEq] at h
    subst h
    cases e <;> simpa [Start, World.alloc, World.setB] using hc
  | onConnectionChange cb =>
    simp only [step, Option.some.injEq] at h
    subst h
    simpa [OnConnectionChange, World.emit, World.setB] using hc
  | request =>
    simp only [step] at h
    split at h
    · simp only [Option.some.injEq] at h; subst h; exact hc
    · cases h
  | check i =>
    simp only [step] at h
    split at h
    · simp only [Option.some.injEq] at h; subst h
      simpa [Sys.setHandler, handleUpgrade_check, World.emit] using hc
    · cases h
  | reject i ok =>
    simp only [step] at h
    split at h
    · simp only [Option.some.injEq] at h; subst h
      cases ok <;> simpa [Sys.setHandler, handleUpgrade_reject, World.emit, World.alloc] using hc
    · cases h
  | accept i ok =>
    simp only [step] at h
    split at h
    · have hcc : (handleUpgrade_accept ok s.w).1.b.conn = s.w.b.conn := by
        cases ok <;> simp [handleUpgrade_accept, World.emit, World.alloc]
      split at h
      · rename_i w1 heq
        simp only [Option.some.injEq] at h; subst h
        rw [heq] at hcc
        exact hcc.trans hc
      · rename_i w1 c heq
        simp only [Option.some.injEq] at h; subst h
        rw [heq] at hcc
        exact hcc.trans hc
    · cases h
  | install i now => exact absurd rfl (ha i now)
  | notifyConnected i =>
    simp only [step] at h
    split at h
    · simp only [Option.some.injEq] at h; subst h
      show (notifyConnectionChange true [] s.w).b.conn = none
      rw [notifyConnectionChange_b]; exact hc
    · cases h
  | notifyDisconnected i =>
    simp only [step] at h
    split at h
    · rename_i info hh
      simp only [Option.some.injEq] at h; subst h
      show (notifyConnectionChange false [info] s.w).b.conn = none
      rw [notifyConnectionChange_b]; exact hc
    · cases h
  | frame i msg =>
    simp only [step] at h
    split at h
    · cases msg with
      | none => simp only [Option.some.injEq] at h; subst h; exact hc
      | some m =>
        simp only at h
        split at h
        · have hcc := handleToolResult_take_conn m s.w
          split at h
          · rename_i w1 heq
            simp only [Option.some.injEq] at h; subst h
            rw [heq] at hcc
            exact hcc.trans hc
          · rename_i w1 p heq
            simp only [Option.some.injEq] at h; subst h
            rw [heq] at hcc
            exact hcc.trans hc
        · split at h
          · simp only [Option.some.injEq] at h; subst h; exact hc
          · split at h
            · simp only [Option.some.injEq] at h; subst h
              exact (handleGodotReady_conn m s.w).trans hc
            · simp only [Option.some.injEq] at h; subst h; exact hc
    · cases h
  | deliver i =>
    simp only [step] at h
    split at h
    · rename_i c ctx p m hh
      split at h
      · rename_i w1 heq
        simp only [Option.some.injEq] at h; subst h
        have := (handleToolResult_deliver_some p m s.w w1 heq).1
        show w1.b.conn = none
        rw [this]; exact hc
      · cases h
    · cases h
  | readError i =>
    simp only [step] at h
    split at h
    · split at h
      · rename_i w1 info heq
        simp only [Option.some.injEq] at h; subst h
        exact handleDisconnect_locked_conn s.w w1 info heq
      · cases h
    · cases h
  | stop =>
    simp only [step] at h
    split at h
    · rename_i w1 heq
      simp only [Option.some.injEq] at h; subst h
      show w1.b.conn = none
      rw [Stop_some_b s.w w1 heq]
    · cases h
  | invoke toolName args =>
    simp only [step, Option.some.injEq] at h
    subst h
    show (InvokeTool_begin toolName args s.w).1.b.conn = none
    rw [(InvokeTool_begin_view toolName args s.w).1]; exact hc
  | register k now =>
    simp only [step] at h
    split at h
    · rename_i call hk
      have hcc := InvokeTool_register_conn call now s.w
      split at h
      · simp only [Option.some.injEq] at h; subst h
        exact hcc.trans hc
      · simp only [Option.some.injEq] at h; subst h
        exact hcc.trans hc
    · cases h
  | write k e =>
    simp only [step] at h
    split at h
    · rename_i call c hk
      have hcc := InvokeTool_write_conn call c e s.w
      split at h
      · rename_i w1 e1 heq
        simp only [Option.some.injEq] at h; subst h
        rw [heq] at hcc
        exact hcc.trans hc
      · rename_i w1 heq
        simp only [Option.some.injEq] at h; subst h
        rw [heq] at hcc
        exact hcc.trans hc
    · cases h
  | deadline k =>
    simp only [step] at h
    split at h
    · simp only [Option.some.injEq] at h; subst h
      exact hc
    · cases h
  | receive k =>
    simp only [step] at h
    split at h
    · rename_i call hk
      split at h
      · rename_i v w1 r hpeek heq
        simp only [Option.some.injEq] at h; subst h
        unfold InvokeTool_receive at heq
        rw [hpeek] at heq
        simp only [Option.some.injEq, Prod.mk.injEq] at heq
        obtain ⟨h1, _⟩ := heq
        subst h1
        exact hc
      · cases h
    · cases h

theorem run_conn_none : ∀ (acts : List Action) (s s1 : Sys), run acts s = some s1 →
    s.w.b.conn = none → (∀ i now, Action.install i now ∉ acts) → s1.w.b.conn = none := by
  intro acts
  induction acts with
  | nil =>
    intro s s1 h hc _
    simp only [run, Option.some.injEq] at h
    subst h
    exact hc
  | cons a rest ih =>
    intro s s1 h hc ha
    simp only [run] at h
    split at h
    · rename_i s2 hs2
      refine ih s2 s1 h (step_conn_none a s s2 hs2 hc ?_) ?_
      · intro i now e
        exact ha i now (e ▸ List.mem_cons_self _ _)
      · intro i now hm
        exact ha i now (List.mem_cons_of_mem _ hm)
    · cases h

/-! ## Maps of type `map[string]any` -/

theorem JSONFields.get_set_self : ∀ (m : JSONFields) (k : String) (v : JSONValue),
    (m.set k v).get k = some v
  | .nil, k, v => by simp [JSONFields.set, JSONFields.get]
  | .cons k0 v0 tl, k, v => by
    by_cases h : k0 = k
    · simp [JSONFields.set, JSONFields.get, h]
    · simp [JSONFields.set, JSONFields.get, h, JSONFields.get_set_self tl k v]

theorem JSONFields.get_set_of_ne : ∀ (m : JSONFields) (k k1 : String) (v : JSONValue),
    k1 ≠ k → (m.set k v).get k1 = m.get k1
  | .nil, k, k1, v, h => by simp [JSONFields.set, JSONFields.get, Ne.symm h]
  | .cons k0 v0 tl, k, k1, v, h => by
    by_cases h0 : k0 = k
    · subst h0
      simp [JSONFields.set, JSONFields.get, Ne.symm h]
    · by_cases h1 : k0 = k1
      · subst h1
        simp [JSONFields.set, JSONFields.get, h0]
      · simp [JSONFields.set, JSONFields.get, h0, h1, JSONFields.get_set_of_ne tl k k1 v h]

theorem JSONFields.mockNote_get (m : JSONFields) :
    (mockNote m).get "_mock" = some (JSONValue.bool true) := by
  unfold mockNote
  rw [JSONFields.get_set_of_ne _ _ _ _ (by decide)]
  exact JSONFields.get_set_self _ _ _

/-! ## Tool results with an unknown id -/

theorem handleToolResult_absent (w : World) (msg : IncomingMessage)
    (h : mapGet w.b.pending msg.ID = none) :
    handleToolResult msg w = some ((w.emit .lock).emit .unlock) := by
  simp [handleToolResult, handleToolResult_take, World.emit, h]

/-! ## The tool handler and the relay, one branch at a time -/

theorem InvokeTool_conn (toolName : String) (args : Args) (env : InvokeEnv) (w : World) :
    (InvokeTool toolName args env w).1.b.conn = w.b.conn := by
  unfold InvokeTool
  simp only [InvokeTool_begin, InvokeTool_register, World.emit, World.alloc, World.setB]
  cases hc : w.b.conn with
  | none => simp [hc]
  | some c =>
    simp only [InvokeTool_write]
    cases hw : env.writeErr with
    | some e => simp [World.emit, World.deletePending, World.setB]
    | none =>
      simp only [World.emit]
      cases hs : env.select with
      | deadline => simp [InvokeTool_deadline, World.emit, World.deletePending, World.setB]
      | result =>
        simp only [InvokeTool_receive]
        split
        · rename_i h1
          split at h1
          · cases h1
          · cases h1
            simp [World.emit]
        · simp [InvokeTool_deadline, World.emit, World.deletePending, World.setB]

theorem toolHandler_finish_other (lib : GoLib) (venv : Visualizer.Env) (td : ToolDef)
    (result : JSONValue) (h : Host) (hn : td.Name ≠ "map_project") :
    toolHandler_finish lib venv td result h = (h, textResult lib result) := by
  simp [toolHandler_finish, hn]

theorem toolHandler_route_mock (lib : GoLib) (venv : Visualizer.Env) (td : ToolDef)
    (args : Args) (r : InvokeReturn) (err : String) (h : Host)
    (he : r.2 = some err) (hc : h.w.b.conn = none) :
    toolHandler_route lib venv td args r h =
      toolHandler_finish lib venv td (td.MockFn args)
        { h with w := (h.w.emit Event.lock).emit Event.unlock } := by
  simp [toolHandler_route, he, IsConnected, hc]

theorem toolHandler_route_error (lib : GoLib) (venv : Visualizer.Env) (td : ToolDef)
    (args : Args) (r : InvokeReturn) (err : String) (h : Host)
    (he : r.2 = some err) (hc : h.w.b.conn ≠ none) :
    toolHandler_route lib venv td args r h =
      ({ h with w := (h.w.emit Event.lock).emit Event.unlock },
        errorResult lib td.Name args err "live") := by
  have hc1 : h.w.b.conn.isSome = true := by
    cases hcc : h.w.b.conn with
    | none => exact absurd hcc hc
    | some c => rfl
  simp [toolHandler_route, he, IsConnected, hc1]

theorem InvokeTool_write_event (toolName : String) (args : Args) (env : InvokeEnv) (w : World)
    (c : Nat) (hc : w.b.conn = some c) (hw : env.writeErr = none) :
    Event.write c { type := "tool_invoke", ID := FormatInt (wrapInt64 (w.nextID + 1)),
                    Tool := toolName, Args := args } ∈ (InvokeTool toolName args env w).1.trace := by
  unfold InvokeTool
  simp only [InvokeTool_begin, InvokeTool_register, World.emit, World.alloc, World.setB, hc,
    InvokeTool_write, hw]
  cases hs : env.select with
  | deadline => simp [InvokeTool_deadline, World.emit, World.deletePending, World.setB]
  | result =>
    simp only [InvokeTool_receive]
    split
    · rename_i h1
      split at h1
      · cases h1
      · cases h1
        simp [World.emit]
    · simp [InvokeTool_deadline, World.emit, World.deletePending, World.setB]

theorem toolHandler_not_connected_eq (lib : GoLib) (venv : Visualizer.Env) (td : ToolDef)
    (arguments : RawMessage) (env : InvokeEnv) (h : Host) (hc : h.w.b.conn = none) :
    toolHandler lib venv td arguments env h =
      toolHandler_route lib venv td (parseArguments lib arguments)
        (none, some "Godot is not connected")
        { h with w := (InvokeTool td.Name (parseArguments lib arguments) env h.w).1 } := by
  have h2 : (InvokeTool td.Name (parseArguments lib arguments) env h.w).2
      = (none, some "Godot is not connected") := by
    simp [InvokeTool, InvokeTool_begin, InvokeTool_register, World.emit, World.alloc, hc]
  simp only [toolHandler]
  rw [← h2]

theorem Visualizer.Stop_trace (v : Visualizer.State) :
    ∃ l, (Visualizer.Stop v).trace = v.trace ++ Visualizer.Event.lock :: l := by
  unfold Visualizer.Stop
  cases hs : v.s.httpServer with
  | none => exact ⟨[Visualizer.Event.unlock], by simp [Visualizer.State.emit, hs]⟩
  | some srv =>
    exact ⟨[Visualizer.Event.serverClose srv.port, Visualizer.Event.unlock],
      by simp [Visualizer.State.emit, hs]⟩

theorem Visualizer.Serve_trace (lib : GoLib) (venv : Visualizer.Env) (pm : JSONValue)
    (v : Visualizer.State) :
    ∃ l, (Visualizer.Serve lib venv pm v).1.trace = v.trace ++ Visualizer.Event.lock :: l := by
  obtain ⟨l, hl⟩ := Visualizer.Stop_trace v
  unfold Visualizer.Serve
  simp only
  cases buildHTML venv.assets (lib.Marshal pm) with
  | error e => exact ⟨l, hl⟩
  | ok page =>
    simp only
    cases findListener venv.free defaultVizPort with
    | error e => exact ⟨l, hl⟩
    | ok port =>
      refine ⟨l ++ [Visualizer.Event.listen port, Visualizer.Event.lock,
        Visualizer.Event.unlock,
        Visualizer.Event.openBrowser ("http://localhost:" ++ Nat.repr port)], ?_⟩
      simp [Visualizer.State.emit, hl]

theorem statusResponse.toJSON_fields (r : statusResponse) :
    ∃ m, r.toJSON = JSONValue.object m ∧
      m.get "connected" = some (JSONValue.bool r.Connected) ∧
      m.get "mode" = some (JSONValue.string r.Mode) ∧
      m.get "pending_requests" = some (JSONValue.number r.PendingRequests) ∧
      m.get "websocket_port" = some (JSONValue.number r.WebSocketPort) ∧
      m.get "project_path" = some (JSONValue.string r.ProjectPath) := by
  by_cases hc : r.ConnectedAt = ""
  · refine ⟨_, rfl, ?_, ?_, ?_, ?_, ?_⟩ <;> simp [JSONFields.ofList, JSONFields.get, hc]
  · refine ⟨_, rfl, ?_, ?_, ?_, ?_, ?_⟩ <;> simp [JSONFields.ofList, JSONFields.get, hc]

/-! ## Callbacks, dropped frames and the registry -/

theorem notifyConnectionChange_loop_eq (panics : Nat → Option Panic) (connected : Bool)
    (gi : Option GodotInfo) : ∀ (cbs : List Nat) (i : Nat) (w : World),
    notifyConnectionChange_loop panics connected gi i cbs w =
      (cbs.foldl (fun acc cb => acc.emit (.callback cb connected gi)) w, Except.ok ())
  | [], i, w => rfl
  | cb :: rest, i, w => by
    have ih := notifyConnectionChange_loop_eq panics connected gi rest (i + 1)
      (w.emit (.callback cb connected gi))
    simp only [notifyConnectionChange_loop, notifyConnectionChange_call, callCallback,
      List.foldl_cons]
    cases panics i <;> simpa using ih

theorem readLoop_round_dropped (frame : Option IncomingMessage) (w : World)
    (h : droppedFrame frame = true) : readLoop_round frame w = some w := by
  cases frame with
  | none => rfl
  | some msg =>
    simp only [droppedFrame, decide_eq_true_eq] at h
    simp only [readLoop_round, handleMessage, h.1, h.2, if_false]
    by_cases hp : msg.type = "pong" <;> simp [hp]

theorem toolIndex_foldl (l : List ToolDef) : ∀ (m : String → Option ToolDef) (name : String),
    l.foldl (fun m td => fun name => if name = td.Name then some td else m name) m name
      = match l.reverse.find? (fun td => decide (td.Name = name)) with
        | some td => some td
        | none => m name := by
  induction l with
  | nil => intro m name; rfl
  | cons td rest ih =>
    intro m name
    simp only [List.foldl_cons, ih, List.reverse_cons, List.find?_append]
    cases hr : rest.reverse.find? (fun td => decide (td.Name = name)) with
    | some x => simp
    | none =>
      by_cases hn : name = td.Name
      · simp [hn]
      · have : ¬ td.Name = name := fun h => hn h.symm
        simp [hn, this]

theorem find_name_of_nodup : ∀ (l : List ToolDef), (l.map ToolDef.Name).Nodup →
    ∀ td ∈ l, l.find? (fun x => decide (x.Name = td.Name)) = some td
  | [], _, td, h => by cases h
  | x :: rest, hn, td, h => by
    rw [List.map_cons, List.nodup_cons] at hn
    rcases List.mem_cons.1 h with rfl | hmem
    · simp
    · have hne : ¬ x.Name = td.Name := by
        intro heq
        exact hn.1 (heq ▸ List.mem_map_of_mem _ hmem)
      simp only [List.find?_cons, hne, decide_False]
      exact find_name_of_nodup rest hn.2 td hmem

theorem toolIndex_eq (name : String) :
    toolIndex name = AllTools.reverse.find? (fun td => decide (td.Name = name)) := by
  unfold toolIndex
  rw [toolIndex_foldl]
  cases AllTools.reverse.find? (fun td => decide (td.Name = name)) <;> rfl

theorem AllTools_names_nodup : (AllTools.map ToolDef.Name).Nodup := by decide

theorem toolIndex_of_mem (td : ToolDef) (h : td ∈ AllTools) : toolIndex td.Name = some td := by
  rw [toolIndex_eq]
  apply find_name_of_nodup
  · rw [List.map_reverse]
    exact List.nodup_reverse.2 AllTools_names_nodup
  · exact List.mem_reverse.2 h

theorem toolIndex_of_not_mem (name : String) (h : name ∉ AllTools.map ToolDef.Name) :
    toolIndex name = none := by
  rw [toolIndex_eq, List.find?_eq_none]
  intro td htd
  simp only [decide_eq_true_eq]
  intro heq
  exact h (heq ▸ List.mem_map_of_mem _ (List.mem_reverse.1 htd))

/-! ## The properties of the specification -/

/-- C1: exactly-once resolution.  In every state reachable by the steps of the bridge
(a call taking its id, registering, writing, timing out, receiving; a handler taking and
delivering a tool result, running the critical section of `handleDisconnect`; `Stop`):
every entry of the pending map belongs to a registered call that has not returned and
owns a channel, shared with no other entry, on which nothing has been sent; no channel
ever holds more than one value; `Stop`, `handleDisconnect` and a pending delivery never
block.  A call that has
returned returned once, with one of the outcomes peer result, remote error, timeout,
`Godot disconnected`, `server shutting down`, send failure and with the value of that
outcome; no step changes it afterwards; no entry of the map carries its channel, and
(with fewer than 2^63 calls) its id is not a key of the map.  A registered call that has
not returned can always return by its own steps. -/
theorem exactly_once_resolution (s : Sys) (hr : Reachable s) :
    (∀ e ∈ s.w.b.pending, sendCount s.w.trace e.2.ch = 0 ∧
      ∃ (k : Nat) (t : CallThread), s.calls[k]? = some t ∧ t.call.id = e.1 ∧
        t.call.ch = e.2.ch ∧ t.pc.active = true) ∧
    (∀ c, sendCount s.w.trace c ≤ 1) ∧
    (∀ (k : Nat) (t : CallThread) (o : Outcome) (r : InvokeReturn),
      s.calls[k]? = some t → t.pc = CallPC.returned o r →
        ReturnOK t.call.toolName o r ∧
        (∀ e ∈ s.w.b.pending, e.2.ch ≠ t.call.ch) ∧
        (s.calls.length < 2 ^ 63 → mapGet s.w.b.pending t.call.id = none) ∧
        (∀ (a : Action) (s1 : Sys), step a s = some s1 → s1.calls[k]? = some t)) ∧
    (∀ (k : Nat) (t : CallThread), s.calls[k]? = some t → t.pc.active = true →
      ∃ (acts : List Action) (s1 : Sys) (r : InvokeReturn), run acts s = some s1 ∧
        s1.calls[k]? = some { call := t.call, pc := CallPC.returned Outcome.timeout r }) ∧
    PendingFresh s.w ∧
    (∃ w1, Stop s.w = some w1) ∧ (∃ w1, handleDisconnect s.w = some w1) ∧
    (∀ (h c ctx : Nat) (p : pendingRequest) (m : IncomingMessage),
      s.handlers[h]? = some (HandlerPC.resolving c ctx p m) →
        ∃ w1, handleToolResult_deliver p m s.w = some w1) := by
  have hi := reachable_inv s hr
  have ho := reachable_outcomes s hr
  refine ⟨?_, ?_, ?_, ?_, hi.pendingFresh, ?_, ?_, ?_⟩
  · intro e he
    exact ⟨sendCount_eq_zero_of_not_mem _ _ (hi.pendUnsent e he), hi.pendCall e he⟩
  · intro c
    rw [sendCount_eq_count]
    exact List.nodup_iff_count_le_one.1 hi.sentNodup c
  · intro k t o r hk hpc
    have hnoch : ∀ e ∈ s.w.b.pending, e.2.ch ≠ t.call.ch := by
      intro e he heq
      obtain ⟨j, tj, hj, _, h2, h3⟩ := hi.pendCall e he
      have hjk := hi.callInj j k tj t hj hk (h2.trans heq)
      subst hjk
      rw [hk] at hj
      cases hj
      rw [hpc] at h3
      cases h3
    refine ⟨ho.2 k t o r hk hpc, hnoch, ?_, ?_⟩
    · intro hlen
      rw [mapGet_eq_none_iff]
      intro e he heq
      obtain ⟨j, tj, hj, h1, _, h3⟩ := hi.pendCall e he
      have hjk := ids_injective hi hlen j k tj t hj hk (h1.trans heq)
      subst hjk
      rw [hk] at hj
      cases hj
      rw [hpc] at h3
      cases h3
    · intro a s1 hstep
      exact step_returned_stable a s s1 hstep k t o r hk hpc
  · intro k t hk hact
    exact active_can_return s k t hk hact
  · exact ⟨_, Stop_eq s.w hi.pendingFresh⟩
  · exact ⟨_, handleDisconnect_eq s.w hi.pendingFresh⟩
  · intro h c ctx p m hh
    have hT : takenAt s h = some p := by simp [takenAt, hh, HandlerPC.taken]
    have h0 := sendCount_eq_zero_of_not_mem _ _ (hi.takenUnsent h p hT)
    refine ⟨s.w.emit (Event.send p.ch (toolResultValue m) Sender.handleToolResult), ?_⟩
    simp [handleToolResult_deliver, chanSend, chanLoad_eq_zero_of_sendCount _ _ h0]

set_option maxRecDepth 100000 in
theorem exactly_once_resolution_witness :
    Reachable (stateAfter pendingActions) ∧
    (stateAfter pendingActions).w.b.pending = [("1", { ch := 3, toolName := "X", start := 8 })] ∧
    (∀ c, sendCount (stateAfter pendingActions).w.trace c ≤ 1) :=
  ⟨stateAfter_reachable _, by decide,
    (exactly_once_resolution _ (stateAfter_reachable pendingActions)).2.1⟩

/-- C2: when no peer connection exists, `InvokeTool` returns `Godot is not connected`
whatever the clock, the transport and the select would do; it takes the lock once,
registers nothing, writes to no transport, and leaves every field of the bridge as it
was (the call still consumes one id of the counter). -/
theorem InvokeTool_not_connected (w : World) (toolName : String) (args : Args)
    (env : InvokeEnv) (h : w.b.conn = none) :
    (InvokeTool toolName args env w).2 = (none, some "Godot is not connected") ∧
    (InvokeTool toolName args env w).1.b = w.b ∧
    (InvokeTool toolName args env w).1.trace = w.trace ++ [Event.lock, Event.unlock] ∧
    (InvokeTool toolName args env w).1.nextID = wrapInt64 (w.nextID + 1) := by
  simp [InvokeTool, InvokeTool_begin, InvokeTool_register, World.emit, World.alloc, h]

theorem InvokeTool_not_connected_witness :
    (World.init DefaultPort DefaultTimeout).b.conn = none ∧
    (InvokeTool "X" none { now := 0, writeErr := none, select := .result }
      (World.init DefaultPort DefaultTimeout)).2 = (none, some "Godot is not connected") :=
  ⟨rfl, (InvokeTool_not_connected _ "X" none _ rfl).1⟩

/-- C3: in a bridge state with N pending calls on unused channels, `handleDisconnect`
returns; its first critical section sends one `Godot disconnected` error on the channel
of each of the N entries and on no other channel, cancels the read loop, and leaves
`pending` empty and `conn`, `info` nil; the observers are called after that section has
been left, with the flag false and the former info. -/
theorem handleDisconnect_drains (w : World) (hf : PendingFresh w) :
    ∃ w1 w2, handleDisconnect_locked w = some (w1, w.b.info) ∧
      handleDisconnect w = some w2 ∧
      w1.trace = w.trace ++ [Event.lock] ++
        w.b.pending.map (fun e =>
          Event.send e.2.ch { Data := none, Err := some "Godot disconnected" }
            .handleDisconnect) ++
        (w.b.cancelRead.map Event.cancel).toList ++ [Event.unlock] ∧
      w1.b.pending = [] ∧ w1.b.conn = none ∧ w1.b.info = none ∧ w1.b.cancelRead = none ∧
      w2.b = w1.b ∧
      w2.trace = w1.trace ++ [Event.lock, Event.unlock] ++
        w.b.callbacks.map (fun cb => Event.callback cb false w.b.info) ∧
      (∀ c, sendCount w2.trace c =
        sendCount w.trace c + if c ∈ w.b.pending.map (fun e => e.2.ch) then 1 else 0) := by
  refine ⟨_, _, handleDisconnect_locked_eq w hf, handleDisconnect_eq w hf,
    rfl, rfl, rfl, rfl, rfl, ?_, ?_, ?_⟩
  · simp [notifyConnectionChange_eq]
  · simp [notifyConnectionChange_eq]
  · intro c
    simp only [notifyConnectionChange_eq, sendCount_append]
    rw [sendCount_drain_events _ _ _ _ hf.2]
    have h1 : sendCount [Event.lock] c = 0 := rfl
    have h2 : sendCount (w.b.cancelRead.map Event.cancel).toList c = 0 := by
      cases w.b.cancelRead <;> rfl
    have h3 : sendCount [Event.unlock] c = 0 := rfl
    have h4 : sendCount [Event.lock, Event.unlock] c = 0 := rfl
    have h5 : sendCount (w.b.callbacks.map (fun cb => Event.callback cb false w.b.info)) c
        = 0 := by
      apply sendCount_of_no_send
      intro e he
      simp only [List.mem_map] at he
      obtain ⟨cb, _, rfl⟩ := he
      intro c1 r src hh
      cases hh
    simp only [List.head?_cons, Option.join, Option.some_bind, id_eq] at h5 ⊢
    rw [h5]
    omega

set_option maxRecDepth 100000 in
theorem handleDisconnect_drains_witness :
    PendingFresh (stateAfter pendingActions).w ∧
    (stateAfter pendingActions).w.b.pending = [("1", { ch := 3, toolName := "X", start := 8 })] ∧
    ∃ w2, handleDisconnect (stateAfter pendingActions).w = some w2 ∧ w2.b.pending = [] ∧
      sendCount w2.trace 3 = 1 := by
  have h := handleDisconnect_drains (stateAfter pendingActions).w (by decide)
  obtain ⟨w1, w2, _, h2, _, h4, _, _, _, h8, _, h10⟩ := h
  refine ⟨by decide, by decide, w2, h2, by rw [h8]; exact h4, ?_⟩
  rw [h10 3]
  decide

/-- C4: call ids are unique.  In every reachable state the counter `nextID` equals the
number of calls of `InvokeTool` so far (not-connected ones included), wrapped to 64
bits; the k-th call holds the decimal rendering of k as its id (k below 2^63); with
fewer than 2^63 calls no two calls hold the same id; every key of the pending map is
the id of a registered call that has not returned; a call about to register does not
find its id in the map, and neither is the id the next call will take a key of the
map: no id is reused as a key. -/
theorem call_ids_unique (s : Sys) (hr : Reachable s) :
    s.w.nextID = wrapInt64 s.calls.length ∧
    (∀ (k : Nat) (t : CallThread), s.calls[k]? = some t → k + 1 < 2 ^ 63 →
      t.call.id = Nat.repr (k + 1)) ∧
    (∀ (i j : Nat) (ti tj : CallThread), s.calls.length < 2 ^ 63 →
      s.calls[i]? = some ti → s.calls[j]? = some tj → ti.call.id = tj.call.id → i = j) ∧
    (∀ e ∈ s.w.b.pending, ∃ (k : Nat) (t : CallThread), s.calls[k]? = some t ∧
      t.call.id = e.1 ∧ t.pc.active = true) ∧
    (∀ (k : Nat) (t : CallThread), s.calls.length < 2 ^ 63 → s.calls[k]? = some t →
      t.pc = CallPC.created → mapGet s.w.b.pending t.call.id = none) ∧
    (∀ (toolName : String) (args : Args), s.calls.length + 1 < 2 ^ 63 →
      (InvokeTool_begin toolName args s.w).2.id = Nat.repr (s.calls.length + 1) ∧
      mapGet s.w.b.pending (InvokeTool_begin toolName args s.w).2.id = none) := by
  have hi := reachable_inv s hr
  refine ⟨hi.counter, ?_, ?_, ?_, ?_, ?_⟩
  · intro k t hk hlt
    rw [hi.callId k t hk, FormatInt_wrap_of_lt k hlt]
  · intro i j ti tj hlen h1 h2 hid
    exact ids_injective hi hlen i j ti tj h1 h2 hid
  · intro e he
    obtain ⟨k, t, hk, h1, _, h3⟩ := hi.pendCall e he
    exact ⟨k, t, hk, h1, h3⟩
  · intro k t hlen hk hpc
    rw [mapGet_eq_none_iff]
    intro e he heq
    obtain ⟨j, tj, hj, h1, _, h3⟩ := hi.pendCall e he
    have hjk := ids_injective hi hlen j k tj t hj hk (h1.trans heq)
    subst hjk
    rw [hk] at hj
    cases hj
    rw [hpc] at h3
    cases h3
  · intro toolName args hlen
    have hid : (InvokeTool_begin toolName args s.w).2.id = Nat.repr (s.calls.length + 1) := by
      rw [(InvokeTool_begin_view toolName args s.w).2.2.2.2.2, hi.counter, wrapInt64_succ,
        FormatInt_wrap_of_lt _ hlen]
    refine ⟨hid, ?_⟩
    rw [mapGet_eq_none_iff]
    intro e he heq
    obtain ⟨j, tj, hj, h1, _, _⟩ := hi.pendCall e he
    have hj1 := getElem?_lt _ _ _ hj
    rw [hid, ← h1, hi.callId j tj hj, FormatInt_wrap_of_lt j (by omega)] at heq
    have := repr_injective _ _ heq
    omega

set_option maxRecDepth 100000 in
theorem call_ids_unique_witness :
    Reachable (stateAfter pendingActions) ∧
    (stateAfter pendingActions).calls.map (fun t => t.call.id) = ["1"] ∧
    (InvokeTool_begin "Y" none (stateAfter pendingActions).w).2.id = Nat.repr 2 :=
  ⟨stateAfter_reachable _, by decide,
    ((call_ids_unique _ (stateAfter_reachable pendingActions)).2.2.2.2.2 "Y" none
      (by decide)).1⟩

/-- C5 (at most one peer connection, not kept by the code): two handshake handlers can both read
`conn == nil` before either installs.  After the run `raceActions` the first handler
runs its read loop on peer 1, which is installed in `b.conn`, and the second handler
holds its accepted peer 2; its install step then overwrites the non-nil `b.conn`, and
after it both accepted peers have a running read loop. -/
theorem handleUpgrade_race :
    Reachable (stateAfter raceActions) ∧
    (stateAfter raceActions).handlers = [HandlerPC.reading 1 3, HandlerPC.accepted 2] ∧
    (stateAfter raceActions).w.b.conn = some 1 ∧
    (∃ s1 s2, step (Action.install 1 8) (stateAfter raceActions) = some s1 ∧
      s1.w.b.conn = some 2 ∧
      step (Action.notifyConnected 1) s1 = some s2 ∧
      s2.handlers = [HandlerPC.reading 1 3, HandlerPC.reading 2 4] ∧
      s2.handlers.map HandlerPC.peer = [some 1, some 2]) := by
  refine ⟨stateAfter_reachable _, by decide, by decide, ?_⟩
  refine ⟨(step (Action.install 1 8) (stateAfter raceActions)).getD (stateAfter raceActions),
    (run [Action.install 1 8, Action.notifyConnected 1] (stateAfter raceActions)).getD
      (stateAfter raceActions), by decide, by decide, by decide, by decide, by decide⟩

/-- C6: when a peer connection exists at the start of `handleUpgrade`, the handler takes
the rejecting branch: the new handshake, if `websocket.Accept` succeeds, is accepted and
closed with code 4000 (a code outside the protocol range 1000-2999, different from the
going-away code that `Stop` uses), and nothing else happens; every field of the bridge, `conn`, `info`,
`cancelRead` and the pending map among them, is as before, no channel receives a value
and no observer is called. -/
theorem handleUpgrade_rejects_second (w : World) (acceptOK : Bool) (now : Nat)
    (h : w.b.conn ≠ none) :
    (handleUpgrade_begin acceptOK now w).2 = UpgradeOutcome.rejected ∧
    (handleUpgrade_begin acceptOK now w).1.b = w.b ∧
    (handleUpgrade_begin acceptOK now w).1.nextID = w.nextID ∧
    (handleUpgrade_begin acceptOK now w).1.trace = w.trace ++ [Event.lock, Event.unlock] ++
      (if acceptOK then
        [Event.accept w.heap,
         Event.close w.heap 4000 "Another Godot instance is already connected"]
       else []) ∧
    (∀ c, sendCount (handleUpgrade_begin acceptOK now w).1.trace c = sendCount w.trace c) ∧
    (∀ conn code reason,
      Event.close conn code reason ∈ (handleUpgrade_begin acceptOK now w).1.trace →
      Event.close conn code reason ∈ w.trace ∨
        (code = 4000 ∧ code ≠ StatusGoingAway ∧ ¬ (1000 ≤ code ∧ code ≤ 2999))) := by
  have hc : w.b.conn.isSome = true := by
    cases hcc : w.b.conn with
    | none => exact absurd hcc h
    | some c => rfl
  have e : handleUpgrade_begin acceptOK now w
      = (handleUpgrade_reject acceptOK ((w.emit .lock).emit .unlock), .rejected) := by
    simp [handleUpgrade_begin, handleUpgrade_check, hc]
  rw [e]
  cases acceptOK
  · refine ⟨rfl, rfl, rfl, ?_, ?_, ?_⟩
    · simp [handleUpgrade_reject, World.emit]
    · intro c
      simp [handleUpgrade_reject, World.emit, sendCount_append, sendCount]
    · intro conn code reason hmem
      simp [handleUpgrade_reject, World.emit] at hmem
      exact Or.inl hmem
  · refine ⟨rfl, rfl, rfl, ?_, ?_, ?_⟩
    · simp [handleUpgrade_reject, World.emit, World.alloc]
    · intro c
      simp [handleUpgrade_reject, World.emit, World.alloc, sendCount_append, sendCount]
    · intro conn code reason hmem
      simp [handleUpgrade_reject, World.emit, World.alloc] at hmem
      rcases hmem with h1 | ⟨_, h2, _⟩
      · exact Or.inl h1
      · subst h2
        exact Or.inr ⟨rfl, by decide, by decide⟩

theorem handleUpgrade_rejects_second_witness :
    ({ (World.init DefaultPort DefaultTimeout) with
        b := { New DefaultPort DefaultTimeout with conn := some 0 }, heap := 1 } : World).b.conn
      ≠ none ∧
    (handleUpgrade_begin true 5 { (World.init DefaultPort DefaultTimeout) with
        b := { New DefaultPort DefaultTimeout with conn := some 0 }, heap := 1 }).2
      = UpgradeOutcome.rejected :=
  ⟨by decide, (handleUpgrade_rejects_second _ true 5 (by decide)).1⟩

/-- C7 (every `InvokeTool` after `Stop` fails, not so after a late install): a handshake
is accepted while no peer is connected, `Stop` runs and leaves `conn` nil, and the
handler of the handshake then installs its connection (lines 237-241 check nothing); an
`InvokeTool` issued after that registers its call, writes it to the connection and runs
into the timeout instead of failing with `Godot is not connected`. -/
theorem Stop_then_install :
    Reachable (stateAfter lateInstallActions) ∧
    lateInstallActions.take 5 ++ [Action.install 0 7] = lateInstallActions ∧
    (lateInstallActions.take 5).getLast? = some Action.stop ∧
    (stateAfter (lateInstallActions.take 5)).w.b.conn = none ∧
    (stateAfter (lateInstallActions.take 5)).handlers = [HandlerPC.accepted 1] ∧
    (stateAfter lateInstallActions).w.b.conn = some 1 ∧
    (InvokeTool "X" none { now := 9, writeErr := none, select := SelectCase.deadline }
      (stateAfter lateInstallActions).w).2 = (none, some "tool X timed out after 30s") ∧
    (InvokeTool "X" none { now := 9, writeErr := none, select := SelectCase.deadline }
      (stateAfter lateInstallActions).w).2 ≠ (none, some "Godot is not connected") ∧
    Event.write 1 { type := "tool_invoke", ID := "1", Tool := "X", Args := none }
      ∈ (InvokeTool "X" none { now := 9, writeErr := none, select := SelectCase.deadline }
          (stateAfter lateInstallActions).w).1.trace := by
  refine ⟨stateAfter_reachable _, by decide, by decide, by decide, by decide, by decide,
    by decide, by decide, by decide⟩

/-- C7, for the calls made before a handshake installs a connection again: in a bridge
state whose pending channels are unused, `Stop` returns; it sends one
`server shutting down` error on the channel of every pending entry and on no other
channel, cancels the read loop, closes the connection with the going-away code and
closes the listener; afterwards `pending` is empty and `conn`, `cancelRead`,
`httpServer` are nil, and `InvokeTool` run in that state returns
`Godot is not connected`; so does every `InvokeTool` run in a state that the system
reaches from there by steps among which no handshake installs a connection. -/
theorem Stop_drains (w : World) (hf : PendingFresh w) :
    ∃ w1, Stop w = some w1 ∧
      w1.trace = w.trace ++ [Event.lock] ++
        w.b.pending.map (fun e =>
          Event.send e.2.ch { Data := none, Err := some "server shutting down" } .Stop) ++
        (w.b.cancelRead.map Event.cancel).toList ++
        (w.b.conn.map (fun c => Event.close c StatusGoingAway "server shutting down")).toList ++
        (w.b.httpServer.map Event.serverClose).toList ++ [Event.unlock] ∧
      (∀ c, sendCount w1.trace c =
        sendCount w.trace c + if c ∈ w.b.pending.map (fun e => e.2.ch) then 1 else 0) ∧
      w1.b.pending = [] ∧ w1.b.conn = none ∧ w1.b.cancelRead = none ∧
      w1.b.httpServer = none ∧
      (∀ toolName args env,
        (InvokeTool toolName args env w1).2 = (none, some "Godot is not connected")) ∧
      (∀ (s s1 : Sys) (acts : List Action), s.w = w1 →
        (∀ i now, Action.install i now ∉ acts) → run acts s = some s1 →
        ∀ toolName args env,
          (InvokeTool toolName args env s1.w).2 = (none, some "Godot is not connected")) := by
  refine ⟨_, Stop_eq w hf, rfl, ?_, rfl, rfl, rfl, rfl, ?_, ?_⟩
  · intro c
    simp only [sendCount_append]
    rw [sendCount_drain_events _ _ _ _ hf.2]
    have h1 : sendCount [Event.lock] c = 0 := rfl
    have h2 : sendCount (w.b.cancelRead.map Event.cancel).toList c = 0 := by
      cases w.b.cancelRead <;> rfl
    have h3 : sendCount [Event.unlock] c = 0 := rfl
    have h4 : sendCount (w.b.conn.map
        (fun c => Event.close c StatusGoingAway "server shutting down")).toList c = 0 := by
      cases w.b.conn <;> rfl
    have h5 : sendCount (w.b.httpServer.map Event.serverClose).toList c = 0 := by
      cases w.b.httpServer <;> rfl
    rw [h1, h2, h3, h4, h5]
    omega
  · intro toolName args env
    simp [InvokeTool, InvokeTool_begin, InvokeTool_register, World.emit, World.alloc]
  · intro s s1 acts hsw hno hrun toolName args env
    refine InvokeTool_conn_none _ _ _ _ (run_conn_none acts s s1 hrun ?_ hno)
    rw [hsw]

set_option maxRecDepth 100000 in
theorem Stop_drains_witness :
    PendingFresh (stateAfter pendingActions).w ∧
    (stateAfter pendingActions).w.b.pending = [("1", { ch := 3, toolName := "X", start := 8 })] ∧
    ∃ w1, Stop (stateAfter pendingActions).w = some w1 ∧ w1.b.pending = [] ∧
      w1.b.conn = none ∧ sendCount w1.trace 3 = 1 := by
  have h := Stop_drains (stateAfter pendingActions).w (by decide)
  obtain ⟨w1, h1, _, h3, h4, h5, _, _, _, _⟩ := h
  refine ⟨by decide, by decide, w1, h1, h4, h5, ?_⟩
  rw [h3 3]
  decide

/-- C8: `Stop` is idempotent.  After a `Stop` that returned, a second `Stop` returns as
well, leaves every field of the bridge, the id counter and the heap as the first one
left them, and does nothing but take and release the lock: it sends on no channel and
closes no transport. -/
theorem Stop_idempotent (w w1 : World) (h : Stop w = some w1) :
    ∃ w2, Stop w1 = some w2 ∧ w2.b = w1.b ∧ w2.nextID = w1.nextID ∧ w2.heap = w1.heap ∧
      w2.trace = w1.trace ++ [Event.lock, Event.unlock] := by
  have hb := Stop_some_b w w1 h
  have hp : w1.b.pending = [] := by rw [hb]
  have hc : w1.b.cancelRead = none := by rw [hb]
  have hconn : w1.b.conn = none := by rw [hb]
  have hs : w1.b.httpServer = none := by rw [hb]
  refine ⟨(w1.emit .lock).emit .unlock, ?_, rfl, rfl, rfl, ?_⟩
  · simp [Stop, World.emit, hp, drain, cancelReadLoop, hc, hconn, hs]
  · simp [World.emit]

set_option maxRecDepth 100000 in
theorem Stop_idempotent_witness :
    Stop (stateAfter pendingActions).w =
      some ((Stop (stateAfter pendingActions).w).getD (stateAfter pendingActions).w) ∧
    ∃ w2, Stop ((Stop (stateAfter pendingActions).w).getD (stateAfter pendingActions).w)
        = some w2 ∧
      w2.b = ((Stop (stateAfter pendingActions).w).getD (stateAfter pendingActions).w).b := by
  have h := Stop_idempotent (stateAfter pendingActions).w
    ((Stop (stateAfter pendingActions).w).getD (stateAfter pendingActions).w) (by decide)
  obtain ⟨w2, h1, h2, _⟩ := h
  exact ⟨by decide, w2, h1, h2⟩

/-- C9: with a peer connected and the id about to be taken not yet a key of the pending
map, a call of `InvokeTool` for tool T whose message is written and whose select ends on
the deadline returns the error `tool T timed out after D`, D the configured timeout; it
registered its entry and took it out again, so the bridge, with the pending map and its
count, `conn` and `info`, is exactly as before the call, and the only transport effect
is the one write of the invoke message.  In any state, the deadline branch alone deletes
the own id and touches no other entry, nor `conn`, nor `info`. -/
theorem InvokeTool_timeout (w : World) (toolName : String) (args : Args) (env : InvokeEnv)
    (c : Nat) (hc : w.b.conn = some c) (hw : env.writeErr = none)
    (hs : env.select = SelectCase.deadline)
    (hid : mapGet w.b.pending (FormatInt (wrapInt64 (w.nextID + 1))) = none) :
    (InvokeTool toolName args env w).2 =
      (none, some ("tool " ++ toolName ++ " timed out after " ++ Duration.String w.b.timeout)) ∧
    (InvokeTool toolName args env w).1.b = w.b ∧
    (InvokeTool toolName args env w).1.b.pending.length = w.b.pending.length ∧
    (InvokeTool toolName args env w).1.trace = w.trace ++
      [Event.lock, Event.unlock,
       Event.write c { type := "tool_invoke", ID := FormatInt (wrapInt64 (w.nextID + 1)),
                       Tool := toolName, Args := args },
       Event.lock, Event.unlock] ∧
    mapGet (InvokeTool_register (InvokeTool_begin toolName args w).2 env.now
        (InvokeTool_begin toolName args w).1).1.b.pending
        (FormatInt (wrapInt64 (w.nextID + 1)))
      = some { ch := w.heap, toolName := toolName, start := env.now } ∧
    (∀ (call : invokeCall) (w1 : World),
      (InvokeTool_deadline call w1).1.b =
        { w1.b with pending := mapDelete w1.b.pending call.id } ∧
      (InvokeTool_deadline call w1).1.b.conn = w1.b.conn ∧
      (InvokeTool_deadline call w1).1.b.info = w1.b.info ∧
      mapGet (InvokeTool_deadline call w1).1.b.pending call.id = none ∧
      (∀ id, id ≠ call.id →
        mapGet (InvokeTool_deadline call w1).1.b.pending id = mapGet w1.b.pending id)) := by
  obtain ⟨⟨port, timeout, conn, info, pending, cbs, srv, cr⟩, n, hp, tr⟩ := w
  simp only at hc hid
  subst hc
  have hb : (InvokeTool toolName args env
      ⟨⟨port, timeout, some c, info, pending, cbs, srv, cr⟩, n, hp, tr⟩).1.b
      = ⟨port, timeout, some c, info, pending, cbs, srv, cr⟩ := by
    simp [InvokeTool, InvokeTool_begin, InvokeTool_register, InvokeTool_write,
      InvokeTool_deadline, World.emit, World.alloc, World.setB, World.deletePending, hw, hs,
      mapDelete_mapSet, mapDelete_of_absent _ _ hid]
  refine ⟨?_, hb, by rw [hb], ?_, ?_, ?_⟩
  · simp [InvokeTool, InvokeTool_begin, InvokeTool_register, InvokeTool_write,
      InvokeTool_deadline, World.emit, World.alloc, World.setB, World.deletePending, hw, hs]
  · simp [InvokeTool, InvokeTool_begin, InvokeTool_register, InvokeTool_write,
      InvokeTool_deadline, World.emit, World.alloc, World.setB, World.deletePending, hw, hs]
  · simp [InvokeTool_begin, InvokeTool_register, World.emit, World.alloc, World.setB,
      mapSet, mapGet, mapDelete_of_absent _ _ hid, List.find?_append]
    rw [mapGet_eq_none_iff] at hid
    exact ⟨_, Or.inr ⟨fun a b hab => hid (a, b) hab, rfl⟩⟩
  · intro call w1
    refine ⟨rfl, rfl, rfl, ?_, ?_⟩
    · exact mapGet_mapDelete_self _ _
    · intro id hne
      exact mapGet_mapDelete_of_ne _ _ _ hne

set_option maxRecDepth 100000 in
theorem InvokeTool_timeout_witness :
    (stateAfter connectActions).w.b.conn = some 1 ∧
    mapGet (stateAfter connectActions).w.b.pending
      (FormatInt (wrapInt64 ((stateAfter connectActions).w.nextID + 1))) = none ∧
    (InvokeTool "X" none { now := 9, writeErr := none, select := SelectCase.deadline }
      (stateAfter connectActions).w).2 = (none, some "tool X timed out after 30s") ∧
    (InvokeTool "X" none { now := 9, writeErr := none, select := SelectCase.deadline }
      (stateAfter connectActions).w).1.b = (stateAfter connectActions).w.b := by
  have h := InvokeTool_timeout (stateAfter connectActions).w "X" none
    { now := 9, writeErr := none, select := SelectCase.deadline } 1 (by decide) rfl rfl
    (by decide)
  refine ⟨by decide, by decide, ?_, h.2.1⟩
  rw [h.1]
  decide

/-- C10: for a message whose id is a key of the pending map, with the entry's channel
empty, `handleToolResult` returns; it deletes exactly that key (every other key, `conn`
and `info` are untouched) and sends exactly one value on the entry's channel: the
message's result with no error when `success` is present and true, otherwise an error
whose text is the message's `error` field, or `Tool execution failed` when that field is
empty. -/
theorem handleToolResult_resolves (w : World) (msg : IncomingMessage) (p : pendingRequest)
    (hp : mapGet w.b.pending msg.ID = some p) (hempty : chanLoad w.trace p.ch = 0) :
    ∃ w1, handleToolResult msg w = some w1 ∧
      w1.b = { w.b with pending := mapDelete w.b.pending msg.ID } ∧
      mapGet w1.b.pending msg.ID = none ∧
      (∀ id, id ≠ msg.ID → mapGet w1.b.pending id = mapGet w.b.pending id) ∧
      w1.b.conn = w.b.conn ∧ w1.b.info = w.b.info ∧
      w1.trace = w.trace ++ [Event.lock, Event.unlock,
        Event.send p.ch
          (if msg.Success = some true then { Data := msg.Result, Err := none }
           else if msg.Error = "" then { Data := none, Err := some "Tool execution failed" }
           else { Data := none, Err := some msg.Error })
          Sender.handleToolResult] ∧
      (∀ c, sendCount w1.trace c = sendCount w.trace c + if c = p.ch then 1 else 0) ∧
      (msg.type = "tool_result" → handleMessage msg w = some w1) := by
  have hload : chanLoad (w.trace ++ [Event.lock] ++ [Event.unlock]) p.ch = 0 := by
    have e1 : sendCount (w.trace ++ [Event.lock] ++ [Event.unlock]) p.ch
        = sendCount w.trace p.ch := by
      simp only [sendCount_append]; rfl
    have e2 : recvCount (w.trace ++ [Event.lock] ++ [Event.unlock]) p.ch
        = recvCount w.trace p.ch := by
      simp [recvCount, List.countP_append]
    simp only [chanLoad, e1, e2] at hempty ⊢
    exact hempty
  have hval : toolResultValue msg =
      (if msg.Success = some true then { Data := msg.Result, Err := none }
       else if msg.Error = "" then { Data := none, Err := some "Tool execution failed" }
       else { Data := none, Err := some msg.Error }) := by
    unfold toolResultValue
    by_cases h1 : msg.Success = some true
    · simp [h1]
    · by_cases h2 : msg.Error = "" <;> simp [h1, h2]
  have he : handleToolResult msg w = some
      { b := { w.b with pending := mapDelete w.b.pending msg.ID },
        nextID := w.nextID, heap := w.heap,
        trace := w.trace ++ [Event.lock, Event.unlock,
          Event.send p.ch (toolResultValue msg) Sender.handleToolResult] } := by
    simp only [handleToolResult, handleToolResult_take, World.emit, hp,
      handleToolResult_deliver, chanSend, World.deletePending, World.setB, hload, if_true]
    simp
  refine ⟨_, he, rfl, mapGet_mapDelete_self _ _, ?_, rfl, rfl, ?_, ?_, ?_⟩
  · intro id hne
    exact mapGet_mapDelete_of_ne _ _ _ hne
  · simp only [hval]
  · intro c
    have e3 : w.trace ++ [Event.lock, Event.unlock,
        Event.send p.ch (toolResultValue msg) Sender.handleToolResult]
        = w.trace ++ [Event.lock, Event.unlock] ++
          [Event.send p.ch (toolResultValue msg) Sender.handleToolResult] := by simp
    simp only [e3, sendCount_append, sendCount_send]
    have h1 : sendCount [Event.lock, Event.unlock] c = 0 := rfl
    rw [h1]
    by_cases hcp : p.ch = c
    · simp [hcp]
    · have : ¬ c = p.ch := fun h => hcp h.symm
      simp [hcp, this]
  · intro ht
    simp only [handleMessage, ht, if_true]
    exact he

set_option maxRecDepth 100000 in
theorem handleToolResult_resolves_witness :
    mapGet (stateAfter pendingActions).w.b.pending "1"
      = some { ch := 3, toolName := "X", start := 8 } ∧
    chanLoad (stateAfter pendingActions).w.trace 3 = 0 ∧
    ∃ w1, handleToolResult
        { type := "tool_result", ID := "1", Success := some true,
          Result := some "\x7b\"b\":2\x7d", Error := "", ProjectPath := "" }
        (stateAfter pendingActions).w = some w1 ∧
      w1.b.pending = [] ∧
      w1.trace = (stateAfter pendingActions).w.trace ++
        [Event.lock, Event.unlock,
         Event.send 3 { Data := some "\x7b\"b\":2\x7d", Err := none }
           Sender.handleToolResult] := by
  have h := handleToolResult_resolves (stateAfter pendingActions).w
    { type := "tool_result", ID := "1", Success := some true,
      Result := some "\x7b\"b\":2\x7d", Error := "", ProjectPath := "" }
    { ch := 3, toolName := "X", start := 8 } (by decide) (by decide)
  obtain ⟨w1, h1, h2, _, _, _, _, h7, _⟩ := h
  refine ⟨by decide, by decide, w1, h1, ?_, ?_⟩
  · rw [h2]
    decide
  · rw [h7]
    simp

/-- C11: for a `tool_result` message whose id is not a key of the pending map (a result
that comes after the timeout of its call, a second result for the same call, an id never
given out), `handleToolResult` returns, leaves every field of the bridge, the id counter
and the heap as they were, takes and releases the lock and sends on no channel.  In every
reachable state with fewer than 2^63 calls, a call that has returned shares its id with
no other call, its id is not a key of the map, and a result carrying that id changes
nothing: it reaches no later call. -/
theorem handleToolResult_unknown_id (w : World) (msg : IncomingMessage)
    (h : mapGet w.b.pending msg.ID = none) :
    (∃ w1, handleToolResult msg w = some w1 ∧ w1.b = w.b ∧ w1.nextID = w.nextID ∧
      w1.heap = w.heap ∧ w1.trace = w.trace ++ [Event.lock, Event.unlock] ∧
      sends w1.trace = sends w.trace ∧
      (∀ c, sendCount w1.trace c = sendCount w.trace c) ∧
      (msg.type = "tool_result" → handleMessage msg w = some w1)) ∧
    (∀ (s : Sys), Reachable s → s.calls.length < 2 ^ 63 →
      ∀ (k : Nat) (t : CallThread) (o : Outcome) (r : InvokeReturn),
        s.calls[k]? = some t → t.pc = CallPC.returned o r →
        (∀ (j : Nat) (tj : CallThread), s.calls[j]? = some tj → j ≠ k →
          tj.call.id ≠ t.call.id) ∧
        ∀ m : IncomingMessage, m.ID = t.call.id →
          ∃ w1, handleToolResult m s.w = some w1 ∧ w1.b = s.w.b ∧
            sends w1.trace = sends s.w.trace) := by
  have hq : sends ((w.emit .lock).emit .unlock).trace = sends w.trace := by
    simp [World.emit, sends, List.filterMap_append]
  constructor
  · refine ⟨_, handleToolResult_absent w msg h, rfl, rfl, rfl, by simp [World.emit], hq, ?_, ?_⟩
    · intro c
      simp only [World.emit, sendCount_append]
      rfl
    · intro ht
      simp only [handleMessage, ht, if_true]
      exact handleToolResult_absent w msg h
  · intro s hr hlen k t o r hk hpc
    have hi := reachable_inv s hr
    constructor
    · intro j tj hj hne heq
      exact hne (ids_injective hi hlen j k tj t hj hk heq)
    · intro m hm
      have hnone : mapGet s.w.b.pending m.ID = none := by
        rw [mapGet_eq_none_iff]
        intro e he heq
        obtain ⟨j, tj, hj, h1, _, h3⟩ := hi.pendCall e he
        have hjk := ids_injective hi hlen j k tj t hj hk (h1.trans (heq.trans hm))
        subst hjk
        rw [hk] at hj
        cases hj
        rw [hpc] at h3
        cases h3
      refine ⟨_, handleToolResult_absent s.w m hnone, rfl, ?_⟩
      simp [World.emit, sends, List.filterMap_append]

set_option maxRecDepth 100000 in
theorem handleToolResult_unknown_id_witness :
    mapGet (stateAfter lateActions).w.b.pending "1" = none ∧
    (stateAfter lateActions).w.b.pending = [("2", { ch := 4, toolName := "Y", start := 9 })] ∧
    ∃ w1, handleToolResult
        { type := "tool_result", ID := "1", Success := some true,
          Result := some "\x7b\"b\":2\x7d", Error := "", ProjectPath := "" }
        (stateAfter lateActions).w = some w1 ∧
      w1.b = (stateAfter lateActions).w.b ∧ sends w1.trace = sends (stateAfter lateActions).w.trace := by
  have h := (handleToolResult_unknown_id (stateAfter lateActions).w
    { type := "tool_result", ID := "1", Success := some true,
      Result := some "\x7b\"b\":2\x7d", Error := "", ProjectPath := "" } (by decide)).1
  obtain ⟨w1, h1, h2, _, _, _, h6, _⟩ := h
  exact ⟨by decide, by decide, w1, h1, h2, h6⟩

/-- C12 (`info` cleared together with `conn`, not kept by `Stop`): after a peer has
connected and announced its project, `Stop` sets `conn` to nil and leaves `info` as it
was, so `GetStatus` reports `Connected` false together with the project path and the
connect time of the former peer; `handleDisconnect`, run in the same state, clears
both. -/
theorem Stop_keeps_info :
    Reachable (stateAfter readyActions) ∧ Reachable (stateAfter staleActions) ∧
    (stateAfter readyActions).w.b.conn = some 1 ∧
    (stateAfter readyActions).w.b.info
      = some { ProjectPath := "/home/u/game", ConnectedAt := 7 } ∧
    Stop (stateAfter readyActions).w = some (stateAfter staleActions).w ∧
    (stateAfter staleActions).w.b.conn = none ∧
    (stateAfter staleActions).w.b.info
      = some { ProjectPath := "/home/u/game", ConnectedAt := 7 } ∧
    (GetStatus (stateAfter staleActions).w).2
      = { Connected := false, ProjectPath := "/home/u/game", ConnectedAt := some 7,
          PendingRequests := 0, Port := 6505 } ∧
    (∃ w1, handleDisconnect (stateAfter readyActions).w = some w1 ∧ w1.b.conn = none ∧
      w1.b.info = none ∧
      (GetStatus w1).2 = { Connected := false, ProjectPath := "", ConnectedAt := none,
                           PendingRequests := 0, Port := 6505 }) := by
  refine ⟨stateAfter_reachable _, stateAfter_reachable _, by decide, by decide, by decide,
    by decide, by decide, by decide, ?_⟩
  exact ⟨(handleDisconnect (stateAfter readyActions).w).getD (stateAfter readyActions).w,
    by decide, by decide, by decide, by decide⟩

set_option maxRecDepth 100000 in
/-- C13 (placeholder returned unchanged for every tool, not so for `map_project`): with no
peer connected `InvokeTool` fails with `Godot is not connected`, and the handler of the
registered tool `map_project` hands the placeholder to `handleMapProject`: the relay
starts serving and opens the browser, and the text returned is the JSON of the
placeholder with the added key `visualization_url`, a text other than the JSON of the
placeholder itself. -/
theorem toolHandler_map_project_mock :
    ({ Name := "map_project", MockFn := mock_map_project } : ToolDef) ∈ AllTools ∧
    (World.init DefaultPort DefaultTimeout).b.conn = none ∧
    (InvokeTool "map_project" (some JSONFields.nil)
      { now := 0, writeErr := none, select := SelectCase.result }
      (World.init DefaultPort DefaultTimeout)).2 = (none, some "Godot is not connected") ∧
    (toolHandler plainJSON sampleEnv { Name := "map_project", MockFn := mock_map_project }
      (some "\x7b\x7d") { now := 0, writeErr := none, select := SelectCase.result }
      { w := World.init DefaultPort DefaultTimeout, viz := sampleViz }).2.1.map
        CallToolResult.IsError = some false ∧
    (toolHandler plainJSON sampleEnv { Name := "map_project", MockFn := mock_map_project }
      (some "\x7b\x7d") { now := 0, writeErr := none, select := SelectCase.result }
      { w := World.init DefaultPort DefaultTimeout, viz := sampleViz }).2.1.map
        CallToolResult.Text ≠ some (plainJSON.Marshal (mock_map_project (some JSONFields.nil))) ∧
    (∃ m, mock_map_project (some JSONFields.nil) = JSONValue.object m ∧
      m.get "visualization_url" = none ∧
      (toolHandler plainJSON sampleEnv { Name := "map_project", MockFn := mock_map_project }
        (some "\x7b\x7d") { now := 0, writeErr := none, select := SelectCase.result }
        { w := World.init DefaultPort DefaultTimeout, viz := sampleViz }).2
        = textResult plainJSON (JSONValue.object
            (m.set "visualization_url" (JSONValue.string "http://localhost:6510")))) ∧
    (toolHandler plainJSON sampleEnv { Name := "map_project", MockFn := mock_map_project }
      (some "\x7b\x7d") { now := 0, writeErr := none, select := SelectCase.result }
      { w := World.init DefaultPort DefaultTimeout, viz := sampleViz }).1.viz.trace
      = [Visualizer.Event.lock, Visualizer.Event.unlock, Visualizer.Event.listen 6510,
         Visualizer.Event.lock, Visualizer.Event.unlock,
         Visualizer.Event.openBrowser "http://localhost:6510"] := by
  refine ⟨by simp [AllTools, visualizerTools], by decide, by decide, by decide, ?_,
    ⟨_, rfl, by decide, rfl⟩, by decide⟩
  intro h
  have h1 := congrArg (Option.map String.length) h
  revert h1
  simp only [Option.map_map, Option.map_some']
  decide

/-- C13, for the tools other than `map_project`, with the bridge still without a peer when
the handler calls `IsConnected`: when no peer is connected, `InvokeTool` returns
`Godot is not connected` and the handler returns, not flagged as an error and with no Go
error, the JSON text of the tool's `MockFn` on the decoded arguments; the relay is not
touched and the fields of the bridge are as before.  The same holds for every error that
`InvokeTool` returned when the handler finds no peer connected afterwards. -/
theorem toolHandler_mock_fallback (lib : GoLib) (venv : Visualizer.Env) (td : ToolDef)
    (arguments : RawMessage) (env : InvokeEnv) (h : Host)
    (hn : td.Name ≠ "map_project") (hc : h.w.b.conn = none) :
    (InvokeTool td.Name (parseArguments lib arguments) env h.w).2
      = (none, some "Godot is not connected") ∧
    (toolHandler lib venv td arguments env h).2 =
      (some { Text := lib.Marshal (td.MockFn (parseArguments lib arguments)),
              IsError := false }, none) ∧
    (toolHandler lib venv td arguments env h).1.viz = h.viz ∧
    (toolHandler lib venv td arguments env h).1.w.b = h.w.b ∧
    (∀ (args : Args) (r : InvokeReturn) (err : String), r.2 = some err →
      toolHandler_route lib venv td args r h =
        ({ h with w := (h.w.emit Event.lock).emit Event.unlock },
         (some { Text := lib.Marshal (td.MockFn args), IsError := false }, none))) := by
  have h2 : (InvokeTool td.Name (parseArguments lib arguments) env h.w).2
      = (none, some "Godot is not connected") := by
    simp [InvokeTool, InvokeTool_begin, InvokeTool_register, World.emit, World.alloc, hc]
  have hb : (InvokeTool td.Name (parseArguments lib arguments) env h.w).1.b = h.w.b := by
    simp [InvokeTool, InvokeTool_begin, InvokeTool_register, World.emit, World.alloc, hc]
  have hr : ∀ (args : Args) (r : InvokeReturn) (err : String) (h1 : Host), r.2 = some err →
      h1.w.b.conn = none →
      toolHandler_route lib venv td args r h1 =
        ({ h1 with w := (h1.w.emit Event.lock).emit Event.unlock },
         (some { Text := lib.Marshal (td.MockFn args), IsError := false }, none)) := by
    intro args r err h1 he hc1
    rw [toolHandler_route_mock lib venv td args r err h1 he hc1,
      toolHandler_finish_other lib venv td _ _ hn]
    rfl
  have he : toolHandler lib venv td arguments env h =
      ({ h with w := (((InvokeTool td.Name (parseArguments lib arguments) env h.w).1.emit
            Event.lock).emit Event.unlock) },
       (some { Text := lib.Marshal (td.MockFn (parseArguments lib arguments)),
               IsError := false }, none)) := by
    rw [toolHandler_not_connected_eq lib venv td arguments env h hc]
    rw [hr _ _ "Godot is not connected" _ rfl (by simp only; rw [hb]; exact hc)]
  refine ⟨h2, ?_, ?_, ?_, ?_⟩
  · rw [he]
  · rw [he]
  · rw [he]
    simp only [World.emit]
    exact hb
  · intro args r err hre
    exact hr args r err h hre hc

set_option maxRecDepth 100000 in
theorem toolHandler_mock_fallback_witness :
    "list_dir" ≠ "map_project" ∧
    (World.init DefaultPort DefaultTimeout).b.conn = none ∧
    (toolHandler plainJSON sampleEnv { Name := "list_dir", MockFn := mock_list_dir }
      (some "\x7b\"root\":\"res://scenes\"\x7d")
      { now := 0, writeErr := none, select := SelectCase.result }
      { w := World.init DefaultPort DefaultTimeout, viz := sampleViz }).2
      = (some { Text := "\x7b\"_mock\":true,\"_note\":\"This is mock data. Connect Godot for real results.\",\"files\":[\"project.godot\",\"icon.svg\",\"default_env.tres\"],\"folders\":[\"scenes\",\"scripts\",\"assets\",\"addons\"],\"path\":\"res://scenes\"\x7d",
                IsError := false }, none) := by
  refine ⟨by decide, by decide, ?_⟩
  rw [(toolHandler_mock_fallback plainJSON sampleEnv
    { Name := "list_dir", MockFn := mock_list_dir }
    (some "\x7b\"root\":\"res://scenes\"\x7d")
    { now := 0, writeErr := none, select := SelectCase.result }
    { w := World.init DefaultPort DefaultTimeout, viz := sampleViz } (by decide) (by decide)).2.1]
  decide

set_option maxRecDepth 100000 in
/-- C14 (every failure while a peer is connected gives the error result, not so for a
shutdown): a peer is connected, a call of the registered tool `list_dir` is registered
and written, `Stop` fails it with `server shutting down` and closes the connection in
the same critical section; the handler then finds no peer connected and returns the
placeholder of `list_dir`, not flagged as an error. -/
theorem toolHandler_shutdown_mock :
    ({ Name := "list_dir", MockFn := mock_list_dir } : ToolDef) ∈ AllTools ∧
    Reachable (stateAfter shutdownActions) ∧
    (stateAfter pendingActions).w.b.conn = some 1 ∧
    returnOf (stateAfter shutdownActions) 0 = some (none, some "server shutting down") ∧
    (stateAfter shutdownActions).w.b.conn = none ∧
    (toolHandler_route plainJSON sampleEnv { Name := "list_dir", MockFn := mock_list_dir }
      (some JSONFields.nil) (none, some "server shutting down")
      { w := (stateAfter shutdownActions).w, viz := sampleViz }).2
      = (some { Text := plainJSON.Marshal (mock_list_dir (some JSONFields.nil)),
                IsError := false }, none) ∧
    (toolHandler_route plainJSON sampleEnv { Name := "list_dir", MockFn := mock_list_dir }
      (some JSONFields.nil) (none, some "server shutting down")
      { w := (stateAfter shutdownActions).w, viz := sampleViz }).2.1.map CallToolResult.IsError
      = some false := by
  refine ⟨by simp [AllTools, fileTools], stateAfter_reachable _, by decide, by decide,
    by decide, by decide, by decide⟩

/-- C14, for the failures after which the handler still finds a peer connected when it
calls `IsConnected`: for every tool, all arguments and every error of `InvokeTool`, the
handler returns a result flagged `IsError` whose text is the JSON of the object with
exactly the keys `error` (the text of the error), `tool` (the name of the tool), `args`
(the arguments), `mode` (`live`) and `hint` (the fixed text that points to the Godot
editor), and no Go error.  `InvokeTool` itself never changes `conn`, so a handler that
runs with a peer connected and without another goroutine in between returns this result
for every error of its call; for a call that is written and runs into the deadline the
error is `tool T timed out after D`.  In a state without a peer the handler returns, for
the same error, a result that is not flagged as an error. -/
theorem toolHandler_error_result (lib : GoLib) (venv : Visualizer.Env) (td : ToolDef)
    (args : Args) (r : InvokeReturn) (err : String) (h : Host)
    (he : r.2 = some err) (hc : h.w.b.conn ≠ none) :
    toolHandler_route lib venv td args r h =
      ({ h with w := (h.w.emit Event.lock).emit Event.unlock },
       (some { Text := lib.Marshal (errorValue td.Name args err "live"), IsError := true },
        none)) ∧
    (∃ m, errorValue td.Name args err "live" = JSONValue.object m ∧
      m.get "tool" = some (JSONValue.string td.Name) ∧
      m.get "args" = some args.toJSON ∧
      m.get "error" = some (JSONValue.string err) ∧
      m.get "mode" = some (JSONValue.string "live") ∧
      m.get "hint" = some (JSONValue.string
        "The tool call was sent to Godot but failed. Check Godot editor for details.") ∧
      m.keys = ["error", "tool", "args", "mode", "hint"]) ∧
    (∀ (arguments : RawMessage) (env : InvokeEnv) (e : String),
      (InvokeTool td.Name (parseArguments lib arguments) env h.w).2.2 = some e →
      (toolHandler lib venv td arguments env h).2 =
        (some { Text := lib.Marshal
                  (errorValue td.Name (parseArguments lib arguments) e "live"),
                IsError := true }, none)) ∧
    (∀ (arguments : RawMessage) (env : InvokeEnv), env.writeErr = none →
      env.select = SelectCase.deadline →
      (toolHandler lib venv td arguments env h).2 =
        (some { Text := lib.Marshal
                  (errorValue td.Name (parseArguments lib arguments)
                    ("tool " ++ td.Name ++ " timed out after " ++
                      Duration.String h.w.b.timeout) "live"),
                IsError := true }, none)) ∧
    (∀ h1 : Host, h1.w.b.conn = none →
      toolHandler_route lib venv td args r h1 =
        toolHandler_finish lib venv td (td.MockFn args)
          { h1 with w := (h1.w.emit Event.lock).emit Event.unlock } ∧
      ∃ res : CallToolResult,
        (toolHandler_route lib venv td args r h1).2 = (some res, none) ∧
        res.IsError = false) := by
  have hseq : ∀ (arguments : RawMessage) (env : InvokeEnv) (e : String),
      (InvokeTool td.Name (parseArguments lib arguments) env h.w).2.2 = some e →
      (toolHandler lib venv td arguments env h).2 =
        (some { Text := lib.Marshal
                  (errorValue td.Name (parseArguments lib arguments) e "live"),
                IsError := true }, none) := by
    intro arguments env e hie
    simp only [toolHandler]
    rw [toolHandler_route_error lib venv td _ _ e _ hie
      (by simp only; rw [InvokeTool_conn]; exact hc)]
    rfl
  refine ⟨?_, ?_, hseq, ?_, ?_⟩
  · rw [toolHandler_route_error lib venv td args r err h he hc]
    rfl
  · refine ⟨_, rfl, ?_, ?_, ?_, ?_, ?_, ?_⟩ <;> simp [JSONFields.ofList, JSONFields.get, JSONFields.keys]
  · intro arguments env hw hs
    apply hseq
    obtain ⟨c, hcc⟩ : ∃ c, h.w.b.conn = some c := by
      cases hcc : h.w.b.conn with
      | none => exact absurd hcc hc
      | some c => exact ⟨c, rfl⟩
    simp [InvokeTool, InvokeTool_begin, InvokeTool_register, InvokeTool_write,
      InvokeTool_deadline, World.emit, World.alloc, World.setB, World.deletePending, hw, hs, hcc]
  · intro h1 hc1
    have e := toolHandler_route_mock lib venv td args r err h1 he hc1
    refine ⟨e, ?_⟩
    rw [e]
    by_cases hn : td.Name = "map_project"
    · exact ⟨_, by simp [toolHandler_finish, hn, textResult]; rfl, rfl⟩
    · exact ⟨_, by rw [toolHandler_finish_other lib venv td _ _ hn]; rfl, rfl⟩

set_option maxRecDepth 100000 in
theorem toolHandler_error_result_witness :
    (stateAfter connectActions).w.b.conn ≠ none ∧
    (toolHandler plainJSON sampleEnv { Name := "list_dir", MockFn := mock_list_dir }
      (some "\x7b\"a\":1\x7d")
      { now := 9, writeErr := none, select := SelectCase.deadline }
      { w := (stateAfter connectActions).w, viz := sampleViz }).2
      = (some { Text := "\x7b\"args\":\x7b\"a\":1\x7d,\"error\":\"tool list_dir timed out after 30s\",\"hint\":\"The tool call was sent to Godot but failed. Check Godot editor for details.\",\"mode\":\"live\",\"tool\":\"list_dir\"\x7d",
                IsError := true }, none) := by
  refine ⟨by decide, ?_⟩
  rw [(toolHandler_error_result plainJSON sampleEnv
    { Name := "list_dir", MockFn := mock_list_dir } none (none, some "x") "x"
    { w := (stateAfter connectActions).w, viz := sampleViz } rfl (by decide)).2.2.2.1
    (some "\x7b\"a\":1\x7d")
    { now := 9, writeErr := none, select := SelectCase.deadline } rfl rfl]
  decide

set_option maxRecDepth 100000 in
/-- C15 (the text denotes the same value as the payload, not so for a number that is no
`float64`): the peer answers a call of the registered tool `list_dir` with `success`
true and the payload with the member `n` equal to 9007199254740993, which is JSON;
`json.Unmarshal` stores the number as the nearest `float64`, and the handler returns the
text in which `n` is 9007199254740992, the JSON of another value. -/
theorem toolHandler_rounds_number :
    ({ Name := "list_dir", MockFn := mock_list_dir } : ToolDef) ∈ AllTools ∧
    Reachable (stateAfter (answeredActions "list_dir" (some JSONFields.nil)
      "\x7b\"n\":9007199254740993\x7d")) ∧
    returnOf (stateAfter (answeredActions "list_dir" (some JSONFields.nil)
      "\x7b\"n\":9007199254740993\x7d")) 0
      = some (some "\x7b\"n\":9007199254740993\x7d", none) ∧
    jsonValue "\x7b\"n\":9007199254740993\x7d"
      = some (JSONValue.object (JSONFields.ofList [("n", JSONValue.number 9007199254740993)])) ∧
    (toolHandler_route plainJSON sampleEnv { Name := "list_dir", MockFn := mock_list_dir }
      (some JSONFields.nil) (some "\x7b\"n\":9007199254740993\x7d", none)
      { w := (stateAfter (answeredActions "list_dir" (some JSONFields.nil)
          "\x7b\"n\":9007199254740993\x7d")).w,
        viz := sampleViz }).2
      = (some { Text := "\x7b\"n\":9007199254740992\x7d", IsError := false }, none) ∧
    jsonValue "\x7b\"n\":9007199254740992\x7d"
      = some (JSONValue.object (JSONFields.ofList [("n", JSONValue.number 9007199254740992)])) ∧
    jsonValue "\x7b\"n\":9007199254740992\x7d" ≠ jsonValue "\x7b\"n\":9007199254740993\x7d" := by
  refine ⟨by simp [AllTools, fileTools], stateAfter_reachable _, by decide, by decide,
    by decide, by decide, by decide⟩

/-- C15, with the text being `json.Marshal` of what `json.Unmarshal` makes of the
payload: for a tool other than `map_project` and a call that returned the payload `P`
without error, the handler returns a result that is not flagged as an error, with no Go
error, and leaves bridge and relay untouched; when `json.Unmarshal` decodes `P` to the
value `v` the text is `json.Marshal(v)`, and when `json.Unmarshal` returns an error the
text is `json.Marshal` of the string that holds the bytes of `P`. -/
theorem toolHandler_live_result (lib : GoLib) (venv : Visualizer.Env) (td : ToolDef)
    (args : Args) (P : String) (h : Host) (hn : td.Name ≠ "map_project") :
    (∀ v : JSONValue, lib.Unmarshal P = some v →
      toolHandler_route lib venv td args (some P, none) h =
        (h, (some { Text := lib.Marshal v, IsError := false }, none))) ∧
    (lib.Unmarshal P = none →
      toolHandler_route lib venv td args (some P, none) h =
        (h, (some { Text := lib.Marshal (JSONValue.string P), IsError := false }, none))) ∧
    (∃ res : CallToolResult,
      toolHandler_route lib venv td args (some P, none) h = (h, (some res, none)) ∧
      res.IsError = false) := by
  have h1 : ∀ v : JSONValue, lib.Unmarshal P = some v →
      toolHandler_route lib venv td args (some P, none) h =
        (h, (some { Text := lib.Marshal v, IsError := false }, none)) := by
    intro v hv
    simp only [toolHandler_route, RawMessage.bytes, Option.getD_some, hv]
    rw [toolHandler_finish_other lib venv td _ _ hn]
    rfl
  have h2 : lib.Unmarshal P = none →
      toolHandler_route lib venv td args (some P, none) h =
        (h, (some { Text := lib.Marshal (JSONValue.string P), IsError := false }, none)) := by
    intro hv
    simp only [toolHandler_route, RawMessage.bytes, Option.getD_some, hv]
    rw [toolHandler_finish_other lib venv td _ _ hn]
    rfl
  refine ⟨h1, h2, ?_⟩
  cases hv : lib.Unmarshal P with
  | none => exact ⟨_, h2 hv, rfl⟩
  | some v => exact ⟨_, h1 v hv, rfl⟩

set_option maxRecDepth 100000 in
theorem toolHandler_live_result_witness :
    "list_dir" ≠ "map_project" ∧
    plainJSON.Unmarshal "\x7b\"b\":2\x7d"
      = some (JSONValue.object (JSONFields.ofList [("b", JSONValue.number 2)])) ∧
    parseArguments plainJSON (some "\x7b\"a\":1\x7d")
      = some (JSONFields.ofList [("a", JSONValue.number 1)]) ∧
    returnOf (stateAfter (answeredActions "list_dir"
        (some (JSONFields.ofList [("a", JSONValue.number 1)])) "\x7b\"b\":2\x7d")) 0
      = some (some "\x7b\"b\":2\x7d", none) ∧
    (toolHandler_route plainJSON sampleEnv { Name := "list_dir", MockFn := mock_list_dir }
      (some (JSONFields.ofList [("a", JSONValue.number 1)])) (some "\x7b\"b\":2\x7d", none)
      { w := (stateAfter (answeredActions "list_dir"
          (some (JSONFields.ofList [("a", JSONValue.number 1)])) "\x7b\"b\":2\x7d")).w,
        viz := sampleViz }).2
      = (some { Text := "\x7b\"b\":2\x7d", IsError := false }, none) ∧
    plainJSON.Unmarshal "b:2" = none ∧
    (toolHandler_route plainJSON sampleEnv { Name := "list_dir", MockFn := mock_list_dir }
      (some (JSONFields.ofList [("a", JSONValue.number 1)])) (some "b:2", none)
      { w := World.init DefaultPort DefaultTimeout, viz := sampleViz }).2
      = (some { Text := "\"b:2\"", IsError := false }, none) := by
  refine ⟨by decide, by decide, by decide, by decide, ?_, by decide, ?_⟩
  · rw [(toolHandler_live_result plainJSON sampleEnv
      { Name := "list_dir", MockFn := mock_list_dir }
      (some (JSONFields.ofList [("a", JSONValue.number 1)])) "\x7b\"b\":2\x7d" _
      (by decide)).1
      (JSONValue.object (JSONFields.ofList [("b", JSONValue.number 2)])) (by decide)]
    decide
  · rw [(toolHandler_live_result plainJSON sampleEnv
      { Name := "list_dir", MockFn := mock_list_dir }
      (some (JSONFields.ofList [("a", JSONValue.number 1)])) "b:2" _
      (by decide)).2.1 (by decide)]
    decide

/-- C16: the post-processing of `toolHandler`.  For a tool whose name is not
`map_project` the result is marshalled as it is.  For `map_project` it goes through
`handleMapProject`: for an object with the key `project_map`, when `Serve` on that
member returns the URL `u` without error the result is the object with
`visualization_url` set to `u` and every other key as before, and when `Serve` returns
an error the result is returned as it is; for a value that is no object, or an object
without `project_map`, the result is returned as it is and the relay is unchanged,
whereas a call of `Serve` always extends the effects of the relay.  In every case the
handler returns a result that is not flagged as an error, with no Go error, and the
bridge's world is untouched. -/
theorem handleMapProject_merges_url (lib : GoLib) (venv : Visualizer.Env) (td : ToolDef)
    (result : JSONValue) (h : Host) :
    (td.Name ≠ "map_project" →
      toolHandler_finish lib venv td result h = (h, textResult lib result)) ∧
    (td.Name = "map_project" →
      toolHandler_finish lib venv td result h =
        ({ h with viz := (handleMapProject lib venv result h.viz).1 },
         textResult lib (handleMapProject lib venv result h.viz).2)) ∧
    (∀ (m : JSONFields) (pm : JSONValue), result = JSONValue.object m →
      m.get "project_map" = some pm →
      (∀ (v1 : Visualizer.State) (u : String),
        Visualizer.Serve lib venv pm h.viz = (v1, (u, none)) →
        handleMapProject lib venv result h.viz =
          (v1, JSONValue.object (m.set "visualization_url" (JSONValue.string u))) ∧
        (m.set "visualization_url" (JSONValue.string u)).get "visualization_url"
          = some (JSONValue.string u) ∧
        (∀ k, k ≠ "visualization_url" →
          (m.set "visualization_url" (JSONValue.string u)).get k = m.get k)) ∧
      (∀ (v1 : Visualizer.State) (u e : String),
        Visualizer.Serve lib venv pm h.viz = (v1, (u, some e)) →
        handleMapProject lib venv result h.viz = (v1, result)) ∧
      (handleMapProject lib venv result h.viz).1 = (Visualizer.Serve lib venv pm h.viz).1 ∧
      (Visualizer.Serve lib venv pm h.viz).1.trace ≠ h.viz.trace) ∧
    ((∀ m, result = JSONValue.object m → m.get "project_map" = none) →
      handleMapProject lib venv result h.viz = (h.viz, result)) ∧
    (∃ res : CallToolResult, (toolHandler_finish lib venv td result h).2 = (some res, none) ∧
      res.IsError = false) ∧
    (toolHandler_finish lib venv td result h).1.w = h.w := by
  refine ⟨?_, ?_, ?_, ?_, ?_, ?_⟩
  · intro hn
    exact toolHandler_finish_other lib venv td result h hn
  · intro hn
    simp [toolHandler_finish, hn]
  · intro m pm hr hpm
    subst hr
    refine ⟨?_, ?_, ?_, ?_⟩
    · intro v1 u hs
      refine ⟨by simp [handleMapProject, hpm, hs], JSONFields.get_set_self _ _ _, ?_⟩
      intro k hk
      exact JSONFields.get_set_of_ne _ _ _ _ hk
    · intro v1 u e hs
      simp [handleMapProject, hpm, hs]
    · simp only [handleMapProject, hpm]
      rcases hs : Visualizer.Serve lib venv pm h.viz with ⟨v1, u, e⟩
      cases e <;> rfl
    · obtain ⟨l, hl⟩ := Visualizer.Serve_trace lib venv pm h.viz
      rw [hl]
      intro hcontra
      have := congrArg List.length hcontra
      simp at this
  · intro hno
    cases result with
    | object m => simp [handleMapProject, hno m rfl]
    | _ => rfl
  · by_cases hn : td.Name = "map_project"
    · exact ⟨_, by simp [toolHandler_finish, hn, textResult]; rfl, rfl⟩
    · exact ⟨_, by rw [toolHandler_finish_other lib venv td result h hn]; rfl, rfl⟩
  · by_cases hn : td.Name = "map_project"
    · simp [toolHandler_finish, hn]
    · rw [toolHandler_finish_other lib venv td result h hn]

/-- C17 (every placeholder carries `_mock: true`, not so for `map_project`): for all
arguments the `MockFn` of the registered tool `map_project` returns an object with the
two keys `project_map` and `message` and without the key `_mock`, whereas the `MockFn`
of each of the other 31 tools of `AllTools` returns, for all arguments, an object whose
key `_mock` holds `true`. -/
theorem mock_map_project_unannotated :
    ({ Name := "map_project", MockFn := mock_map_project } : ToolDef) ∈ AllTools ∧
    (∀ args : Args, ∃ m, mock_map_project args = JSONValue.object m ∧
      m.get "_mock" = none ∧ m.keys = ["project_map", "message"]) ∧
    (∀ td ∈ AllTools, td.Name ≠ "map_project" → ∀ args : Args,
      ∃ m, td.MockFn args = JSONValue.object m ∧
        m.get "_mock" = some (JSONValue.bool true)) ∧
    (AllTools.filter (fun td => td.Name ≠ "map_project")).length = 31 := by
  refine ⟨by simp [AllTools, visualizerTools], ?_, ?_, by decide⟩
  · intro args
    exact ⟨_, rfl, by decide, by decide⟩
  · intro td htd hn args
    simp only [AllTools, fileTools, sceneTools, scriptTools, projectTools, assetTools,
      visualizerTools, List.cons_append, List.nil_append, List.mem_cons, List.mem_singleton,
      List.not_mem_nil, or_false] at htd
    rcases htd with h | h | h | h | h | h | h | h | h | h | h | h | h | h | h | h | h | h | h |
      h | h | h | h | h | h | h | h | h | h | h | h | h
    all_goals subst h
    all_goals first
      | exact absurd rfl hn
      | exact ⟨_, rfl, JSONFields.mockNote_get _⟩
      | exact ⟨_, rfl, by simp [JSONFields.ofList, JSONFields.get]⟩

/-- C18: for every state of the bridge the status handler returns, not flagged as an
error and with no Go error, the JSON of a response in which `connected` tells whether
`conn` is not nil, `mode` is `live` when connected and `mock` otherwise,
`pending_requests` is the number of entries of the pending map, `websocket_port` is the
port of the bridge and `project_path` is the project path of `info` when `info` exists
and the empty string otherwise; computing it takes and releases the lock and leaves
every field of the bridge, the id counter and the heap as they were. -/
theorem statusHandler_reports (lib : GoLib) (w : World) :
    (statusHandler lib w).2 =
      (some { Text := lib.Marshal (statusHandler_response lib (GetStatus w).2).toJSON,
              IsError := false }, none) ∧
    (statusHandler_response lib (GetStatus w).2).Connected = w.b.conn.isSome ∧
    (statusHandler_response lib (GetStatus w).2).Mode
      = (if w.b.conn.isSome then "live" else "mock") ∧
    (statusHandler_response lib (GetStatus w).2).PendingRequests = w.b.pending.length ∧
    (statusHandler_response lib (GetStatus w).2).WebSocketPort = w.b.port ∧
    (statusHandler_response lib (GetStatus w).2).ProjectPath
      = (match w.b.info with
         | some i => i.ProjectPath
         | none => "") ∧
    (∃ m, (statusHandler_response lib (GetStatus w).2).toJSON = JSONValue.object m ∧
      m.get "connected" = some (JSONValue.bool w.b.conn.isSome) ∧
      m.get "mode" = some (JSONValue.string (if w.b.conn.isSome then "live" else "mock")) ∧
      m.get "pending_requests" = some (JSONValue.number w.b.pending.length) ∧
      m.get "websocket_port" = some (JSONValue.number w.b.port) ∧
      m.get "project_path" = some (JSONValue.string (match w.b.info with
         | some i => i.ProjectPath
         | none => ""))) ∧
    (statusHandler lib w).1.b = w.b ∧ (statusHandler lib w).1.nextID = w.nextID ∧
    (statusHandler lib w).1.heap = w.heap ∧
    (statusHandler lib w).1.trace = w.trace ++ [Event.lock, Event.unlock] ∧
    (GetStatus w).1 = (statusHandler lib w).1 := by
  have hpath : (GetStatus w).2.ProjectPath = (match w.b.info with
         | some i => i.ProjectPath
         | none => "") := by
    cases hi : w.b.info <;> simp [GetStatus, hi]
  have hconn : (GetStatus w).2.Connected = w.b.conn.isSome := by
    cases hi : w.b.info <;> simp [GetStatus, hi]
  have hpend : (GetStatus w).2.PendingRequests = w.b.pending.length := by
    cases hi : w.b.info <;> simp [GetStatus, hi]
  have hport : (GetStatus w).2.Port = w.b.port := by
    cases hi : w.b.info <;> simp [GetStatus, hi]
  have hmode : (statusHandler_response lib (GetStatus w).2).Mode
      = (if w.b.conn.isSome then "live" else "mock") := by
    simp [statusHandler_response, hconn]
  refine ⟨rfl, ?_, hmode, ?_, ?_, ?_, ?_, rfl, rfl, rfl, ?_, rfl⟩
  · simp [statusHandler_response, hconn]
  · simp [statusHandler_response, hpend]
  · simp [statusHandler_response, hport]
  · simp [statusHandler_response, hpath]
  · obtain ⟨m, h0, h1, h2, h3, h4, h5⟩ :=
      statusResponse.toJSON_fields (statusHandler_response lib (GetStatus w).2)
    refine ⟨m, h0, ?_, ?_, ?_, ?_, ?_⟩
    · rw [h1]
      simp [statusHandler_response, hconn]
    · rw [h2, hmode]
    · rw [h3]
      simp [statusHandler_response, hpend]
    · rw [h4]
      simp [statusHandler_response, hport]
    · rw [h5]
      simp [statusHandler_response, hpath]
  · simp [statusHandler, GetStatus, World.emit]

/-- C19: for a relay that holds a bridge, every decoded frame `id`, `command`, `args`
and a bridge without a peer, the value written to the browser is the object with exactly
the keys `ok` (false), `error` (`Godot is not connected`) and `id` (the id of the frame);
`handleInternalCommand` returns right after `IsConnected`: no call id is taken, nothing
is registered or written, and the fields of the bridge are as before. -/
theorem handleWS_not_connected (lib : GoLib) (s : Visualizer.Server)
    (msg : Visualizer.Envelope) (env : InvokeEnv) (w : World)
    (hb : s.bridge = true) (hc : w.b.conn = none) :
    (handleWS_reply lib s (some msg) env w).2 = Except.ok
      (JSONValue.object (JSONFields.ofList
        [("ok", JSONValue.bool false), ("error", JSONValue.string "Godot is not connected"),
         ("id", JSONValue.string msg.ID)])) ∧
    (handleWS_frame lib s (some msg) env w).2 = Except.ok
      (lib.Marshal (JSONValue.object (JSONFields.ofList
        [("ok", JSONValue.bool false), ("error", JSONValue.string "Godot is not connected"),
         ("id", JSONValue.string msg.ID)]))) ∧
    (handleInternalCommand lib s msg.Command msg.Args env w).2 = Except.ok
      (JSONFields.ofList
        [("ok", JSONValue.bool false), ("error", JSONValue.string "Godot is not connected")]) ∧
    (handleWS_frame lib s (some msg) env w).1.b = w.b ∧
    (handleWS_frame lib s (some msg) env w).1.nextID = w.nextID ∧
    (handleWS_frame lib s (some msg) env w).1.heap = w.heap ∧
    (handleWS_frame lib s (some msg) env w).1.trace = w.trace ++ [Event.lock, Event.unlock] := by
  have h1 : handleInternalCommand lib s msg.Command msg.Args env w =
      ((w.emit .lock).emit .unlock, Except.ok (JSONFields.ofList
        [("ok", JSONValue.bool false), ("error", JSONValue.string "Godot is not connected")])) := by
    simp [handleInternalCommand, hb, IsConnected, hc]
  have h2 : handleWS_reply lib s (some msg) env w =
      ((w.emit .lock).emit .unlock, Except.ok
      (JSONValue.object (JSONFields.ofList
        [("ok", JSONValue.bool false), ("error", JSONValue.string "Godot is not connected"),
         ("id", JSONValue.string msg.ID)]))) := by
    simp [handleWS_reply, h1, JSONFields.ofList, JSONFields.set]
  have h3 : handleWS_frame lib s (some msg) env w =
      ((w.emit .lock).emit .unlock, Except.ok
      (lib.Marshal (JSONValue.object (JSONFields.ofList
        [("ok", JSONValue.bool false), ("error", JSONValue.string "Godot is not connected"),
         ("id", JSONValue.string msg.ID)])))) := by
    simp [handleWS_frame, h2, mustJSON]
  rw [h1, h2, h3]
  refine ⟨rfl, rfl, rfl, rfl, rfl, rfl, ?_⟩
  simp [World.emit]

set_option maxRecDepth 100000 in
theorem handleWS_not_connected_witness :
    (Visualizer.New true).bridge = true ∧
    (World.init DefaultPort DefaultTimeout).b.conn = none ∧
    (handleWS_frame plainJSON (Visualizer.New true)
      (some { ID := "5", Command := "foo", Args := some JSONFields.nil })
      { now := 0, writeErr := none, select := SelectCase.result }
      (World.init DefaultPort DefaultTimeout)).2
      = Except.ok "\x7b\"error\":\"Godot is not connected\",\"id\":\"5\",\"ok\":false\x7d" := by
  refine ⟨rfl, rfl, ?_⟩
  rw [(handleWS_not_connected plainJSON (Visualizer.New true)
    { ID := "5", Command := "foo", Args := some JSONFields.nil }
    { now := 0, writeErr := none, select := SelectCase.result }
    (World.init DefaultPort DefaultTimeout) rfl rfl).2.1]
  exact congrArg Except.ok (by decide)

/-- C20 (`ok` true whenever the invocation succeeds, not so for a payload that is no
object): with a peer connected, the call of `visualizer._internal_foo` is answered with
`success` true and the payload `[1]` and returns it without error; the reply that
`handleInternalCommand` makes of it has `ok` false and the error
`invalid response from Godot`. -/
theorem handleInternalCommand_rejects_array :
    Reachable (stateAfter (answeredActions "visualizer._internal_foo" (some JSONFields.nil) "[1]")) ∧
    (stateAfter (answeredActions "visualizer._internal_foo" (some JSONFields.nil) "[1]")).w.b.conn
      = some 1 ∧
    returnOf (stateAfter (answeredActions "visualizer._internal_foo" (some JSONFields.nil) "[1]")) 0
      = some (some "[1]", none) ∧
    (handleInternalCommand_reply plainJSON (some "[1]", none)).toOption
      = some (JSONFields.ofList
          [("ok", JSONValue.bool false),
           ("error", JSONValue.string "invalid response from Godot")]) := by
  refine ⟨stateAfter_reachable _, by decide, by decide, by decide⟩

/-- C20, with `ok` true for the payloads that are JSON objects: with a peer connected,
`handleInternalCommand` calls `InvokeTool` with the tool name `visualizer._internal_`
followed by the command and with the args of the frame (the message written to the peer
carries both), and `handleWS` sets the key `id` of the reply to the id of the frame.  For
every return of the invocation: an error gives the reply `ok` false with the text of the
error; a payload that decodes to an object gives that object with `ok` set to true, so
that in the tagged reply `id` and `ok` are the relay's and every other key is the
peer's; a payload that is neither an object nor `null` gives `ok` false with the error
`invalid response from Godot`. -/
theorem handleInternalCommand_relays (lib : GoLib) (s : Visualizer.Server)
    (msg : Visualizer.Envelope) (env : InvokeEnv) (w : World) (c : Nat)
    (hb : s.bridge = true) (hc : w.b.conn = some c) :
    handleInternalCommand lib s msg.Command msg.Args env w =
      ((InvokeTool ("visualizer._internal_" ++ msg.Command) msg.Args env
          ((w.emit Event.lock).emit Event.unlock)).1,
       handleInternalCommand_reply lib
         (InvokeTool ("visualizer._internal_" ++ msg.Command) msg.Args env
          ((w.emit Event.lock).emit Event.unlock)).2) ∧
    (env.writeErr = none →
      Event.write c { type := "tool_invoke", ID := FormatInt (wrapInt64 (w.nextID + 1)),
                      Tool := "visualizer._internal_" ++ msg.Command, Args := msg.Args }
        ∈ (handleInternalCommand lib s msg.Command msg.Args env w).1.trace) ∧
    (handleWS_reply lib s (some msg) env w).2 =
      (match (handleInternalCommand lib s msg.Command msg.Args env w).2 with
       | Except.ok result => Except.ok (JSONValue.object (result.set "id" (JSONValue.string msg.ID)))
       | Except.error p => Except.error p) ∧
    (∀ r : InvokeReturn,
      (∀ e, r.2 = some e →
        handleInternalCommand_reply lib r = Except.ok (JSONFields.ofList
          [("ok", JSONValue.bool false), ("error", JSONValue.string e)]) ∧
        (JSONFields.set (JSONFields.ofList
          [("ok", JSONValue.bool false), ("error", JSONValue.string e)]) "id"
            (JSONValue.string msg.ID)) = JSONFields.ofList
          [("ok", JSONValue.bool false), ("error", JSONValue.string e),
           ("id", JSONValue.string msg.ID)]) ∧
      (∀ m, r.2 = none → lib.Unmarshal r.1.bytes = some (JSONValue.object m) →
        handleInternalCommand_reply lib r = Except.ok (m.set "ok" (JSONValue.bool true)) ∧
        ((m.set "ok" (JSONValue.bool true)).set "id" (JSONValue.string msg.ID)).get "id"
          = some (JSONValue.string msg.ID) ∧
        ((m.set "ok" (JSONValue.bool true)).set "id" (JSONValue.string msg.ID)).get "ok"
          = some (JSONValue.bool true) ∧
        (∀ k, k ≠ "id" → k ≠ "ok" →
          ((m.set "ok" (JSONValue.bool true)).set "id" (JSONValue.string msg.ID)).get k
            = m.get k)) ∧
      (r.2 = none → (∀ m, lib.Unmarshal r.1.bytes ≠ some (JSONValue.object m)) →
        lib.Unmarshal r.1.bytes ≠ some JSONValue.null →
        handleInternalCommand_reply lib r = Except.ok (JSONFields.ofList
          [("ok", JSONValue.bool false),
           ("error", JSONValue.string "invalid response from Godot")]))) := by
  have h1 : handleInternalCommand lib s msg.Command msg.Args env w =
      ((InvokeTool ("visualizer._internal_" ++ msg.Command) msg.Args env
          ((w.emit Event.lock).emit Event.unlock)).1,
       handleInternalCommand_reply lib
         (InvokeTool ("visualizer._internal_" ++ msg.Command) msg.Args env
          ((w.emit Event.lock).emit Event.unlock)).2) := by
    simp [handleInternalCommand, hb, IsConnected, hc]
  refine ⟨h1, ?_, ?_, ?_⟩
  · intro hw
    rw [h1]
    exact InvokeTool_write_event _ _ env ((w.emit Event.lock).emit Event.unlock) c hc hw
  · simp only [handleWS_reply]
    cases h : (handleInternalCommand lib s msg.Command msg.Args env w).2 with
    | ok result => 
      rcases hh : handleInternalCommand lib s msg.Command msg.Args env w with ⟨w1, x⟩
      rw [hh] at h
      simp only at h
      subst h
      rfl
    | error p =>
      rcases hh : handleInternalCommand lib s msg.Command msg.Args env w with ⟨w1, x⟩
      rw [hh] at h
      simp only at h
      subst h
      rfl
  · intro r
    refine ⟨?_, ?_, ?_⟩
    · intro e he
      refine ⟨by simp [handleInternalCommand_reply, he], ?_⟩
      simp [JSONFields.ofList, JSONFields.set]
    · intro m he hu
      refine ⟨by simp [handleInternalCommand_reply, he, unmarshalMap, hu], ?_, ?_, ?_⟩
      · exact JSONFields.get_set_self _ _ _
      · rw [JSONFields.get_set_of_ne _ _ _ _ (by decide)]
        exact JSONFields.get_set_self _ _ _
      · intro k hk1 hk2
        rw [JSONFields.get_set_of_ne _ _ _ _ hk1, JSONFields.get_set_of_ne _ _ _ _ hk2]
    · intro he hno hnull
      cases hu : lib.Unmarshal r.1.bytes with
      | none => simp [handleInternalCommand_reply, he, unmarshalMap, hu]
      | some v =>
        cases v with
        | object m => exact absurd hu (hno m)
        | null => exact absurd hu hnull
        | _ => simp [handleInternalCommand_reply, he, unmarshalMap, hu]

set_option maxRecDepth 100000 in
theorem handleInternalCommand_relays_witness :
    (Visualizer.New true).bridge = true ∧
    (stateAfter connectActions).w.b.conn = some 1 ∧
    plainJSON.Unmarshal "\x7b\"b\":2,\"ok\":false\x7d"
      = some (JSONValue.object (JSONFields.ofList
          [("b", JSONValue.number 2), ("ok", JSONValue.bool false)])) ∧
    (handleInternalCommand_reply plainJSON (some "\x7b\"b\":2,\"ok\":false\x7d", none)).toOption
      = some (JSONFields.ofList [("b", JSONValue.number 2), ("ok", JSONValue.bool true)]) := by
  have h := (handleInternalCommand_relays plainJSON (Visualizer.New true)
    { ID := "5", Command := "foo", Args := some JSONFields.nil }
    { now := 9, writeErr := none, select := SelectCase.deadline }
    (stateAfter connectActions).w 1 rfl (by decide)).2.2.2
    (some "\x7b\"b\":2,\"ok\":false\x7d", none)
  have h2 := (h.2.1 (JSONFields.ofList [("b", JSONValue.number 2), ("ok", JSONValue.bool false)])
    rfl (by decide)).1
  refine ⟨rfl, by decide, by decide, ?_⟩
  rw [h2]
  decide

/-- C21: whichever of the registered callbacks panic, `notifyConnectionChange` returns
without a panic, having called every registered callback once, in the order of
registration, with the given flag and info, after one lock and unlock; the panics change
nothing of what it does, and the bridge is as before.  `OnConnectionChange` adds the
callback at the end of the list: the earlier registrations keep their positions and no
other field changes. -/
theorem notifyConnectionChange_delivers (panics : Nat → Option Panic) (connected : Bool)
    (info : List (Option GodotInfo)) (w : World) (cb : Nat) :
    (notifyConnectionChange_run panics connected info w).2 = Except.ok () ∧
    (notifyConnectionChange_run panics connected info w).1
      = notifyConnectionChange connected info w ∧
    (notifyConnectionChange_run panics connected info w).1.trace
      = w.trace ++ [Event.lock, Event.unlock] ++
        w.b.callbacks.map (fun c => Event.callback c connected info.head?.join) ∧
    (notifyConnectionChange_run panics connected info w).1.b = w.b ∧
    (OnConnectionChange cb w).b = { w.b with callbacks := w.b.callbacks ++ [cb] } ∧
    (∀ (i : Nat) (c : Nat), w.b.callbacks[i]? = some c →
      (OnConnectionChange cb w).b.callbacks[i]? = some c) ∧
    (OnConnectionChange cb w).b.callbacks[w.b.callbacks.length]? = some cb := by
  have h1 : notifyConnectionChange_run panics connected info w
      = (notifyConnectionChange connected info w, Except.ok ()) := by
    simp only [notifyConnectionChange_run, notifyConnectionChange_loop_eq]
    rfl
  rw [h1]
  refine ⟨rfl, rfl, ?_, ?_, rfl, ?_, ?_⟩
  · simp [notifyConnectionChange_eq]
  · simp [notifyConnectionChange_eq]
  · intro i c hi
    simp only [OnConnectionChange, World.emit, World.setB]
    rw [List.getElem?_append_left (List.getElem?_eq_some_iff.1 hi).1]
    exact hi
  · simp [OnConnectionChange, World.emit, World.setB]

/-- C22: the registry agrees with the catalog.  For every entry of `AllTools`, `Exists`
of its name is true, `Get` of its name is that entry and `GetMockResponse` of its name
is its `MockFn` on the arguments; `AllTools` has 32 entries with pairwise different
names, none of them `get_godot_status`; for a name that no entry of `AllTools` carries,
`Exists` is false, `Get` is nil and `GetMockResponse` is the object with the one key
`error` holding `Unknown tool: ` followed by the name. -/
theorem registry_matches_catalog :
    (∀ (i : Nat) (td : ToolDef), AllTools[i]? = some td →
      Exists td.Name = true ∧ Get td.Name = some td ∧
      ∀ args : Args, GetMockResponse td.Name args = td.MockFn args) ∧
    AllTools.length = 32 ∧
    (AllTools.map ToolDef.Name).Nodup ∧
    (∀ (i j : Nat) (ti tj : ToolDef), AllTools[i]? = some ti → AllTools[j]? = some tj →
      ti.Name = tj.Name → i = j) ∧
    "get_godot_status" ∉ AllTools.map ToolDef.Name ∧
    (∀ name : String, name ∉ AllTools.map ToolDef.Name →
      Exists name = false ∧ Get name = none ∧
      ∀ args : Args, GetMockResponse name args
        = JSONValue.object (JSONFields.ofList
            [("error", JSONValue.string ("Unknown tool: " ++ name))])) := by
  refine ⟨?_, by decide, AllTools_names_nodup, ?_, by decide, ?_⟩
  · intro i td hi
    have hmem : td ∈ AllTools := by
      obtain ⟨hlt, heq⟩ := List.getElem?_eq_some_iff.1 hi
      exact heq ▸ List.getElem_mem hlt
    have h := toolIndex_of_mem td hmem
    exact ⟨by simp [Exists, h], h, fun args => by simp [GetMockResponse, h]⟩
  · intro i j ti tj hi hj hn
    have h1 : (AllTools.map ToolDef.Name)[i]? = some ti.Name := by simp [hi]
    have h2 : (AllTools.map ToolDef.Name)[j]? = some ti.Name := by simp [hj, hn]
    obtain ⟨hi1, hi2⟩ := List.getElem?_eq_some_iff.1 h1
    obtain ⟨hj1, hj2⟩ := List.getElem?_eq_some_iff.1 h2
    exact (List.Nodup.getElem_inj_iff AllTools_names_nodup).1 (hi2.trans hj2.symm)
  · intro name hn
    have h := toolIndex_of_not_mem name hn
    exact ⟨by simp [Exists, h], h, fun args => by simp [GetMockResponse, h, obj]⟩

/-- C23: frames that are no results.  A frame that is not JSON, a `pong` and a message of
unknown type leave the world of the bridge exactly as it was (nothing is sent, nothing
is deleted), and the handler stays in its read loop.  A `godot_ready` sets the project
path of `info` to that of the frame when `info` exists and changes nothing of the bridge
otherwise; `conn`, the connect time, the pending map, the id counter and the heap are as
before, and it takes and releases the lock.  Hence running the rounds of the read loop
on a list of frames gives the same world, effects included, as running them on the list
without the frames that are not JSON, the `pong`s and the messages of unknown type. -/
theorem handleMessage_ignores (w : World) (msg : IncomingMessage) :
    readLoop_round none w = some w ∧
    (msg.type = "pong" → handleMessage msg w = some w ∧ readLoop_round (some msg) w = some w) ∧
    (msg.type ≠ "tool_result" → msg.type ≠ "pong" → msg.type ≠ "godot_ready" →
      handleMessage msg w = some w ∧ readLoop_round (some msg) w = some w) ∧
    (msg.type = "godot_ready" →
      ∃ w1, handleMessage msg w = some w1 ∧ readLoop_round (some msg) w = some w1 ∧
        w1.b = { w.b with
          info := (w.b.info.map (fun i => { i with ProjectPath := msg.ProjectPath })) } ∧
        w1.b.conn = w.b.conn ∧ w1.b.pending = w.b.pending ∧
        w1.b.info.map GodotInfo.ConnectedAt = w.b.info.map GodotInfo.ConnectedAt ∧
        w1.b.info.map GodotInfo.ProjectPath = w.b.info.map (fun _ => msg.ProjectPath) ∧
        (w.b.info = none → w1.b = w.b) ∧
        w1.nextID = w.nextID ∧ w1.heap = w.heap ∧
        w1.trace = w.trace ++ [Event.lock, Event.unlock]) ∧
    (∀ (s : Sys) (h c ctx : Nat), s.handlers[h]? = some (HandlerPC.reading c ctx) →
      step (Action.frame h none) s = some s ∧
      (msg.type ≠ "tool_result" → msg.type ≠ "godot_ready" →
        step (Action.frame h (some msg)) s = some s) ∧
      (msg.type = "godot_ready" →
        step (Action.frame h (some msg)) s = some { s with w := handleGodotReady msg s.w })) ∧
    (∀ (frames : List (Option IncomingMessage)) (w0 : World),
      readLoop_rounds frames w0
        = readLoop_rounds (frames.filter (fun f => !droppedFrame f)) w0) := by
  refine ⟨rfl, ?_, ?_, ?_, ?_, ?_⟩
  · intro h
    have e : handleMessage msg w = some w := by
      simp [handleMessage, h]
    exact ⟨e, e⟩
  · intro h1 h2 h3
    have e : handleMessage msg w = some w := by
      simp [handleMessage, h1, h2, h3]
    exact ⟨e, e⟩
  · intro h
    have e : handleMessage msg w = some (handleGodotReady msg w) := by
      simp [handleMessage, h]
    refine ⟨_, e, e, ?_⟩
    obtain ⟨⟨port, timeout, conn, info, pending, cbs, srv, cr⟩, n, hp, tr⟩ := w
    cases info with
    | none =>
      refine ⟨?_, ?_, ?_, ?_, ?_, ?_, ?_, ?_, ?_⟩ <;>
        simp [handleGodotReady, World.emit, World.setB]
    | some i =>
      refine ⟨?_, ?_, ?_, ?_, ?_, ?_, ?_, ?_, ?_⟩ <;>
        simp [handleGodotReady, World.emit, World.setB]
  · intro s h c ctx hh
    refine ⟨by simp [step, hh], ?_, ?_⟩
    · intro h1 h2
      by_cases hp : msg.type = "pong" <;> simp [step, hh, h1, h2, hp]
    · intro h1
      simp [step, hh, h1]
  · intro frames
    induction frames with
    | nil => intro w0; rfl
    | cons f rest ih =>
      intro w0
      by_cases hd : droppedFrame f = true
      · simp only [List.filter_cons, hd, Bool.not_true, Bool.false_eq_true, if_false]
        simp only [readLoop_rounds, readLoop_round_dropped f w0 hd]
        exact ih w0
      · simp only [Bool.not_eq_true] at hd
        simp only [List.filter_cons, hd, Bool.not_false, if_true, readLoop_rounds]
        cases readLoop_round f w0 with
        | none => rfl
        | some w1 => exact ih w1

set_option maxRecDepth 100000 in
/-- C24 (the placeholder itself whenever no peer is found afterwards, not so for
`map_project`): a call of the registered tool `map_project` is failed by the peer with
the error `boom`, the peer disconnects, and the handler, finding no peer connected,
hands the placeholder to `handleMapProject`: the text returned is the JSON of the
placeholder with the added key `visualization_url`, a text other than the JSON of the
placeholder. -/
theorem toolHandler_map_project_after_disconnect :
    ({ Name := "map_project", MockFn := mock_map_project } : ToolDef) ∈ AllTools ∧
    Reachable (stateAfter (failedActions "map_project")) ∧
    returnOf (stateAfter (failedActions "map_project")) 0 = some (none, some "boom") ∧
    (IsConnected (stateAfter (failedActions "map_project")).w).2 = false ∧
    (∃ m, mock_map_project (some JSONFields.nil) = JSONValue.object m ∧
      m.get "visualization_url" = none ∧
      (toolHandler_route plainJSON sampleEnv { Name := "map_project", MockFn := mock_map_project }
        (some JSONFields.nil) (none, some "boom")
        { w := (stateAfter (failedActions "map_project")).w, viz := sampleViz }).2
        = textResult plainJSON (JSONValue.object
            (m.set "visualization_url" (JSONValue.string "http://localhost:6510")))) ∧
    (toolHandler_route plainJSON sampleEnv { Name := "map_project", MockFn := mock_map_project }
      (some JSONFields.nil) (none, some "boom")
      { w := (stateAfter (failedActions "map_project")).w, viz := sampleViz }).2.1.map
        CallToolResult.Text ≠ some (plainJSON.Marshal (mock_map_project (some JSONFields.nil))) := by
  refine ⟨by simp [AllTools, visualizerTools], stateAfter_reachable _, by decide, by decide,
    ⟨_, rfl, by decide, ?_⟩, ?_⟩
  · rw [toolHandler_route_mock plainJSON sampleEnv _ _ _ "boom" _ rfl (by decide)]
    rfl
  · rw [toolHandler_route_mock plainJSON sampleEnv _ _ _ "boom" _ rfl (by decide)]
    intro h
    have h1 := congrArg (Option.map String.length) h
    revert h1
    simp only [Option.map_map, Option.map_some']
    decide

/-- C24, with the post-processing of `map_project`: for every tool, all arguments and
every error that `InvokeTool` returned, what the handler returns depends on the error
only through the branch that `IsConnected` selects afterwards.  When `IsConnected` is
false the handler returns, not flagged as an error and with no Go error, the text of the
tool's `MockFn` on the arguments (for `map_project`: of what `handleMapProject` makes of
it); when `IsConnected` is true it returns the result flagged `IsError` with the error's
text, the tool, the arguments and the mode `live`.  `IsConnected` tells whether `conn` is
not nil and changes no field of the bridge. -/
theorem toolHandler_choice (lib : GoLib) (venv : Visualizer.Env) (td : ToolDef)
    (args : Args) (r : InvokeReturn) (err : String) (h : Host) (he : r.2 = some err) :
    ((IsConnected h.w).2 = false →
      toolHandler_route lib venv td args r h =
        toolHandler_finish lib venv td (td.MockFn args) { h with w := (IsConnected h.w).1 } ∧
      (∃ res : CallToolResult,
        (toolHandler_route lib venv td args r h).2 = (some res, none) ∧ res.IsError = false) ∧
      (td.Name ≠ "map_project" →
        (toolHandler_route lib venv td args r h).2 =
          (some { Text := lib.Marshal (td.MockFn args), IsError := false }, none)) ∧
      (td.Name = "map_project" →
        (toolHandler_route lib venv td args r h).2 =
          textResult lib (handleMapProject lib venv (td.MockFn args) h.viz).2)) ∧
    ((IsConnected h.w).2 = true →
      toolHandler_route lib venv td args r h =
        ({ h with w := (IsConnected h.w).1 },
         (some { Text := lib.Marshal (errorValue td.Name args err "live"), IsError := true },
          none))) ∧
    (IsConnected h.w).2 = h.w.b.conn.isSome ∧
    (IsConnected h.w).1.b = h.w.b := by
  refine ⟨?_, ?_, rfl, rfl⟩
  · intro hc
    have hc1 : h.w.b.conn = none := by
      simpa [IsConnected] using hc
    have e := toolHandler_route_mock lib venv td args r err h he hc1
    refine ⟨e, ?_, ?_, ?_⟩
    · rw [e]
      by_cases hn : td.Name = "map_project"
      · exact ⟨_, by simp [toolHandler_finish, hn, textResult]; rfl, rfl⟩
      · exact ⟨_, by rw [toolHandler_finish_other lib venv td _ _ hn]; rfl, rfl⟩
    · intro hn
      rw [e, toolHandler_finish_other lib venv td _ _ hn]
      rfl
    · intro hn
      rw [e]
      simp [toolHandler_finish, hn]
  · intro hc
    have hc1 : h.w.b.conn ≠ none := by
      intro hcc
      simp [IsConnected, hcc] at hc
    rw [toolHandler_route_error lib venv td args r err h he hc1]
    rfl

set_option maxRecDepth 100000 in
theorem toolHandler_choice_witness :
    returnOf (stateAfter (failedActions "list_dir")) 0 = some (none, some "boom") ∧
    (stateAfter (failedActions "list_dir")).w.b.conn = none ∧
    (toolHandler_route plainJSON sampleEnv { Name := "list_dir", MockFn := mock_list_dir }
      (some JSONFields.nil) (none, some "boom")
      { w := (stateAfter (failedActions "list_dir")).w, viz := sampleViz }).2
      = (some { Text := plainJSON.Marshal (mock_list_dir (some JSONFields.nil)),
                IsError := false }, none) ∧
    (stateAfter lateConnectActions).calls.map CallThread.pc = [CallPC.notConnected] ∧
    (stateAfter lateConnectActions).w.b.conn = some 2 ∧
    (toolHandler_route plainJSON sampleEnv { Name := "list_dir", MockFn := mock_list_dir }
      (some JSONFields.nil) (none, some "Godot is not connected")
      { w := (stateAfter lateConnectActions).w, viz := sampleViz }).2
      = (some { Text := "\x7b\"args\":\x7b\x7d,\"error\":\"Godot is not connected\",\"hint\":\"The tool call was sent to Godot but failed. Check Godot editor for details.\",\"mode\":\"live\",\"tool\":\"list_dir\"\x7d",
                IsError := true }, none) := by
  refine ⟨by decide, by decide, ?_, by decide, by decide, ?_⟩
  · exact (toolHandler_choice plainJSON sampleEnv
      { Name := "list_dir", MockFn := mock_list_dir } (some JSONFields.nil)
      (none, some "boom") "boom"
      { w := (stateAfter (failedActions "list_dir")).w, viz := sampleViz } rfl).1
      (by decide) |>.2.2.1 (by decide)
  · rw [congrArg Prod.snd ((toolHandler_choice plainJSON sampleEnv
      { Name := "list_dir", MockFn := mock_list_dir } (some JSONFields.nil)
      (none, some "Godot is not connected") "Godot is not connected"
      { w := (stateAfter lateConnectActions).w, viz := sampleViz } rfl).2.1 (by decide))]
    decide

/-- C25 (no panic for any payload, not kept for the payload `null`): with a peer
connected, the call of `visualizer._internal_foo` is answered with `success` true and the
payload `null` and returns it without error; `json.Unmarshal` leaves the nil map and
reports no error, and the assignment `result["ok"] = true` of `handleInternalCommand`
panics with `assignment to entry in nil map`: no reply is made.  The same holds for
every payload that decodes to `null`. -/
theorem handleInternalCommand_null_panics :
    Reachable (stateAfter (answeredActions "visualizer._internal_foo" (some JSONFields.nil)
      "null")) ∧
    (stateAfter (answeredActions "visualizer._internal_foo" (some JSONFields.nil) "null")).w.b.conn
      = some 1 ∧
    returnOf (stateAfter (answeredActions "visualizer._internal_foo" (some JSONFields.nil)
      "null")) 0 = some (some "null", none) ∧
    plainJSON.Unmarshal "null" = some JSONValue.null ∧
    handleInternalCommand_reply plainJSON (some "null", none)
      = Except.error "assignment to entry in nil map" ∧
    (handleInternalCommand_reply plainJSON (some "null", none)).toOption = none ∧
    (∀ (lib : GoLib) (r : InvokeReturn), r.2 = none →
      lib.Unmarshal r.1.bytes = some JSONValue.null →
      handleInternalCommand_reply lib r = Except.error "assignment to entry in nil map") := by
  refine ⟨stateAfter_reachable _, by decide, by decide, by decide, rfl, by decide, ?_⟩
  intro lib r h1 h2
  simp [handleInternalCommand_reply, h1, unmarshalMap, h2]

end Bridge
